import Mathlib

/-!
# estl::format, a verification development

A shallow embedding of `src/estl/format.hpp` (the template expander `vsformat`,
the field parser `parse_argument`, the argument resolver `aiformat`, the
subscript, conversion and formatting layers) together with the part of the C
library it calls (`atoi`, `vsnprintf`), and of the substitution loop
`LoggerBase::ReplaceSubString` of `src/estl/logger.hpp`, followed by theorems
about them.

Modelling conventions.

* Text is `List Char`.  The characters of templates and arguments are 7-bit
  ASCII, for which `int(c)` is the character code on every platform.
* `int data[8]` is the record `Data` with fields `d0 .. d7` for `data[0] ..
  data[7]`; the unset sentinel is `-1`.
* `std::size_t` is 64 bits wide, `int` and `unsigned` 32, `long` and
  `long long` 64 (the LP64 data model).
* A C++ exception is an `Except.error`; so is undefined behaviour, under the
  constructor `Err.undefined`.
* Where the source reads a numeral into an `int` (`atoi` for the index and
  the subscript, the loops of the width and the precision) the model keeps the
  mathematical value.  It is the value of the source as long as the numeral is
  below `2 ^ 31`; beyond, the source overflows, which is undefined behaviour
  in C and C++.
-/

namespace estl.format

/-- Text: the characters of a `std::string` or of a `std::string_view`. -/
abbrev Str := List Char

/-- The outcomes of a call other than a returned string. -/
inductive Err where
  /-- `std::invalid_argument` with its message. -/
  | invalid_argument (what : Str)
  /-- `std::out_of_range` with its message. -/
  | out_of_range (what : Str)
  /-- `std::length_error`, thrown by `std::string(count, ch)` for a count above `max_size()`. -/
  | length_error
  /-- The behaviour of the C++ code is undefined here (read of uninitialised or
  out-of-bounds memory, invalid `printf` conversion). -/
  | undefined
  /-- The loop model ran out of fuel (never the case for `vsformat`). -/
  | out_of_fuel
  deriving DecidableEq, Repr

/-- The result of a formatting call. -/
abbrev Res := Except Err Str

/-- Equality of results is decidable. -/
instance : DecidableEq Res := fun a b =>
  match a, b with
  | .ok x, .ok y => if h : x = y then isTrue (by rw [h]) else isFalse (by intro e; cases e; exact h rfl)
  | .error x, .error y => if h : x = y then isTrue (by rw [h]) else isFalse (by intro e; cases e; exact h rfl)
  | .ok _, .error _ => isFalse (by intro e; cases e)
  | .error _, .ok _ => isFalse (by intro e; cases e)

/-- A `std::size_t` computation wraps modulo `2 ^ 64`. -/
def size_t (v : Int) : Nat := (v % 2 ^ 64).toNat

/-- A `std::string_view` into a NUL-terminated buffer: `text` is what the view
covers and `after` is what the buffer holds behind the view, up to the
terminating NUL.  Code that takes `begin()` as a C string (`atoi`) or reads at
an index past `size()` sees `after`. -/
structure string_view where
  text : Str
  after : Str
  deriving DecidableEq, Repr

namespace string_view

/-- The member `size()`. -/
def size (v : string_view) : Nat := v.text.length

/-- The member `find_first_of(c)`: the first position of `c`; `none` stands for
the result `npos`. -/
def find_first_of (v : string_view) (c : Char) : Option Nat :=
  if v.text.indexOf c < v.text.length then some (v.text.indexOf c) else none

/-- The member `substr(pos, count)` for `pos <= size()` (every call in the
source satisfies this, so the `std::out_of_range` of `substr` never arises):
the view of at most `count` characters from `pos` on, in the same buffer.
The count `none` is `npos`, the default: everything from `pos` on. -/
def substr (v : string_view) (pos : Nat) (count : Option Nat := none) : string_view :=
  match count with
  | none => { text := v.text.drop pos, after := v.after }
  | some count =>
    { text := (v.text.drop pos).take count,
      after := (v.text.drop pos).drop count ++ v.after }

/-- The C string at `begin()`: the view and everything behind it in the buffer. -/
def c_str (v : string_view) : Str := v.text ++ v.after

/-- The member `operator[]`, which does no bounds check: past `size()` it reads
what the buffer holds there, at last the terminating NUL. -/
def get (v : string_view) (i : Nat) : Char := (v.text ++ v.after).getD i (Char.ofNat 0)

end string_view

/-- The C predicate `isspace` in the "C" locale. -/
def isspace (c : Char) : Bool :=
  c = ' ' || (9 ≤ c.toNat && c.toNat ≤ 13)

/-- The C predicate `isdigit`. -/
def isdigit (c : Char) : Bool := 48 ≤ c.toNat && c.toNat ≤ 57

/-- The value of the leading run of decimal digits of `s`, from accumulator `acc`. -/
def digits_value : Str → Nat → Nat
  | [], acc => acc
  | c :: s, acc => if isdigit c then digits_value s (acc * 10 + (c.toNat - 48)) else acc

/-- The C function `atoi`: skip white space, read an optional sign and a run of
decimal digits, stop at the first other character (also at the NUL that ends
the buffer).  The result is an `int`, and the source stores it in an `int`
slot.  For a numeral whose value is not one of `int` the behaviour of `atoi`
is undefined in C; the model keeps the mathematical value there, so that it is
the value of the source exactly for the numerals below `2 ^ 31` in absolute
value. -/
def atoi (s : Str) : Int :=
  match s.dropWhile isspace with
  | '-' :: t => - (digits_value t 0 : Int)
  | '+' :: t => (digits_value t 0 : Int)
  | t => (digits_value t 0 : Int)

/-- The array `int data[8]`: `d0` argument index, `d1` padding character, `d2`
alignment, `d3` sign, `d4` width, `d5` precision, `d6` conversion character,
`d7` subscript. -/
structure Data where
  d0 : Int
  d1 : Int
  d2 : Int
  d3 : Int
  d4 : Int
  d5 : Int
  d6 : Int
  d7 : Int
  deriving DecidableEq, Repr

/-- Every slot unset: the state after the first loop of `parse_argument`. -/
def Data.unset : Data := ⟨-1, -1, -1, -1, -1, -1, -1, -1⟩

/-- The code `int(c)` of a character. -/
def int_of_char (c : Char) : Int := (c.toNat : Int)

/-- Is `c` one of the alignment characters. -/
def is_align (c : Char) : Bool := c = '<' || c = '>' || c = '=' || c = '^'

/-- The index and subscript part of `parse_argument` on the view `v` (lines
979-990 and 995-1006): sets `d0` from `atoi` and, when `v` has a `[`, `d7`
from the text after it.  The count `v.size() - v.find_first_of('[') - 2` of
the subscript is a `std::size_t`: when `[` is the last character it wraps to
`npos`. -/
def parse_index (data : Data) (v : string_view) : Data :=
  match v.find_first_of '[' with
  | none => { data with d0 := atoi v.c_str }
  | some k =>
    let subscript := v.substr (k + 1) (if k + 2 ≤ v.size then some (v.size - k - 2) else none)
    let index_fmt := v.substr 0 (some k)
    let data := if index_fmt.size ≠ 0 then { data with d0 := atoi index_fmt.c_str } else data
    { data with d7 := atoi subscript.c_str }

/-- The `while` loop of `parse_argument` that reads the width (lines 1041-1047):
returns `data[4]` and the new `fmt_index`.  The fuel is the number of
characters left, which bounds the iterations.  The slot `data[4]` is an `int`:
the model keeps the mathematical value of the accumulation of line 1045, which
is the value of the source as long as it is below `2 ^ 31` (so for every run
of at most nine digits); from there on the addition of the source overflows,
which is undefined behaviour in C++. -/
def parse_width (fmt : string_view) : Nat → Nat → Int → Int × Nat
  | 0, i, d4 => (d4, i)
  | fuel + 1, i, d4 =>
    if i < fmt.size && isdigit (fmt.get i) then
      parse_width fmt fuel (i + 1)
        ((if d4 = -1 then 0 else d4) * 10 + (int_of_char (fmt.get i) - 48))
    else (d4, i)

/-- The `while` loop of `parse_argument` that reads the precision (lines
1054-1057): returns `data[5]` and the new `fmt_index`.  As for the width, the
model keeps the mathematical value of the accumulation of line 1055, which is
the value of the `int` slot of the source as long as it is below `2 ^ 31`. -/
def parse_precision (fmt : string_view) : Nat → Nat → Int → Int × Nat
  | 0, i, d5 => (d5, i)
  | fuel + 1, i, d5 =>
    if i < fmt.size && isdigit (fmt.get i) then
      parse_precision fmt fuel (i + 1) (d5 * 10 + (int_of_char (fmt.get i) - 48))
    else (d5, i)

/-- Is `c` accepted as conversion character (lines 1065-1070). -/
def is_conversion (c : Char) : Bool :=
  c.toNat = 37 || (69 ≤ c.toNat && c.toNat ≤ 71) || c.toNat = 88 ||
  (98 ≤ c.toNat && c.toNat ≤ 103) || c.toNat = 111 || c.toNat = 115 || c.toNat = 120

/-- The value stored in `data[2]` for an alignment character (lines 1019-1022). -/
def align_code (c : Char) : Int :=
  if c = '<' then 0 else if c = '>' then 1 else if c = '=' then 2 else 3

/-- The value stored in `data[3]` for a sign character (lines 1028-1030). -/
def sign_code (c : Char) : Int :=
  if c = '+' then 0 else if c = '-' then 1 else 2

/-- Is `c` one of the sign characters (lines 1026-1027). -/
def is_sign (c : Char) : Bool := c = '+' || c = '-' || c = ' '

/-- The state of the scan of a specifier: the record and `fmt_index`. -/
abbrev Scan := Data × Nat

/-- A step of the scan either returns from `parse_argument` (`Except.error`
with the returned pair) or goes on with a new state. -/
abbrev Step := Except (Bool × Data) Scan

/-- The fill step (lines 1012-1016): a character in front of an alignment
character is the fill, in a specifier of more than two characters. -/
def spec_fill (fmt : string_view) (data : Data) : Scan :=
  if fmt.size > 2 && is_align (fmt.get 1) then
    ({ data with d1 := int_of_char (fmt.get 0) }, 0 + 1)
  else (data, 0)

/-- The shape shared by the alignment, sign and zero steps (lines 1017-1025,
1026-1033, 1034-1040): when the character at `fmt_index` passes `test`, store
it with `store`, advance, and return `true` if the specifier is exhausted. -/
def spec_char (fmt : string_view) (test : Char → Bool) (store : Data → Char → Data)
    (s : Scan) : Step :=
  if test (fmt.get s.2) then
    if s.2 + 1 ≥ fmt.size then .error (true, store s.1 (fmt.get s.2))
    else .ok (store s.1 (fmt.get s.2), s.2 + 1)
  else .ok s

/-- The alignment step (lines 1017-1025). -/
def spec_align (fmt : string_view) (s : Scan) : Step :=
  spec_char fmt is_align (fun data c => { data with d2 := align_code c }) s

/-- The sign step (lines 1026-1033). -/
def spec_sign (fmt : string_view) (s : Scan) : Step :=
  spec_char fmt is_sign (fun data c => { data with d3 := sign_code c }) s

/-- The zero-flag step (lines 1034-1040). -/
def spec_zero (fmt : string_view) (s : Scan) : Step :=
  spec_char fmt (fun c => c = '0') (fun data _ => { data with d1 := int_of_char '0' }) s

/-- The width step (lines 1041-1050). -/
def spec_width (fmt : string_view) (s : Scan) : Step :=
  let r := parse_width fmt (fmt.size - s.2) s.2 s.1.d4
  if r.2 ≥ fmt.size then .error (true, { s.1 with d4 := r.1 })
  else .ok ({ s.1 with d4 := r.1 }, r.2)

/-- The precision step (lines 1051-1064). -/
def spec_precision (fmt : string_view) (s : Scan) : Step :=
  if fmt.get s.2 = '.' then
    let r := parse_precision fmt (fmt.size - (s.2 + 1)) (s.2 + 1) 0
    if r.2 ≥ fmt.size then .error (true, { s.1 with d5 := r.1 })
    else .ok ({ s.1 with d5 := r.1 }, r.2)
  else if s.2 ≥ fmt.size then .error (true, s.1)
  else .ok s

/-- The conversion step and the final test for leftover text (lines 1065-1077). -/
def spec_conversion (fmt : string_view) (s : Scan) : Bool × Data :=
  let s : Scan :=
    if is_conversion (fmt.get s.2) then
      ({ s.1 with d6 := int_of_char (fmt.get s.2) }, s.2 + 1)
    else s
  if s.2 < fmt.size then (false, s.1) else (true, s.1)

/-- The steps of the scan in the order of the source. -/
def spec_steps (data : Data) (fmt : string_view) : Except (Bool × Data) (Bool × Data) :=
  (spec_align fmt (spec_fill fmt data)).bind fun s =>
  (spec_sign fmt s).bind fun s =>
  (spec_zero fmt s).bind fun s =>
  (spec_width fmt s).bind fun s =>
  (spec_precision fmt s).bind fun s =>
  .ok (spec_conversion fmt s)

/-- The specifier part of `parse_argument` (lines 1011-1077) on the text `fmt`
behind the first `:`. -/
def parse_spec (data : Data) (fmt : string_view) : Bool × Data :=
  match spec_steps data fmt with
  | .error r => r
  | .ok r => r

/-- The function `parse_argument(data, fmt)`: resets the eight slots, parses
the field text `fmt` into them and reports whether the text is valid. -/
def parse_argument (_data : Data) (fmt : string_view) : Bool × Data :=
  let data := Data.unset
  match fmt.find_first_of ':' with
  | some colon =>
    let index_fmt := fmt.substr 0 (some colon)
    let data := if index_fmt.size ≠ 0 then parse_index data index_fmt else data
    parse_spec data (fmt.substr (colon + 1))
  | none =>
    if fmt.size ≠ 0 then
      (true, parse_index { data with d0 := atoi fmt.c_str } fmt)
    else
      (true, data)

/-! ## The C library: `vsnprintf` -/

/-- A floating-point value, kept abstract: `printf fmt` is the text `vsnprintf`
produces for it under the format string `fmt`, `to_int` and `to_char` are its
conversions `int(x)` and `char(x)`. -/
structure Floating where
  printf : Str → Str
  to_int : Int
  to_char : Char

/-- The value handed to `vsnprintf` through the variable argument list. -/
inductive VArg where
  /-- An integer or character (after the default promotions). -/
  | int (v : Int)
  /-- A C string. -/
  | str (s : Str)
  /-- A floating-point value. -/
  | flt (f : Floating)

/-- One parsed conversion specification of a `printf` format. -/
structure PSpec where
  plus : Bool := false
  minus : Bool := false
  space : Bool := false
  zero : Bool := false
  width : Option Nat := none
  prec : Option Nat := none
  long : Nat := 0
  deriving DecidableEq, Repr

/-- Reads the flag characters of a conversion specification. -/
def printf_flags : Str → PSpec → PSpec × Str
  | [], sp => (sp, [])
  | c :: s, sp =>
    if c = '+' then printf_flags s { sp with plus := true }
    else if c = '-' then printf_flags s { sp with minus := true }
    else if c = ' ' then printf_flags s { sp with space := true }
    else if c = '0' then printf_flags s { sp with zero := true }
    else (sp, c :: s)

/-- Reads a run of decimal digits: its value, `none` when the run is empty. -/
def printf_number (s : Str) : Option Nat × Str :=
  if (s.takeWhile isdigit).isEmpty then (none, s)
  else (some (digits_value s 0), s.dropWhile isdigit)

/-- Reads the optional precision: a `.` and a possibly empty run of digits. -/
def printf_precision : Str → Option Nat × Str
  | '.' :: s => (some ((printf_number s).1.getD 0), (printf_number s).2)
  | s => (none, s)

/-- Reads the length modifiers `l` and `ll`. -/
def printf_length : Str → Nat × Str
  | 'l' :: 'l' :: s => (2, s)
  | 'l' :: s => (1, s)
  | s => (0, s)

/-- The text `s` padded on the left with `c` to `n` characters. -/
def pad_left (n : Nat) (c : Char) (s : Str) : Str := List.replicate (n - s.length) c ++ s

/-- The text `s` padded on the right with `c` to `n` characters. -/
def pad_right (n : Nat) (c : Char) (s : Str) : Str := s ++ List.replicate (n - s.length) c

/-- The text of an integer conversion from its sign prefix and its digits:
the precision is a minimum number of digits, the width a minimum field
width; `-` pads on the right, `0` (without a precision) pads with zeros behind
the sign, otherwise spaces go in front. -/
def printf_integer (sp : PSpec) (sign : Str) (digits : Str) (is_zero : Bool) : Str :=
  let digits :=
    match sp.prec with
    | some p => if p = 0 && is_zero then [] else pad_left p '0' digits
    | none => digits
  let w := sp.width.getD 0
  if sp.minus then pad_right w ' ' (sign ++ digits)
  else if sp.zero && sp.prec.isNone then sign ++ pad_left (w - sign.length) '0' digits
  else pad_left w ' ' (sign ++ digits)

/-- The text of a `%s` or `%c` conversion: the precision cuts, the width pads with spaces. -/
def printf_text (sp : PSpec) (s : Str) : Str :=
  let w := sp.width.getD 0
  if sp.minus then pad_right w ' ' s else pad_left w ' ' s

/-- The number of value bits of an integer conversion: `int` without a length
modifier, `long` and `long long` with `l` and `ll`. -/
def printf_bits (sp : PSpec) : Nat := if sp.long = 0 then 32 else 64

/-- The value `v` as a signed integer of `bits` bits. -/
def wrap_signed (bits : Nat) (v : Int) : Int :=
  (v + 2 ^ (bits - 1)) % 2 ^ bits - 2 ^ (bits - 1)

/-- The value `v` as an unsigned integer of `bits` bits. -/
def wrap_unsigned (bits : Nat) (v : Int) : Nat := (v % 2 ^ bits).toNat

/-- The `char` of an `int`: its low byte. -/
def char_of_int (v : Int) : Char := Char.ofNat (v % 256).toNat

/-- One conversion of `vsnprintf`: the text for conversion character `c` under
`sp`, or `none` where C leaves the behaviour undefined (a conversion character
that does not exist, an argument of the wrong kind). -/
def printf_conversion (sp : PSpec) (c : Char) (arg : VArg) : Option Str :=
  match arg with
  | .int v =>
    if c = 'd' then
      let x := wrap_signed (printf_bits sp) v
      some (printf_integer sp
        (if x < 0 then ['-'] else if sp.plus then ['+'] else if sp.space then [' '] else [])
        (Nat.toDigits 10 x.natAbs) (x = 0))
    else if c = 'u' then
      some (printf_integer sp [] (Nat.toDigits 10 (wrap_unsigned (printf_bits sp) v))
        (wrap_unsigned (printf_bits sp) v = 0))
    else if c = 'x' then
      some (printf_integer sp [] (Nat.toDigits 16 (wrap_unsigned (printf_bits sp) v))
        (wrap_unsigned (printf_bits sp) v = 0))
    else if c = 'X' then
      some (printf_integer sp [] ((Nat.toDigits 16 (wrap_unsigned (printf_bits sp) v)).map Char.toUpper)
        (wrap_unsigned (printf_bits sp) v = 0))
    else if c = 'o' then
      some (printf_integer sp [] (Nat.toDigits 8 (wrap_unsigned (printf_bits sp) v))
        (wrap_unsigned (printf_bits sp) v = 0))
    else if c = 'c' then some (printf_text sp [char_of_int v])
    else none
  | .str s =>
    if c = 's' then
      some (printf_text sp (match sp.prec with | some p => s.take p | none => s))
    else none
  | .flt _ => none

/-- Is `c` a floating-point conversion character of `printf`. -/
def is_float_conversion (c : Char) : Bool :=
  c = 'e' || c = 'E' || c = 'f' || c = 'F' || c = 'g' || c = 'G'

/-- The complete text `vsnprintf` would produce for the format `fmt` with one
argument (the value it returns is the length of this text): the literal text
before `%`, the conversion, the literal text behind it.  `none` is undefined
behaviour. -/
def vsnprintf (fmt : Str) (arg : VArg) : Option Str :=
  let pre := fmt.takeWhile (fun c => c != '%')
  match fmt.dropWhile (fun c => c != '%') with
  | [] => some pre
  | _ :: rest =>
    let (sp, rest) := printf_flags rest {}
    let (w, rest) := printf_number rest
    let (p, rest) := printf_precision rest
    let (l, rest) := printf_length rest
    let sp := { sp with width := w, prec := p, long := l }
    match rest with
    | [] => none
    | c :: tail =>
      if tail.contains '%' then none
      else
        match arg with
        | .flt f => if is_float_conversion c then some (f.printf fmt) else none
        | arg => (printf_conversion sp c arg).map (fun t => pre ++ t ++ tail)

/-! ## The helpers of `format.hpp` -/

/-- The argument types `T` the formatter is instantiated with. -/
inductive Ty where
  | bool | char | int | unsigned | long | unsigned_long | long_long | unsigned_long_long
  | float | double | long_double | c_str | string | custom
  deriving DecidableEq, Repr

/-- The value `sizeof(T) * 8` for the arithmetic types (LP64). -/
def Ty.bits : Ty → Nat
  | .bool => 8 | .char => 8 | .int => 32 | .unsigned => 32
  | .long => 64 | .unsigned_long => 64 | .long_long => 64 | .unsigned_long_long => 64
  | .float => 32 | .double => 64 | .long_double => 128
  | .c_str => 64 | .string => 256 | .custom => 8

/-- The function `type_name<T>()`: the demangled name of the type. -/
def type_name : Ty → Str
  | .bool => "bool".toList | .char => "char".toList | .int => "int".toList
  | .unsigned => "unsigned int".toList | .long => "long".toList
  | .unsigned_long => "unsigned long".toList | .long_long => "long long".toList
  | .unsigned_long_long => "unsigned long long".toList
  | .float => "float".toList | .double => "double".toList
  | .long_double => "long double".toList | .c_str => "char const*".toList
  | .string => "std::__cxx11::basic_string<char, std::char_traits<char>, std::allocator<char> >".toList
  | .custom => "custom".toList

/-- The function `std::to_string` on an integer. -/
def to_string (v : Int) : Str :=
  if v < 0 then '-' :: Nat.toDigits 10 v.natAbs else Nat.toDigits 10 v.toNat

/-- The function `negetive_int(argument)` on an integer value:
`static_cast<long long>(argument) < 0`. -/
def negetive_int (argument : Int) : Bool := wrap_signed 64 argument < 0

/-- The function `make_positive<T>(argument)`: `-1 * argument` for a negative
`int`, `long` or `long long`, the argument itself otherwise.  (For the least
value of the type the product overflows, which is undefined in C++; the
mathematical value is kept.) -/
def make_positive (T : Ty) (argument : Int) : Int :=
  if T = .int || T = .long || T = .long_long then
    if negetive_int argument = true then -1 * argument else argument
  else argument

/-- The function `to_xstring(n, fmt, ...)`: `vsnprintf` into a buffer with limit
`n` (255 when `n` is 0), then a string of the returned length.  When the text
has `n` characters or more, `vsnprintf` writes `n - 1` of them and a NUL, and
the string of the returned length is cut: behind the `n - 1` characters it
holds that NUL and, for a text of more than `n` characters, bytes of the
buffer that were never written.  The model gives no text for a cut string
(`Err.undefined`); at exactly `n` characters the source returns the `n - 1`
characters and the NUL. -/
def to_xstring (n : Nat) (fmt : Str) (arg : VArg) : Res :=
  let n := if n ≠ 0 then n else 255
  match vsnprintf fmt arg with
  | none => .error .undefined
  | some out => if out.length < n then .ok out else .error .undefined

/-- The member `std::bitset<N>::to_string()` of the bitset with value `v`:
the bits `N - 1` down to `0`. -/
def bitset_to_string : Nat → Nat → Str
  | 0, _ => []
  | N + 1, v => (if v.testBit N then '1' else '0') :: bitset_to_string N v

/-- The function `to_binary<TString, T>(n, fmt, argument)` for an integer
argument: the bitset of `make_positive(argument)` with size `sizeof(T) * 8`,
its highest bit set when the argument is negative, printed with `fmt`. -/
def to_binary (T : Ty) (n : Nat) (fmt : Str) (argument : Int) : Res :=
  let bits : Nat := size_t (make_positive T argument) % 2 ^ T.bits
  let bits : Nat := if negetive_int argument = true then bits ||| 2 ^ (T.bits - 1) else bits
  to_xstring (T.bits + n) fmt (.str (bitset_to_string T.bits bits))

/-- The largest `std::string` (`max_size()` of libstdc++ on a 64-bit target). -/
def max_size : Nat := 2 ^ 62 - 1

/-- The constructor `std::string(count, ch)`: `std::length_error` above `max_size()`. -/
def string_fill (count : Nat) (ch : Char) : Res :=
  if count ≤ max_size then .ok (List.replicate count ch) else .error .length_error

/-- The `printf` format that `data_fmt` builds (lines 380-393). -/
def data_fmt_format (data : Data) (type : Str) : Str :=
  let fmt : Str := ['%']
  let (fmt, type) := if type.head? = some '-' then ('-' :: fmt, type.drop 1) else (fmt, type)
  let fmt := if data.d3 = 0 then fmt ++ ['+'] else fmt
  let fmt := if data.d3 = 1 then fmt ++ ['-'] else fmt
  let fmt := if data.d3 = 2 then fmt ++ [' '] else fmt
  let fmt := if data.d1 = int_of_char '0' then fmt ++ ['0'] else fmt
  let fmt :=
    if data.d4 ≠ -1 && (data.d1 = int_of_char '0' || data.d1 = -1) && data.d2 = -1 then
      fmt ++ to_string data.d4
    else fmt
  let fmt := if data.d5 ≠ -1 then fmt ++ '.' :: to_string data.d5 else fmt
  fmt ++ type

/-- The padding of `data_fmt` (lines 400-420) applied to the printed text `fmt`. -/
def data_fmt_pad (data : Data) (fmt : Str) : Res :=
  if data.d4 ≠ -1 && size_t data.d4 > fmt.length then
    let fill : Char := char_of_int (if data.d1 = -1 then int_of_char ' ' else data.d1)
    let count : Nat := size_t (data.d4 - fmt.length)
    if data.d2 = 0 then
      (string_fill count fill).map (fun pad => fmt ++ pad)
    else if data.d2 = 1 then
      (string_fill count fill).map (fun pad => pad ++ fmt)
    else if data.d2 = 2 then
      if fmt.head? = some '-' || fmt.head? = some '+' then
        (string_fill count fill).map (fun pad => fmt.take 1 ++ pad ++ fmt.drop 1)
      else
        (string_fill count fill).map (fun pad => pad ++ fmt)
    else if data.d2 = 3 then
      match string_fill (count / 2) fill, string_fill ((count + 1) / 2) fill with
      | .ok l, .ok r => .ok (l ++ fmt ++ r)
      | .error e, _ => .error e
      | _, .error e => .error e
    else .ok fmt
  else .ok fmt

/-- The function `data_fmt<T>(data, n, type, args)`: build the `printf` format
from the sign, zero, width and precision slots, print (`to_binary` when the
format ends in `b`, with that `b` turned into `s`), then pad to the width as
the alignment says.  `to_binary` returns the empty string for a `T` that is
not convertible to `unsigned long long`. -/
def data_fmt (data : Data) (n : Nat) (type : Str) (T : Ty) (args : VArg) : Res :=
  let fmt := data_fmt_format data type
  let printed : Res :=
    if fmt.getLast? = some 'b' then
      match args with
      | .int v => to_binary T n (fmt.dropLast ++ ['s']) v
      | .str _ => .ok []
      | .flt _ => .error .undefined
    else to_xstring n fmt args
  match printed with
  | .error e => .error e
  | .ok fmt => data_fmt_pad data fmt

/-! ## Arguments and the formatting layers -/

/-- One element of the argument tuple: a value of one of the types the
formatter accepts.  `string` is `std::string`, the stream-insertable type that
takes the generic formatter; `custom` is a class whose only capability is a
member `Format(char, unsigned, unsigned, int, int)`. -/
inductive Arg where
  | bool (b : Bool)
  | char (c : Char)
  | int (v : Int)
  | unsigned (v : Int)
  | long (v : Int)
  | unsigned_long (v : Int)
  | long_long (v : Int)
  | unsigned_long_long (v : Int)
  | float (f : Floating)
  | double (f : Floating)
  | long_double (f : Floating)
  | c_str (s : Str)
  | string (s : Str)
  | custom (Format : Char → Nat → Nat → Int → Int → Str)

/-- The static type of an argument. -/
def Arg.ty : Arg → Ty
  | .bool _ => .bool | .char _ => .char | .int _ => .int | .unsigned _ => .unsigned
  | .long _ => .long | .unsigned_long _ => .unsigned_long | .long_long _ => .long_long
  | .unsigned_long_long _ => .unsigned_long_long
  | .float _ => .float | .double _ => .double | .long_double _ => .long_double
  | .c_str _ => .c_str | .string _ => .string | .custom _ => .custom

/-- The conversion-character table of the primitive `aformat` for the signed
types `int`, `long` and `long long` is written out per type in the source;
this is the `int` branch (lines 483-513). -/
def aformat_int (data : Data) (argument : Int) : Res :=
  let n := 4 * 4
  if data.d6 = -1 then data_fmt data n "d".toList .int (.int argument)
  else if data.d6 = 88 then
    if negetive_int argument = true then
      data_fmt data n "-X".toList .int (.int (make_positive .int argument))
    else data_fmt data n "X".toList .int (.int argument)
  else if data.d6 = 98 then data_fmt data n "b".toList .int (.int argument)
  else if data.d6 = 100 then data_fmt data n "d".toList .int (.int argument)
  else if data.d6 = 111 then
    if negetive_int argument = true then
      data_fmt data n "-o".toList .int (.int (make_positive .int argument))
    else data_fmt data n "o".toList .int (.int argument)
  else if data.d6 = 120 then
    if negetive_int argument = true then
      data_fmt data n "-x".toList .int (.int (make_positive .int argument))
    else data_fmt data n "x".toList .int (.int argument)
  else data_fmt data n "d".toList .int (.int argument)

/-- The `unsigned` branch of the primitive `aformat` (lines 514-529). -/
def aformat_unsigned (data : Data) (argument : Int) : Res :=
  let n := 4 * 4
  if data.d6 = -1 then data_fmt data n "u".toList .unsigned (.int argument)
  else if data.d6 = 88 then data_fmt data n "X".toList .unsigned (.int argument)
  else if data.d6 = 98 then data_fmt data n "b".toList .unsigned (.int argument)
  else if data.d6 = 100 then data_fmt data n "u".toList .unsigned (.int argument)
  else if data.d6 = 111 then data_fmt data n "o".toList .unsigned (.int argument)
  else if data.d6 = 120 then data_fmt data n "x".toList .unsigned (.int argument)
  else data_fmt data n "u".toList .unsigned (.int argument)

/-- The `long` branch of the primitive `aformat` (lines 530-560). -/
def aformat_long (data : Data) (argument : Int) : Res :=
  let n := 4 * 8
  if data.d6 = -1 then data_fmt data n "ld".toList .long (.int argument)
  else if data.d6 = 88 then
    if negetive_int argument = true then
      data_fmt data n "-lH".toList .long (.int (make_positive .long argument))
    else data_fmt data n "lH".toList .long (.int argument)
  else if data.d6 = 98 then data_fmt data n "b".toList .long (.int argument)
  else if data.d6 = 100 then data_fmt data n "ld".toList .long (.int argument)
  else if data.d6 = 111 then
    if negetive_int argument = true then
      data_fmt data n "-lo".toList .long (.int (make_positive .long argument))
    else data_fmt data n "lo".toList .long (.int argument)
  else if data.d6 = 120 then
    if negetive_int argument = true then
      data_fmt data n "-lh".toList .long (.int (make_positive .long argument))
    else data_fmt data n "lh".toList .long (.int argument)
  else data_fmt data n "ld".toList .long (.int argument)

/-- The `unsigned long` branch of the primitive `aformat` (lines 561-576). -/
def aformat_unsigned_long (data : Data) (argument : Int) : Res :=
  let n := 4 * 8
  if data.d6 = -1 then data_fmt data n "lu".toList .unsigned_long (.int argument)
  else if data.d6 = 88 then data_fmt data n "lX".toList .unsigned_long (.int argument)
  else if data.d6 = 98 then data_fmt data n "b".toList .unsigned_long (.int argument)
  else if data.d6 = 100 then data_fmt data n "lu".toList .unsigned_long (.int argument)
  else if data.d6 = 111 then data_fmt data n "lo".toList .unsigned_long (.int argument)
  else if data.d6 = 120 then data_fmt data n "lx".toList .unsigned_long (.int argument)
  else data_fmt data n "lu".toList .unsigned_long (.int argument)

/-- The `long long` branch of the primitive `aformat` (lines 577-608): its
first statement returns the `lld` rendering, the table behind it is dead code. -/
def aformat_long_long (data : Data) (argument : Int) : Res :=
  data_fmt data (4 * 8) "lld".toList .long_long (.int argument)

/-- The `unsigned long long` branch of the primitive `aformat` (lines 609-630). -/
def aformat_unsigned_long_long (data : Data) (argument : Int) : Res :=
  let n := 4 * 8
  if data.d6 = -1 then data_fmt data n "llu".toList .unsigned_long_long (.int argument)
  else if data.d6 = 88 then data_fmt data n "llX".toList .unsigned_long_long (.int argument)
  else if data.d6 = 98 then data_fmt data n "b".toList .unsigned_long_long (.int argument)
  else if data.d6 = 100 then data_fmt data n "llu".toList .unsigned_long_long (.int argument)
  else if data.d6 = 111 then data_fmt data n "llo".toList .unsigned_long_long (.int argument)
  else if data.d6 = 120 then data_fmt data n "llx".toList .unsigned_long_long (.int argument)
  else data_fmt data n "llu".toList .unsigned_long_long (.int argument)

/-- The `float`, `double` and `long double` branches of the primitive `aformat`
(lines 631-687): `n` is `max_exponent10 + 20` and `l` the length prefix of the
type string (`l` for `long double`). -/
def aformat_floating (data : Data) (T : Ty) (n : Nat) (l : Str) (argument : Floating) : Res :=
  if data.d6 = -1 then data_fmt data n (l ++ ['g']) T (.flt argument)
  else if data.d6 = 69 then data_fmt data n (l ++ ['E']) T (.flt argument)
  else if data.d6 = 70 then data_fmt data n (l ++ ['F']) T (.flt argument)
  else if data.d6 = 71 then data_fmt data n (l ++ ['G']) T (.flt argument)
  else if data.d6 = 101 then data_fmt data n (l ++ ['e']) T (.flt argument)
  else if data.d6 = 102 then data_fmt data n (l ++ ['f']) T (.flt argument)
  else if data.d6 = 103 then data_fmt data n (l ++ ['g']) T (.flt argument)
  else data_fmt data n (l ++ ['g']) T (.flt argument)

/-- The generic `aformat` (lines 722-750) on a `std::string`: the stream pads
to `print_width` with the fill character, on the right under `std::left` and
on the left otherwise; center alignment pads by hand around the text printed
at its natural width.  The two pad lengths are `floor` and `ceil` of half of
`print_width - out_str.size()`, a `std::size_t` (exact in `double` below
`2 ^ 53`; a wrapped difference is above `2 ^ 63` and its half above
`max_size` whatever the rounding). -/
def aformat_generic (data : Data) (argument : Str) : Res :=
  let print_width : Int := data.d4
  let fill : Char := char_of_int (if data.d1 = -1 then int_of_char ' ' else data.d1)
  let left : Bool := data.d2 = 1
  let setw : Nat := if print_width > -1 && data.d2 ≠ 3 then print_width.toNat else 0
  let out_str : Str := if left then pad_right setw fill argument else pad_left setw fill argument
  if data.d2 = 3 then
    let count : Nat := size_t (print_width - out_str.length)
    match string_fill (count / 2) fill, string_fill ((count + 1) / 2) fill with
    | .ok l, .ok r => .ok (l ++ out_str ++ r)
    | .error e, _ => .error e
    | _, .error e => .error e
  else .ok out_str

/-- The three overloads of `aformat(data, argument)`: the member `Format` of a
class that has one, the primitive formatter for the twelve basic types, the
generic formatter otherwise. -/
def aformat (data : Data) (argument : Arg) : Res :=
  match argument with
  | .custom Format =>
    .ok (Format (char_of_int (if data.d1 = -1 then int_of_char ' ' else data.d1))
      (wrap_unsigned 32 data.d2) (wrap_unsigned 32 data.d3) data.d4 data.d5)
  | .bool b => data_fmt data (4 * 5 * 1) "s".toList .c_str (.str (if b then "true".toList else "false".toList))
  | .char c => data_fmt data (4 * 1) "c".toList .char (.int (int_of_char c))
  | .int v => aformat_int data v
  | .unsigned v => aformat_unsigned data v
  | .long v => aformat_long data v
  | .unsigned_long v => aformat_unsigned_long data v
  | .long_long v => aformat_long_long data v
  | .unsigned_long_long v => aformat_unsigned_long_long data v
  | .float f => aformat_floating data .float (38 + 20) [] f
  | .double f => aformat_floating data .double (308 + 20) [] f
  | .long_double f => aformat_floating data .long_double (4932 + 20) ['l'] f
  | .c_str s => data_fmt data 255 "s".toList .c_str (.str s)
  | .string s => aformat_generic data s

/-- The trait `std::is_convertible<T, U>` for `U` one of `double`, `int`,
`char`: every arithmetic type converts, text and the custom class do not. -/
def is_convertible : Arg → Bool
  | .c_str _ => false
  | .string _ => false
  | .custom _ => false
  | _ => true

/-- The integer value of an argument of integer, character or boolean type. -/
def Arg.integral : Arg → Int
  | .bool b => if b then 1 else 0
  | .char c => int_of_char c
  | .int v => v | .unsigned v => v | .long v => v | .unsigned_long v => v
  | .long_long v => v | .unsigned_long_long v => v
  | _ => 0

/-- The target types `U` of the conversion layer. -/
inductive Target where
  | double | int | char
  deriving DecidableEq, Repr

/-- The name of a target type. -/
def Target.ty : Target → Ty
  | .double => .double | .int => .int | .char => .char

/-- The value `U(argument)` of a convertible argument; `to_double` is the
conversion of an integer value to `double`. -/
def convert (to_double : Int → Floating) (U : Target) (argument : Arg) : Arg :=
  match U, argument with
  | .double, .float f => .double f
  | .double, .double f => .double f
  | .double, .long_double f => .double f
  | .double, a => .double (to_double a.integral)
  | .int, .float f => .int f.to_int
  | .int, .double f => .int f.to_int
  | .int, .long_double f => .int f.to_int
  | .int, a => .int (wrap_signed 32 a.integral)
  | .char, .float f => .char f.to_char
  | .char, .double f => .char f.to_char
  | .char, .long_double f => .char f.to_char
  | .char, a => .char (char_of_int a.integral)

/-- The two overloads of `acformat<T, U>(data, argument)`: format the converted
value, or throw when `T` does not convert to `U`. -/
def acformat (to_double : Int → Floating) (U : Target) (data : Data) (argument : Arg) : Res :=
  if is_convertible argument then aformat data (convert to_double U argument)
  else
    .error (.invalid_argument
      ("argument index (which is ".toList ++ to_string data.d0 ++ ") of type ".toList ++
        type_name argument.ty ++ " is not convertable to type of ".toList ++ type_name U.ty))

/-- Is the type one of `float`, `double`, `long double`. -/
def Ty.is_floating (T : Ty) : Bool := T = .float || T = .double || T = .long_double

/-- Is the type one of the six integer types of `acdformat`. -/
def Ty.is_integer (T : Ty) : Bool :=
  T = .int || T = .unsigned || T = .long || T = .unsigned_long || T = .long_long ||
  T = .unsigned_long_long

/-- The function `acdformat(data, argument)`: format the argument as it is, or
converted to the class of the conversion character. -/
def acdformat (to_double : Int → Floating) (data : Data) (argument : Arg) : Res :=
  if data.d6 = -1 || data.d6 = 115 then aformat data argument
  else if data.d6 = 37 || data.d6 = 69 || data.d6 = 70 || data.d6 = 71 || data.d6 = 101 ||
      data.d6 = 102 || data.d6 = 103 then
    if argument.ty.is_floating then aformat data argument
    else acformat to_double .double data argument
  else if data.d6 = 88 || data.d6 = 98 || data.d6 = 100 || data.d6 = 111 || data.d6 = 120 then
    if argument.ty.is_integer then aformat data argument
    else acformat to_double .int data argument
  else if data.d6 = 99 then
    if argument.ty = .char then aformat data argument
    else acformat to_double .char data argument
  else .ok []

/-- The trait `has_subscript<T, int>`: C strings and `std::string`. -/
def has_subscript : Arg → Bool
  | .c_str _ => true
  | .string _ => true
  | _ => false

/-- The element `s[i]` of a text, a `char`: the terminating NUL at `i = size`,
undefined outside. -/
def subscript (s : Str) (i : Int) : Except Err Arg :=
  if 0 ≤ i ∧ i.toNat < s.length then .ok (.char (s.getD i.toNat (Char.ofNat 0)))
  else if i = s.length then .ok (.char (Char.ofNat 0))
  else .error .undefined

/-- The expression `argument[i]` on a subscriptable argument. -/
def Arg.subscript : Arg → Int → Except Err Arg
  | .c_str s, i => estl.format.subscript s i
  | .string s, i => estl.format.subscript s i
  | _, _ => .error .undefined

/-- The two overloads of `asformat(data, argument)`: a subscriptable argument is
formatted itself or, with a subscript requested, its element; any other
argument is formatted itself, and a requested subscript throws. -/
def asformat (to_double : Int → Floating) (data : Data) (argument : Arg) : Res :=
  if has_subscript argument then
    if data.d7 = -1 then acdformat to_double data argument
    else (argument.subscript data.d7).bind (acdformat to_double data)
  else
    if data.d7 ≠ -1 then
      .error (.invalid_argument
        ("argument index (which is ".toList ++ to_string data.d0 ++ ") of type ".toList ++
          type_name argument.ty ++
          " is not subscriptable, but format string requested subscript".toList))
    else acdformat to_double data argument

/-- The recursion `aiformat<I, Args...>(index, data, args)`: `rest` holds the
elements of the tuple from position `I` on and `count` is `sizeof...(Args)`.
At `I = count` it throws, with the value `index` has there; at `index = 0` it
formats element `I`; otherwise it goes on with `I + 1` and `index - 1`. -/
def aiformat_from (to_double : Int → Floating) (count : Nat) :
    Nat → Data → List Arg → Res
  | index, _, [] =>
    .error (.out_of_range
      ("argument index (which is ".toList ++ to_string index ++
        ") >= argument count (which is ".toList ++ to_string count ++ ")".toList))
  | 0, data, a :: _ => asformat to_double data a
  | index + 1, data, _ :: rest => aiformat_from to_double count index data rest

/-- The call `aiformat(index, data, args)` with `I = 0`. -/
def aiformat (to_double : Int → Floating) (index : Nat) (data : Data) (args : List Arg) : Res :=
  aiformat_from to_double args.length index data args

/-- The position `pos + 1` in `std::size_t` arithmetic for the result of a
search: `npos + 1` wraps to `0`. -/
def npos_succ : Option Nat → Nat
  | none => 0
  | some pos => pos + 1

/-- The loop of `vsformat` (lines 1113-1140) with the text still to scan
`fmt_text` (a view that ends where the buffer ends), the cursor `arg_index`
and the output so far `res`.  The fuel bounds the iterations. -/
def vsformat_loop (to_double : Int → Floating) (args : List Arg) :
    Nat → Str → Nat → Str → Res
  | 0, _, _, _ => .error .out_of_fuel
  | fuel + 1, text, arg_index, res =>
    let fmt_text : string_view := { text := text, after := [] }
    match fmt_text.find_first_of '{' with
    | none => .ok (res ++ fmt_text.text)
    | some pos =>
      let res := res ++ (fmt_text.substr 0 (some pos)).text
      let rem_fmt := fmt_text.substr (pos + 1)
      let arg_fmt := fmt_text.substr (pos + 1) (rem_fmt.find_first_of '}')
      let fmt_text := rem_fmt.substr (npos_succ (rem_fmt.find_first_of '}'))
      let parsed := parse_argument Data.unset arg_fmt
      let data := parsed.2
      if parsed.1 = false then
        .error (.invalid_argument
          ("Format string specifier (which is \"".toList ++ arg_fmt.text ++
            "\") is of an invalid format".toList))
      else if data.d0 ≠ -1 then
        match aiformat to_double (size_t data.d0) data args with
        | .error e => .error e
        | .ok s => vsformat_loop to_double args fuel fmt_text.text arg_index (res ++ s)
      else
        match aiformat to_double arg_index data args with
        | .error e => .error e
        | .ok s =>
          vsformat_loop to_double args fuel fmt_text.text
            (if arg_index + 1 ≥ args.length then 0 else arg_index + 1) (res ++ s)

/-- The function `vsformat(fmt, args)`.  Every iteration shortens the text to
scan, so its length plus one is fuel enough. -/
def vsformat (to_double : Int → Floating) (fmt : Str) (args : List Arg) : Res :=
  vsformat_loop to_double args (fmt.length + 1) fmt 0 []

/-- Modelled from the spec: `estl::variadic::unpack_tuple` of `variadic.hpp`,
which is not among the sources; it binds the arguments of the call, in their
order, into the fixed-length argument list (the tuple). -/
def unpack_tuple (args : List Arg) : List Arg := args

/-- The entry point `Format(fmt, args...)`. -/
def Format (to_double : Int → Floating) (fmt : Str) (args : List Arg) : Res :=
  vsformat to_double fmt (unpack_tuple args)

/-! ## Specification-side definitions -/

/-- A template given in parts: each pair is the literal text in front of a
field and the text of the field between its braces, `last` is the literal text
behind the last field. -/
def template : List (Str × Str) → Str → Str
  | [], last => last
  | (pre, f) :: fields, last => pre ++ '{' :: (f ++ '}' :: template fields last)

/-- The text a field without explicit index gets, as the specification says
it: the rendering of the argument at position `j mod n`, where `j` counts the
fields without explicit index in front of it and `n` is the argument count. -/
def auto_field (to_double : Int → Floating) (args : List Arg) (j : Nat) (data : Data) : Res :=
  match args[j % args.length]? with
  | some argument => asformat to_double data argument
  | none => .error (.out_of_range [])

/-- A conversion to `double` for examples that use no floating-point value. -/
def no_double : Int → Floating := fun _ => { printf := fun _ => [], to_int := 0, to_char := 'a' }

/-- The result is not the exception `std::out_of_range`. -/
def not_out_of_range (r : Res) : Prop := ∀ what, r ≠ .error (.out_of_range what)

/-- The slot `data[1]` for a fill character: `-1` when no fill is given. -/
def fill_slot : Option Char → Int
  | none => -1
  | some c => int_of_char c

/-- Is the argument of one of the twelve types of the primitive formatter. -/
def is_primitive : Arg → Bool
  | .string _ => false
  | .custom _ => false
  | _ => true

/-- The digits of the conversions `x`, `X` and `o` for a magnitude. -/
def magnitude_digits (c : Char) (m : Nat) : Str :=
  if c = 'x' then Nat.toDigits 16 m
  else if c = 'X' then (Nat.toDigits 16 m).map Char.toUpper
  else Nat.toDigits 8 m

/-- Two views of the same text whose buffers agree up to a closing brace. -/
def same_field (v w : string_view) : Prop :=
  v.text = w.text ∧ ∃ t r, v.after = t ++ '}' :: r ∧ w.after = t ++ ['}']

/-- A text that does not go on with a digit. -/
def no_digit_ahead (B : Str) : Prop := ∀ c, B.head? = some c → isdigit c = false

/-- The only failures of the result come from the library: a thrown
`std::length_error` or undefined behaviour, no exception of the formatter. -/
def library_failure (r : Res) : Prop := ∀ e, r = .error e → e = .undefined ∨ e = .length_error

/-- The text of the `std::invalid_argument` that `asformat` throws for an
argument of type `T` (lines 901-904). -/
def subscript_message (data : Data) (T : Ty) : Str :=
  "argument index (which is ".toList ++ to_string data.d0 ++ ") of type ".toList ++
    type_name T ++ " is not subscriptable, but format string requested subscript".toList

/-- The text of the `std::invalid_argument` that `acformat<T, U>` throws (lines
793-795). -/
def conversion_message (data : Data) (T U : Ty) : Str :=
  "argument index (which is ".toList ++ to_string data.d0 ++ ") of type ".toList ++
    type_name T ++ " is not convertable to type of ".toList ++ type_name U

/-! ## The fields of a template one by one -/

/-- A text made of consecutive parts, one for each of the listed forms, in order. -/
def seq_form : List (Str → Prop) → Str → Prop
  | [], t => t = []
  | P :: Ps, t => ∃ a b, t = a ++ b ∧ P a ∧ seq_form Ps b

/-- The optional part `[[fill]align]` of a specifier: nothing, an alignment
character, or any character followed by an alignment character. -/
def fill_align_form (x : Str) : Prop :=
  x = [] ∨ (∃ a, is_align a = true ∧ x = [a]) ∨ ∃ f a, is_align a = true ∧ x = [f, a]

/-- The optional part `[sign]`: one of `+`, `-`, space. -/
def sign_form (x : Str) : Prop := x = [] ∨ ∃ c, is_sign c = true ∧ x = [c]

/-- The optional part `['0']`. -/
def zero_form (x : Str) : Prop := x = [] ∨ x = ['0']

/-- A possibly empty run of decimal digits. -/
def digits_form (x : Str) : Prop := ∀ c ∈ x, isdigit c = true

/-- The optional part `['.' precision digits]`. -/
def precision_form (x : Str) : Prop := x = [] ∨ ∃ ds, digits_form ds ∧ x = '.' :: ds

/-- The conversion characters of the specification: the closed set of the
grammar and `d` of the integer family. -/
def conversion_characters : Str := "%EFGXbcdefgosx".toList

/-- The optional part `[conversion character]`. -/
def conversion_form (x : Str) : Prop := x = [] ∨ ∃ c, c ∈ conversion_characters ∧ x = [c]

/-- The form of a specifier as the specification gives it:
`[[fill]align][sign]['0'][width digits]['.' precision digits][conversion character]`. -/
def spec_form (t : Str) : Prop :=
  seq_form [fill_align_form, sign_form, zero_form, digits_form, precision_form,
    conversion_form] t

/-- The buffer behind a field as `vsformat` passes it: the closing brace and
what follows, or nothing for a field that runs to the end of the template. -/
def field_end (after : Str) : Prop := after = [] ∨ ∃ rest, after = '}' :: rest

/-- The text of the syntax error of `vsformat` for the field text `f` (lines 1127-1129). -/
def syntax_message (f : Str) : Str :=
  "Format string specifier (which is \"".toList ++ f ++ "\") is of an invalid format".toList

/-- The closed set of conversion characters as the specification lists it:
thirteen characters. -/
def listed_conversion_characters : Str := "%EFGXbefgosxc".toList

/-- The invariant of the specification on the slots of a parsed specifier:
each of fill, alignment, sign, width, precision and conversion is the
sentinel `-1` or a valid value of its field, the fill a character code below
`N`. -/
def slots_in_range (N : Int) (data : Data) : Prop :=
  (data.d1 = -1 ∨ (0 ≤ data.d1 ∧ data.d1 < N)) ∧
  (data.d2 = -1 ∨ (0 ≤ data.d2 ∧ data.d2 ≤ 3)) ∧
  (data.d3 = -1 ∨ (0 ≤ data.d3 ∧ data.d3 ≤ 2)) ∧
  (data.d4 = -1 ∨ 0 ≤ data.d4) ∧
  (data.d5 = -1 ∨ 0 ≤ data.d5) ∧
  (data.d6 = -1 ∨ data.d6 ∈ conversion_characters.map int_of_char)

/-- The invariant is decidable. -/
instance (N : Int) (data : Data) : Decidable (slots_in_range N data) := by
  unfold slots_in_range
  infer_instance

/-- The decimal numeral of `n` padded to `w` characters with zeros, the sign of
a negative `n` in front of the zeros: what the specification expects of the
zero flag. -/
def zero_padded (w : Nat) (n : Int) : Str :=
  if n < 0 then '-' :: pad_left (w - 1) '0' (Nat.toDigits 10 n.natAbs)
  else pad_left w '0' (Nat.toDigits 10 n.natAbs)

/-- The decimal value of a run of digits, as the specification reads a width
or a precision numeral; the empty run has the value 0. -/
def decimal_value (A : Str) : Nat := A.foldl (fun a c => a * 10 + (c.toNat - 48)) 0

/-- The processing of one field that runs to the end of the template, with
text `f`, under the cursor `k` (lines 1124-1139 of `vsformat`): behind the
field text the buffer ends. -/
def open_field_at (to_double : Int → Floating) (args : List Arg) (k : Nat) (f : Str) : Res :=
  if (parse_argument Data.unset { text := f, after := [] }).1 = false then
    .error (.invalid_argument
      ("Format string specifier (which is \"".toList ++ f ++
        "\") is of an invalid format".toList))
  else if (parse_argument Data.unset { text := f, after := [] }).2.d0 ≠ -1 then
    aiformat to_double (size_t (parse_argument Data.unset { text := f, after := [] }).2.d0)
      (parse_argument Data.unset { text := f, after := [] }).2 args
  else aiformat to_double k (parse_argument Data.unset { text := f, after := [] }).2 args

/-- The conversion codes for which `acdformat` has a branch (the conditions of
lines 811-846): unset, `s`, the floating family, the integer family, `c`.  For
any other code `acdformat` falls through to its last branch. -/
def acdformat_handles (d6 : Int) : Bool :=
  (d6 = -1 || d6 = 115) ||
  (d6 = 37 || d6 = 69 || d6 = 70 || d6 = 71 || d6 = 101 || d6 = 102 || d6 = 103) ||
  (d6 = 88 || d6 = 98 || d6 = 100 || d6 = 111 || d6 = 120) ||
  d6 = 99

/-- The computation came to an end: the result is a string or an exception,
not the exhaustion of the fuel of the model. -/
def terminates (r : Res) : Prop := r ≠ .error .out_of_fuel

/-! ## The logger: `LoggerBase::ReplaceSubString` of `logger.hpp` -/

/-- The member `std::string::find(pat)`: the first position at which `pat`
occurs in `src`; `none` stands for `npos`. -/
def string_find : Str → Str → Option Nat
  | [], pat => if pat = [] then some 0 else none
  | c :: src, pat =>
    if pat.isPrefixOf (c :: src) then some 0
    else (string_find src pat).map (fun i => i + 1)

/-- The member `std::string::replace(index, count, rep)` for an `index` inside
the string: the `count` characters from `index` on give way to `rep`. -/
def string_replace (src : Str) (index count : Nat) (rep : Str) : Str :=
  src.take index ++ rep ++ src.drop (index + count)

/-- The function `ReplaceSubString(src, pat, rep)` of `LoggerBase` (lines
331-340 of `logger.hpp`): as long as `pat` is found in `src`, the first
occurrence is replaced by `rep`.  The fuel bounds the iterations of the
`while (true)` loop; `none` means that the fuel ran out before the loop met
its `break`. -/
def ReplaceSubString : Nat → Str → Str → Str → Option Str
  | 0, _, _, _ => none
  | fuel + 1, src, pat, rep =>
    match string_find src pat with
    | none => some src
    | some index => ReplaceSubString fuel (string_replace src index pat.length rep) pat rep

/-- The value is one of the type `int` (32 bits, two's complement): what a
slot of `int data[8]` can hold. -/
def is_int (v : Int) : Prop := -(2 ^ 31) ≤ v ∧ v < 2 ^ 31

/-- Being a value of `int` is decidable. -/
instance (v : Int) : Decidable (is_int v) := by
  unfold is_int
  infer_instance

/-- One of the errors of the expansion, as the specification lists them: the
syntax error of a field, the index out of range, the unsupported subscript and
the unsupported conversion. -/
def expansion_error (e : Err) : Prop :=
  (∃ f, e = .invalid_argument (syntax_message f)) ∨
  (∃ what, e = .out_of_range what) ∨
  (∃ data T, e = .invalid_argument (subscript_message data T)) ∨
  (∃ data T U, e = .invalid_argument (conversion_message data T U))

/-- The outcomes of a call of the expander: a string, one of the errors of the
expansion, or a failure that comes from the library (`std::length_error`,
undefined behaviour). -/
def expansion_outcome (r : Res) : Prop :=
  ∀ e, r = .error e → expansion_error e ∨ e = .length_error ∨ e = .undefined

/-- The explicit argument index of a field text, as the specification gives
it (`index[subscript]:specifier`, the index a run of digits): the decimal
value of the digits at the start of the text; `none` for a text that does not
start with a digit, such as the empty text, a subscript alone (`[1]`) or a
specifier alone (`:x`). -/
def explicit_index (f : Str) : Option Nat :=
  if (f.takeWhile isdigit).isEmpty then none
  else some (decimal_value (f.takeWhile isdigit))

/-- Expansion of a template in parts as the specification says it: the literal
parts are copied; a field whose text has an explicit index is rendered from
the argument at that index and leaves the count `j` of fields without index as
it is; a field without explicit index is rendered by `auto_field`, from the
argument at `j mod n`, and adds one to `j`; the first failing field fails the
expansion.  Whether a field has an explicit index is read off its text
(`explicit_index`); the directives of the field are those of the parser. -/
def expand_fields (to_double : Int → Floating) (args : List Arg) :
    Nat → List (Str × Str) → Str → Res
  | _, [], last => .ok last
  | j, (pre, f) :: fields, last =>
    let parsed := parse_argument Data.unset { text := f, after := ['}'] }
    if parsed.1 = false then
      .error (.invalid_argument
        ("Format string specifier (which is \"".toList ++ f ++
          "\") is of an invalid format".toList))
    else
      match explicit_index f with
      | some i =>
        match aiformat to_double i parsed.2 args with
        | .error e => .error e
        | .ok s => (expand_fields to_double args j fields last).map (fun r => pre ++ s ++ r)
      | none =>
        match auto_field to_double args j parsed.2 with
        | .error e => .error e
        | .ok s =>
          (expand_fields to_double args (j + 1) fields last).map (fun r => pre ++ s ++ r)

/-- The field texts on which `vsformat` is shown to select the argument as the
specification says: the empty text, a specifier alone (`:`...), a subscript
followed by a specifier (`[`...`:`...), and a text that starts with an index
below `2 ^ 31`.  Left out are the subscript without index and without
specifier (`[1]`), the texts that start with another character, and the
indices that `int` does not hold. -/
def regular_field (f : Str) : Bool :=
  match f with
  | [] => true
  | c :: t =>
    if c = ':' then true
    else if c = '[' then decide (':' ∈ t)
    else isdigit c && decide (decimal_value (f.takeWhile isdigit) < 2 ^ 31)

/-! ## The template expander: one iteration, fuel, output prefix -/

theorem find_first_of_none {t a : Str} {c : Char} (h : c ∉ t) :
    string_view.find_first_of ⟨t, a⟩ c = none := by
  simp [string_view.find_first_of, List.indexOf_eq_length.mpr h]

theorem find_first_of_some {pre rest a : Str} {c : Char} (h : c ∉ pre) :
    string_view.find_first_of ⟨pre ++ c :: rest, a⟩ c = some pre.length := by
  simp [string_view.find_first_of, List.indexOf_append_of_not_mem h]

theorem drop_length_succ_append (pre : Str) (c : Char) (x : Str) :
    List.drop (pre.length + 1) (pre ++ c :: x) = x := by
  induction pre with
  | nil => rfl
  | cons a l ih => simp [ih]

theorem take_length_append (pre : Str) (x : Str) :
    List.take pre.length (pre ++ x) = pre := by
  simp

theorem drop_length_append (pre : Str) (x : Str) :
    List.drop pre.length (pre ++ x) = x := by
  simp

/-- One iteration of the loop on a closed field. -/
theorem vsformat_loop_field (to_double : Int → Floating) (args : List Arg) (fuel : Nat)
    (pre f rest : Str) (k : Nat) (res : Str) (hpre : '{' ∉ pre) (hf : '}' ∉ f) :
    vsformat_loop to_double args (fuel + 1) (pre ++ '{' :: (f ++ '}' :: rest)) k res =
      if (parse_argument Data.unset ⟨f, '}' :: rest⟩).1 = false then
        .error (.invalid_argument
          ("Format string specifier (which is \"".toList ++ f ++
            "\") is of an invalid format".toList))
      else if (parse_argument Data.unset ⟨f, '}' :: rest⟩).2.d0 ≠ -1 then
        match aiformat to_double (size_t (parse_argument Data.unset ⟨f, '}' :: rest⟩).2.d0)
          (parse_argument Data.unset ⟨f, '}' :: rest⟩).2 args with
        | .error e => .error e
        | .ok s => vsformat_loop to_double args fuel rest k (res ++ pre ++ s)
      else
        match aiformat to_double k (parse_argument Data.unset ⟨f, '}' :: rest⟩).2 args with
        | .error e => .error e
        | .ok s => vsformat_loop to_double args fuel rest
            (if k + 1 ≥ args.length then 0 else k + 1) (res ++ pre ++ s) := by
  have h1 : string_view.find_first_of ⟨pre ++ '{' :: (f ++ '}' :: rest), []⟩ '{' = some pre.length :=
    find_first_of_some hpre
  have h2 : string_view.find_first_of ⟨f ++ '}' :: rest, []⟩ '}' = some f.length :=
    find_first_of_some hf
  simp only [vsformat_loop, h1, string_view.substr, drop_length_succ_append, List.drop_zero,
    take_length_append, drop_length_append, h2, npos_succ, List.append_nil, List.append_assoc,
    List.drop_succ_cons]

theorem find_first_of_lt {v : string_view} {c : Char} {pos : Nat}
    (h : v.find_first_of c = some pos) : pos < v.text.length := by
  unfold string_view.find_first_of at h
  split at h
  · cases h; assumption
  · cases h

/-- The text left to scan after one iteration is shorter. -/
theorem vsformat_rest_length (text : Str) (pos : Nat)
    (h : string_view.find_first_of ⟨text, []⟩ '{' = some pos) :
    ((string_view.substr ⟨text, []⟩ (pos + 1)).substr
      (npos_succ ((string_view.substr ⟨text, []⟩ (pos + 1)).find_first_of '}'))).text.length
      < text.length := by
  have hp := find_first_of_lt h
  simp only [string_view.substr, List.length_drop] at hp ⊢
  omega

/-- The result of the loop does not depend on the fuel, once there is enough. -/
theorem vsformat_loop_fuel (to_double : Int → Floating) (args : List Arg) :
    ∀ (fuel1 fuel2 : Nat) (text : Str) (k : Nat) (res : Str),
      text.length < fuel1 → text.length < fuel2 →
      vsformat_loop to_double args fuel1 text k res =
        vsformat_loop to_double args fuel2 text k res := by
  intro fuel1
  induction fuel1 with
  | zero => intro fuel2 text k res h; omega
  | succ n ih =>
    intro fuel2 text k res h1 h2
    cases fuel2 with
    | zero => omega
    | succ m =>
      simp only [vsformat_loop]
      cases hfind : string_view.find_first_of ⟨text, []⟩ '{' with
      | none => rfl
      | some pos =>
        have hlen := vsformat_rest_length text pos hfind
        simp only
        have e : ∀ k res, vsformat_loop to_double args n ((string_view.substr ⟨text, []⟩ (pos + 1)).substr
            (npos_succ ((string_view.substr ⟨text, []⟩ (pos + 1)).find_first_of '}'))).text k res =
            vsformat_loop to_double args m ((string_view.substr ⟨text, []⟩ (pos + 1)).substr
            (npos_succ ((string_view.substr ⟨text, []⟩ (pos + 1)).find_first_of '}'))).text k res :=
          fun k res => ih m _ k res (by omega) (by omega)
        simp only [e]

/-- The output so far is a prefix of the result. -/
theorem vsformat_loop_res (to_double : Int → Floating) (args : List Arg) :
    ∀ (fuel : Nat) (text : Str) (k : Nat) (r1 r2 : Str),
      vsformat_loop to_double args fuel text k (r1 ++ r2) =
        (vsformat_loop to_double args fuel text k r2).map (fun s => r1 ++ s) := by
  intro fuel
  induction fuel with
  | zero => intro text k r1 r2; rfl
  | succ n ih =>
    intro text k r1 r2
    simp only [vsformat_loop]
    cases hfind : string_view.find_first_of ⟨text, []⟩ '{' with
    | none => simp [Except.map]
    | some pos =>
      simp only
      split_ifs <;> first
        | rfl
        | (generalize aiformat to_double _ _ args = r
           cases r with
           | error e => rfl
           | ok s => simp only [List.append_assoc, ih])

/-! ## The field parser sees the buffer only up to the closing brace -/

theorem digits_value_stop (x r : Str) (acc : Nat) :
    digits_value (x ++ '}' :: r) acc = digits_value (x ++ ['}']) acc := by
  induction x generalizing acc with
  | nil => simp [digits_value, isdigit]
  | cons c x ih => simp only [List.cons_append, digits_value, List.append_eq, ih]

/-- The function `atoi` stops at a closing brace. -/
theorem atoi_stop (x r : Str) : atoi (x ++ '}' :: r) = atoi (x ++ ['}']) := by
  induction x with
  | nil => simp [atoi, List.dropWhile, isspace, digits_value, isdigit]
  | cons c x ih =>
    by_cases hc : isspace c = true
    · simpa [atoi, List.dropWhile, hc] using ih
    · have e1 : List.dropWhile isspace (c :: x ++ '}' :: r) = c :: (x ++ '}' :: r) := by
        simp [List.dropWhile, hc]
      have e2 : List.dropWhile isspace (c :: x ++ ['}']) = c :: (x ++ ['}']) := by
        simp [List.dropWhile, hc]
      unfold atoi
      rw [e1, e2]
      by_cases h1 : c = '-'
      · subst h1; simp only [digits_value_stop]
      · by_cases h2 : c = '+'
        · subst h2; simp only [digits_value_stop]
        · have := digits_value_stop (c :: x) r 0
          simp only [List.cons_append] at this
          split <;> split <;> simp_all

theorem same_field_size {v w : string_view} (h : same_field v w) : v.size = w.size := by
  simp [string_view.size, h.1]

theorem same_field_find {v w : string_view} (h : same_field v w) (c : Char) :
    v.find_first_of c = w.find_first_of c := by
  simp [string_view.find_first_of, h.1]

theorem same_field_c_str {v w : string_view} (h : same_field v w) :
    atoi v.c_str = atoi w.c_str := by
  obtain ⟨ht, t, r, hv, hw⟩ := h
  simp only [string_view.c_str, ht, hv, hw, ← List.append_assoc]
  exact atoi_stop _ _

theorem same_field_get {v w : string_view} (h : same_field v w) (i : Nat) (hi : i ≤ v.size) :
    v.get i = w.get i := by
  obtain ⟨ht, t, r, hv, hw⟩ := h
  simp only [string_view.get, string_view.size, ht, hv, hw] at hi ⊢
  simp only [← List.append_assoc]
  by_cases hlt : i < (w.text ++ t).length
  · rw [List.getD_append _ _ _ _ hlt, List.getD_append _ _ _ _ hlt]
  · simp only [List.length_append] at hlt
    have : t = [] ∧ i = w.text.length := by
      constructor
      · cases t with
        | nil => rfl
        | cons a l => simp at hlt; omega
      · omega
    obtain ⟨rfl, rfl⟩ := this
    rw [List.getD_append_right _ _ _ _ (by simp), List.getD_append_right _ _ _ _ (by simp)]
    simp

theorem same_field_substr {v w : string_view} (h : same_field v w) (pos : Nat)
    (count : Option Nat) : same_field (v.substr pos count) (w.substr pos count) := by
  obtain ⟨ht, t, r, hv, hw⟩ := h
  cases count with
  | none => exact ⟨by simp [string_view.substr, ht], t, r, hv, hw⟩
  | some n =>
    refine ⟨by simp [string_view.substr, ht], List.drop n (List.drop pos w.text) ++ t, r, ?_, ?_⟩
    · simp [string_view.substr, ht, hv]
    · simp [string_view.substr, hw]

theorem same_field_parse_index {v w : string_view} (h : same_field v w) (data : Data) :
    parse_index data v = parse_index data w := by
  unfold parse_index
  rw [same_field_find h, same_field_size h]
  cases w.find_first_of '[' with
  | none => simp only [same_field_c_str h]
  | some k =>
    simp only [same_field_c_str (same_field_substr h _ _),
      same_field_size (same_field_substr h _ _)]

theorem same_field_parse_width {v w : string_view} (h : same_field v w) :
    ∀ (fuel i : Nat) (a : Int), parse_width v fuel i a = parse_width w fuel i a := by
  intro fuel
  induction fuel with
  | zero => intro i a; rfl
  | succ n ih =>
    intro i a
    simp only [parse_width, same_field_size h]
    by_cases hi : i < w.size
    · rw [same_field_get h i (by rw [same_field_size h]; omega), ih]
    · simp [hi]

theorem same_field_parse_precision {v w : string_view} (h : same_field v w) :
    ∀ (fuel i : Nat) (a : Int), parse_precision v fuel i a = parse_precision w fuel i a := by
  intro fuel
  induction fuel with
  | zero => intro i a; rfl
  | succ n ih =>
    intro i a
    simp only [parse_precision, same_field_size h]
    by_cases hi : i < w.size
    · rw [same_field_get h i (by rw [same_field_size h]; omega), ih]
    · simp [hi]

/-- The width loop stops inside the specifier. -/
theorem parse_width_le (v : string_view) :
    ∀ (fuel i : Nat) (a : Int), i ≤ v.size → (parse_width v fuel i a).2 ≤ v.size := by
  intro fuel
  induction fuel with
  | zero => intro i a h; exact h
  | succ n ih =>
    intro i a h
    simp only [parse_width]
    split
    · rename_i hc
      simp only [Bool.and_eq_true, decide_eq_true_eq] at hc
      exact ih _ _ (by omega)
    · exact h

/-- The precision loop stops inside the specifier. -/
theorem parse_precision_le (v : string_view) :
    ∀ (fuel i : Nat) (a : Int), i ≤ v.size → (parse_precision v fuel i a).2 ≤ v.size := by
  intro fuel
  induction fuel with
  | zero => intro i a h; exact h
  | succ n ih =>
    intro i a h
    simp only [parse_precision]
    split
    · rename_i hc
      simp only [Bool.and_eq_true, decide_eq_true_eq] at hc
      exact ih _ _ (by omega)
    · exact h

theorem same_field_spec_fill {v w : string_view} (h : same_field v w) (data : Data) :
    spec_fill v data = spec_fill w data := by
  unfold spec_fill
  rw [same_field_size h]
  by_cases hs : w.size > 2
  · rw [same_field_get h 1 (by rw [same_field_size h]; omega),
      same_field_get h 0 (by omega)]
  · simp [hs]

theorem spec_fill_le (v : string_view) (data : Data) : (spec_fill v data).2 ≤ v.size := by
  unfold spec_fill
  split
  · rename_i hc
    simp only [Bool.and_eq_true, decide_eq_true_eq] at hc
    simp only [zero_add]
    omega
  · exact Nat.zero_le _

theorem same_field_spec_char {v w : string_view} (h : same_field v w) (test : Char → Bool)
    (store : Data → Char → Data) (s : Scan) (hs : s.2 ≤ v.size) :
    spec_char v test store s = spec_char w test store s := by
  unfold spec_char
  rw [same_field_size h, same_field_get h s.2 hs]

theorem spec_char_le (v : string_view) (test : Char → Bool) (store : Data → Char → Data)
    (s s1 : Scan) (hs : s.2 ≤ v.size) (h : spec_char v test store s = .ok s1) :
    s1.2 ≤ v.size := by
  unfold spec_char at h
  split at h
  · split at h
    · cases h
    · cases h; simp only; omega
  · cases h; exact hs

theorem same_field_spec_width {v w : string_view} (h : same_field v w) (s : Scan) :
    spec_width v s = spec_width w s := by
  unfold spec_width
  rw [same_field_size h, same_field_parse_width h]

theorem spec_width_lt (v : string_view) (s s1 : Scan) (h : spec_width v s = .ok s1) :
    s1.2 < v.size := by
  unfold spec_width at h
  simp only at h
  split at h
  · cases h
  · cases h; simp only; omega

theorem same_field_spec_precision {v w : string_view} (h : same_field v w) (s : Scan)
    (hs : s.2 ≤ v.size) : spec_precision v s = spec_precision w s := by
  unfold spec_precision
  rw [same_field_size h, same_field_get h s.2 hs, same_field_parse_precision h]

theorem spec_precision_lt (v : string_view) (s s1 : Scan) (h : spec_precision v s = .ok s1) :
    s1.2 < v.size := by
  unfold spec_precision at h
  simp only at h
  split at h
  · split at h
    · cases h
    · cases h; simp only; omega
  · split at h
    · cases h
    · cases h; omega

theorem same_field_spec_conversion {v w : string_view} (h : same_field v w) (s : Scan)
    (hs : s.2 ≤ v.size) : spec_conversion v s = spec_conversion w s := by
  unfold spec_conversion
  rw [same_field_size h, same_field_get h s.2 hs]

theorem same_field_spec_steps {v w : string_view} (h : same_field v w) (data : Data) :
    spec_steps data v = spec_steps data w := by
  unfold spec_steps
  have h0 := spec_fill_le v data
  rw [same_field_spec_fill h] at h0 ⊢
  have e1 : spec_align v (spec_fill w data) = spec_align w (spec_fill w data) :=
    same_field_spec_char h _ _ _ h0
  rw [e1]
  cases h1 : spec_align w (spec_fill w data) with
  | error r => rfl
  | ok s1 =>
    have b1 : s1.2 ≤ v.size := spec_char_le v _ _ _ _ h0 (e1.trans h1)
    have e2 : spec_sign v s1 = spec_sign w s1 := same_field_spec_char h _ _ _ b1
    simp only [Except.bind, e2]
    cases h2 : spec_sign w s1 with
    | error r => rfl
    | ok s2 =>
      have b2 : s2.2 ≤ v.size := spec_char_le v _ _ _ _ b1 (e2.trans h2)
      have e3 : spec_zero v s2 = spec_zero w s2 := same_field_spec_char h _ _ _ b2
      simp only [e3]
      cases h3 : spec_zero w s2 with
      | error r => rfl
      | ok s3 =>
        have e4 : spec_width v s3 = spec_width w s3 := same_field_spec_width h s3
        simp only [e4]
        cases h4 : spec_width w s3 with
        | error r => rfl
        | ok s4 =>
          have b4 : s4.2 ≤ v.size := Nat.le_of_lt (spec_width_lt v _ _ (e4.trans h4))
          have e5 : spec_precision v s4 = spec_precision w s4 :=
            same_field_spec_precision h s4 b4
          simp only [e5]
          cases h5 : spec_precision w s4 with
          | error r => rfl
          | ok s5 =>
            have b5 : s5.2 ≤ v.size := Nat.le_of_lt (spec_precision_lt v _ _ (e5.trans h5))
            simp only [same_field_spec_conversion h s5 b5]

theorem same_field_parse_spec {v w : string_view} (h : same_field v w) (data : Data) :
    parse_spec data v = parse_spec data w := by
  unfold parse_spec
  rw [same_field_spec_steps h]

/-- The parser sees the buffer behind a field only up to the closing brace. -/
theorem same_field_parse_argument {v w : string_view} (h : same_field v w) (d1 d2 : Data) :
    parse_argument d1 v = parse_argument d2 w := by
  unfold parse_argument
  rw [same_field_find h, same_field_size h]
  cases w.find_first_of ':' with
  | none => simp only [same_field_c_str h, same_field_parse_index h]
  | some colon =>
    simp only [same_field_size (same_field_substr h _ _),
      same_field_parse_index (same_field_substr h _ _),
      same_field_parse_spec (same_field_substr h _ _)]

/-- The parse of a closed field does not depend on the text behind its brace. -/
theorem parse_argument_closed (f rest : Str) (d1 d2 : Data) :
    parse_argument d1 ⟨f, '}' :: rest⟩ = parse_argument d2 ⟨f, ['}']⟩ :=
  same_field_parse_argument (v := ⟨f, '}' :: rest⟩) (w := ⟨f, ['}']⟩) ⟨rfl, [], rest, rfl, rfl⟩ d1 d2

/-! ## The cursor -/

/-- Inside the tuple `aiformat` reaches the element at the index. -/
theorem aiformat_from_lt (to_double : Int → Floating) (count : Nat) (data : Data) :
    ∀ (args : List Arg) (i : Nat) (a : Arg), args[i]? = some a →
      aiformat_from to_double count i data args = asformat to_double data a := by
  intro args
  induction args with
  | nil => intro i a h; simp at h
  | cons x xs ih =>
    intro i a h
    cases i with
    | zero => simp at h; subst h; rfl
    | succ n => simp at h; exact ih n a h

theorem cursor_step (j n : Nat) (h : 0 < n) :
    (if j % n + 1 ≥ n then 0 else j % n + 1) = (j + 1) % n := by
  have hlt := Nat.mod_lt j h
  have e : (j + 1) % n = (j % n + 1) % n := by
    rw [Nat.add_mod j 1 n, Nat.add_mod (j % n) 1 n, Nat.mod_mod]
  rw [e]
  split
  · have e2 : j % n + 1 = n := by omega
    rw [e2, Nat.mod_self]
  · exact (Nat.mod_eq_of_lt (by omega)).symm

theorem auto_field_eq (to_double : Int → Floating) (args : List Arg) (hn : 0 < args.length)
    (j : Nat) (data : Data) :
    aiformat to_double (j % args.length) data args = auto_field to_double args j data := by
  unfold auto_field aiformat
  have hlt := Nat.mod_lt j hn
  rw [List.getElem?_eq_getElem hlt]
  exact aiformat_from_lt to_double _ data args _ _ (List.getElem?_eq_getElem hlt)

/-! ## The argument resolver -/

theorem string_fill_not_oor (count : Nat) (ch : Char) : not_out_of_range (string_fill count ch) := by
  intro what
  unfold string_fill
  split <;> simp

theorem map_not_oor {r : Res} (h : not_out_of_range r) (g : Str → Str) :
    not_out_of_range (r.map g) := by
  intro what
  cases r with
  | error e => intro heq; exact h what (by simpa [Except.map] using heq)
  | ok s => simp [Except.map]

theorem string_fill_error {count : Nat} {ch : Char} {e : Err}
    (h : string_fill count ch = .error e) : e = .length_error := by
  unfold string_fill at h
  split at h
  · cases h
  · cases h; rfl

theorem pad_both_not_oor (c1 c2 : Nat) (ch : Char) (g : Str → Str → Str) :
    not_out_of_range
      (match string_fill c1 ch, string_fill c2 ch with
      | .ok l, .ok r => .ok (g l r)
      | .error e, _ => .error e
      | _, .error e => .error e) := by
  intro what
  split
  · simp
  · rename_i e h; rw [string_fill_error h]; simp
  · rename_i h _; rw [string_fill_error h]; simp

theorem data_fmt_pad_not_oor (data : Data) (fmt : Str) : not_out_of_range (data_fmt_pad data fmt) := by
  unfold data_fmt_pad
  simp only
  split
  · split
    · exact map_not_oor (string_fill_not_oor _ _) _
    · split
      · exact map_not_oor (string_fill_not_oor _ _) _
      · split
        · split <;> exact map_not_oor (string_fill_not_oor _ _) _
        · split
          · exact pad_both_not_oor _ _ _ (fun l r => l ++ fmt ++ r)
          · intro what; simp
  · intro what; simp

theorem to_xstring_not_oor (n : Nat) (fmt : Str) (arg : VArg) :
    not_out_of_range (to_xstring n fmt arg) := by
  intro what
  unfold to_xstring
  simp only
  repeat' split
  all_goals simp

theorem data_fmt_not_oor (data : Data) (n : Nat) (type : Str) (T : Ty) (args : VArg) :
    not_out_of_range (data_fmt data n type T args) := by
  unfold data_fmt
  simp only
  generalize hp : (if (data_fmt_format data type).getLast? = some 'b' then
      match args with
      | .int v => to_binary T n ((data_fmt_format data type).dropLast ++ ['s']) v
      | .str _ => .ok []
      | .flt _ => .error .undefined
    else to_xstring n (data_fmt_format data type) args : Res) = printed
  have hnot : not_out_of_range printed := by
    rw [← hp]
    split
    · cases args
      · exact to_xstring_not_oor _ _ _
      · intro what; simp
      · intro what; simp
    · exact to_xstring_not_oor _ _ _
  cases printed with
  | error e => intro what heq; exact hnot what (by simpa using heq)
  | ok s => exact data_fmt_pad_not_oor _ _

theorem aformat_generic_not_oor (data : Data) (argument : Str) :
    not_out_of_range (aformat_generic data argument) := by
  unfold aformat_generic
  simp only
  split
  · exact pad_both_not_oor _ _ _ _
  · intro what; simp

theorem aformat_not_oor (data : Data) (argument : Arg) :
    not_out_of_range (aformat data argument) := by
  unfold aformat
  cases argument <;> simp only
  case custom => intro what; simp
  case string => exact aformat_generic_not_oor _ _
  all_goals
    first
    | exact data_fmt_not_oor _ _ _ _ _
    | (unfold aformat_int; repeat' split) <;> exact data_fmt_not_oor _ _ _ _ _
    | (unfold aformat_unsigned; repeat' split) <;> exact data_fmt_not_oor _ _ _ _ _
    | (unfold aformat_long; repeat' split) <;> exact data_fmt_not_oor _ _ _ _ _
    | (unfold aformat_unsigned_long; repeat' split) <;> exact data_fmt_not_oor _ _ _ _ _
    | (unfold aformat_unsigned_long_long; repeat' split) <;> exact data_fmt_not_oor _ _ _ _ _
    | (unfold aformat_floating; repeat' split) <;> exact data_fmt_not_oor _ _ _ _ _

theorem acformat_not_oor (to_double : Int → Floating) (U : Target) (data : Data) (argument : Arg) :
    not_out_of_range (acformat to_double U data argument) := by
  intro what
  unfold acformat
  split
  · exact aformat_not_oor _ _ what
  · simp

theorem acdformat_not_oor (to_double : Int → Floating) (data : Data) (argument : Arg) :
    not_out_of_range (acdformat to_double data argument) := by
  intro what
  unfold acdformat
  repeat' split
  all_goals first
    | exact aformat_not_oor _ _ what
    | exact acformat_not_oor _ _ _ _ what
    | simp

theorem subscript_error {s : Str} {i : Int} {e : Err} (h : subscript s i = .error e) :
    e = .undefined := by
  unfold subscript at h
  split at h
  · cases h
  · split at h
    · cases h
    · cases h; rfl

theorem arg_subscript_error {a : Arg} {i : Int} {e : Err} (h : a.subscript i = .error e) :
    e = .undefined := by
  cases a
  case c_str s => exact subscript_error h
  case string s => exact subscript_error h
  all_goals (simp only [Arg.subscript] at h; cases h; rfl)

theorem asformat_not_oor (to_double : Int → Floating) (data : Data) (argument : Arg) :
    not_out_of_range (asformat to_double data argument) := by
  intro what
  unfold asformat
  split
  · split
    · exact acdformat_not_oor _ _ _ what
    · cases h : argument.subscript data.d7 with
      | error e => rw [arg_subscript_error h]; simp [Except.bind]
      | ok a => exact acdformat_not_oor _ _ _ what
  · split
    · simp
    · exact acdformat_not_oor _ _ _ what

/-- Out of the tuple `aiformat` throws, with the index lowered by the count. -/
theorem aiformat_from_ge (to_double : Int → Floating) (count : Nat) (data : Data) :
    ∀ (args : List Arg) (i : Nat), args.length ≤ i →
      aiformat_from to_double count i data args =
        .error (.out_of_range
          ("argument index (which is ".toList ++ to_string ((i - args.length : Nat) : Int) ++
            ") >= argument count (which is ".toList ++ to_string count ++ ")".toList)) := by
  intro args
  induction args with
  | nil => intro i _; simp [aiformat_from]
  | cons x xs ih =>
    intro i h
    cases i with
    | zero => simp at h
    | succ n =>
      simp only [aiformat_from, List.length_cons] at h ⊢
      rw [ih n (by omega)]
      simp


/-! ## Claims on the template expander and the argument resolver -/

/-- Claim C1: a template without an opening brace is returned unchanged by
`vsformat` and by `Format`, for every argument list; closing braces in it are
ordinary text. -/
theorem format_without_field (to_double : Int → Floating) (fmt : Str) (args : List Arg)
    (h : '{' ∉ fmt) :
    vsformat to_double fmt args = .ok fmt ∧ Format to_double fmt args = .ok fmt := by
  have e : ∀ a : List Arg, vsformat to_double fmt a = .ok fmt := by
    intro a
    simp [vsformat, vsformat_loop, find_first_of_none h]
  exact ⟨e args, e (unpack_tuple args)⟩

/-- Witness of `format_without_field`: the template `a}b` with no argument. -/
theorem format_without_field_witness :
    '{' ∉ "a\x7db".toList ∧
      vsformat no_double "a\x7db".toList [] = .ok "a\x7db".toList ∧
      Format no_double "a\x7db".toList [] = .ok "a\x7db".toList :=
  ⟨by decide, format_without_field no_double "a\x7db".toList [] (by decide)⟩

/-- Claim C2: the text an explicit-index field is replaced by does not depend
on where the field stands.  If the field alone, as the template `{f}`,
expands to `t`, and `rest` expands to `r`, then `pre{f}rest` expands to
`pre ++ t ++ r`, for literal text `pre` without opening brace and field text
`f` without closing brace whose parse sets the argument index. -/
theorem explicit_field_position (to_double : Int → Floating) (args : List Arg)
    (pre f rest t r : Str) (hpre : '{' ∉ pre) (hf : '}' ∉ f)
    (hindex : (parse_argument Data.unset ⟨f, ['}']⟩).2.d0 ≠ -1)
    (ht : vsformat to_double ('{' :: (f ++ ['}'])) args = .ok t)
    (hr : vsformat to_double rest args = .ok r) :
    vsformat to_double (pre ++ '{' :: (f ++ '}' :: rest)) args = .ok (pre ++ t ++ r) := by
  unfold vsformat at ht hr ⊢
  have h1 := vsformat_loop_field to_double args ((f ++ ['}']).length + 1) [] f [] 0 [] (by simp) hf
  simp only [List.nil_append] at h1
  rw [List.length_cons, h1] at ht
  have h2 := vsformat_loop_field to_double args (pre ++ '{' :: (f ++ '}' :: rest)).length
    pre f rest 0 [] hpre hf
  rw [h2, parse_argument_closed f rest Data.unset Data.unset]
  simp only [List.nil_append, if_pos hindex] at ht ⊢
  split_ifs at ht ⊢ with hp
  cases hs : aiformat to_double (size_t (parse_argument Data.unset ⟨f, ['}']⟩).2.d0)
      (parse_argument Data.unset ⟨f, ['}']⟩).2 args with
  | error e => rw [hs] at ht; cases ht
  | ok s =>
    rw [hs] at ht
    simp only at ht ⊢
    have hts : t = s := by
      simp [vsformat_loop, find_first_of_none] at ht
      exact ht.symm
    subst hts
    have hfuel := vsformat_loop_fuel to_double args (pre ++ '{' :: (f ++ '}' :: rest)).length
      (rest.length + 1) rest 0 (pre ++ t) (by simp; omega) (by omega)
    rw [hfuel]
    have hres := vsformat_loop_res to_double args (rest.length + 1) rest 0 (pre ++ t) []
    rw [List.append_nil] at hres
    rw [hres, hr]
    rfl

/-- Witness of `explicit_field_position`: `x={0:x}{}!` with the argument 255. -/
theorem explicit_field_position_witness :
    vsformat no_double "x=\x7b0:x\x7d\x7b\x7d!".toList [.int 255] = .ok "x=ff255!".toList :=
  explicit_field_position no_double [.int 255] "x=".toList "0:x".toList "\x7b\x7d!".toList
    "ff".toList "255!".toList (by decide) (by decide) (by decide) (by decide) (by decide)

/-- Claim C4: `aiformat` throws `std::out_of_range` exactly when the index is
not below the number of arguments, and below it hands exactly the argument at
the index to `asformat`. -/
theorem aiformat_resolves (to_double : Int → Floating) (data : Data) (args : List Arg)
    (i : Nat) :
    ((∃ what, aiformat to_double i data args = .error (.out_of_range what)) ↔
        args.length ≤ i) ∧
      (∀ h : i < args.length,
        aiformat to_double i data args = asformat to_double data (args.get ⟨i, h⟩)) := by
  have hin : ∀ h : i < args.length,
      aiformat to_double i data args = asformat to_double data (args.get ⟨i, h⟩) := by
    intro h
    exact aiformat_from_lt to_double _ data args i _ (List.getElem?_eq_getElem h)
  refine ⟨⟨?_, ?_⟩, hin⟩
  · rintro ⟨what, hw⟩
    by_contra hlt
    rw [hin (by omega)] at hw
    exact asformat_not_oor _ _ _ what hw
  · intro hge
    exact ⟨_, aiformat_from_ge to_double _ data args i hge⟩

/-- Witness of `aiformat_resolves`: index 1 of two arguments reaches the second one. -/
theorem aiformat_resolves_witness :
    aiformat no_double 1 Data.unset [.int 7, .int 8] = asformat no_double Data.unset (.int 8) :=
  (aiformat_resolves no_double Data.unset [.int 7, .int 8] 1).2 (by decide)

/-- Claim C5, as the code has it: the message of the `std::out_of_range` of
`aiformat` carries the index lowered by the argument count, not the requested
index; the template `{5}` with two arguments reports index 3 and count 2. -/
theorem out_of_range_message (to_double : Int → Floating) (data : Data) (args : List Arg)
    (k : Nat) :
    aiformat to_double (args.length + k) data args =
        .error (.out_of_range
          ("argument index (which is ".toList ++ to_string k ++
            ") >= argument count (which is ".toList ++ to_string args.length ++ ")".toList)) ∧
      vsformat no_double "\x7b5\x7d".toList [.int 1, .int 2] =
        .error (.out_of_range
          "argument index (which is 3) >= argument count (which is 2)".toList) := by
  refine ⟨?_, by decide⟩
  have h := aiformat_from_ge to_double args.length data args (args.length + k) (by omega)
  simpa [aiformat] using h

/-- With an alignment set, `data_fmt` keeps the width out of the `printf` format. -/
theorem data_fmt_format_aligned (data : Data) (w : Int) (type : Str) (h : data.d2 ≠ -1) :
    data_fmt_format { data with d4 := w } type = data_fmt_format { data with d4 := -1 } type := by
  simp [data_fmt_format, h]

/-- With an alignment set, the width only pads the text printed without it. -/
theorem data_fmt_aligned (data : Data) (w : Int) (n : Nat) (type : Str) (T : Ty) (a : VArg)
    (r : Str) (h : data.d2 ≠ -1) (hr : data_fmt { data with d4 := -1 } n type T a = .ok r) :
    data_fmt { data with d4 := w } n type T a = data_fmt_pad { data with d4 := w } r := by
  unfold data_fmt at hr ⊢
  simp only [data_fmt_format_aligned data w type h] at hr ⊢
  split at hr
  · cases hr
  · rename_i printed fmt heq
    have e : data_fmt_pad { data with d4 := -1 } fmt = .ok fmt := by simp [data_fmt_pad]
    rw [e] at hr
    cases hr
    rfl

set_option maxHeartbeats 4000000 in
theorem aformat_aligned (data : Data) (w : Int) (arg : Arg) (r : Str)
    (hprim : is_primitive arg = true) (h : data.d2 ≠ -1)
    (hr : aformat { data with d4 := -1 } arg = .ok r) :
    aformat { data with d4 := w } arg = data_fmt_pad { data with d4 := w } r := by
  cases arg
  case string => cases hprim
  case custom => cases hprim
  all_goals
    simp only [aformat, aformat_int, aformat_unsigned, aformat_long, aformat_unsigned_long,
      aformat_long_long, aformat_unsigned_long_long, aformat_floating] at hr ⊢
    try split_ifs at hr ⊢
    all_goals exact data_fmt_aligned data w _ _ _ _ r h hr

/-! ## Padding -/

theorem fill_char_eq (data : Data) (fill : Option Char) (hfill : data.d1 = fill_slot fill)
    (hascii : ∀ c, fill = some c → c.toNat < 128) :
    char_of_int (if data.d1 = -1 then int_of_char ' ' else data.d1) = fill.getD ' ' := by
  cases fill with
  | none => simp [hfill, fill_slot, char_of_int, int_of_char]
  | some c =>
    have hc := hascii c rfl
    have hne : (c.toNat : Int) ≠ -1 := by omega
    simp only [hfill, fill_slot, int_of_char, if_neg hne, char_of_int, Option.getD_some]
    have e : ((c.toNat : Int) % 256).toNat = c.toNat := by omega
    rw [e, Char.ofNat_toNat]

theorem string_fill_ok (count : Nat) (ch : Char) (h : count < 2 ^ 31) :
    string_fill count ch = .ok (List.replicate count ch) := by
  have : count ≤ max_size := by unfold max_size; omega
  simp [string_fill, this]

/-- The padding of `data_fmt` for a width above the length of the text. -/
theorem data_fmt_pad_wide (data : Data) (w : Nat) (r : Str) (hw : w < 2 ^ 31)
    (hlen : r.length < w) :
    data_fmt_pad { data with d4 := w } r =
      if data.d2 = 0 then
        .ok (r ++ List.replicate (w - r.length)
          (char_of_int (if data.d1 = -1 then int_of_char ' ' else data.d1)))
      else if data.d2 = 1 then
        .ok (List.replicate (w - r.length)
          (char_of_int (if data.d1 = -1 then int_of_char ' ' else data.d1)) ++ r)
      else if data.d2 = 2 then
        if r.head? = some '-' || r.head? = some '+' then
          .ok (r.take 1 ++ List.replicate (w - r.length)
            (char_of_int (if data.d1 = -1 then int_of_char ' ' else data.d1)) ++ r.drop 1)
        else
          .ok (List.replicate (w - r.length)
            (char_of_int (if data.d1 = -1 then int_of_char ' ' else data.d1)) ++ r)
      else if data.d2 = 3 then
        .ok (List.replicate ((w - r.length) / 2)
            (char_of_int (if data.d1 = -1 then int_of_char ' ' else data.d1)) ++ r ++
          List.replicate ((w - r.length + 1) / 2)
            (char_of_int (if data.d1 = -1 then int_of_char ' ' else data.d1)))
      else .ok r := by
  have h1 : (w : Int) ≠ -1 := by omega
  have h2 : size_t (w : Int) = w := by unfold size_t; omega
  have h3 : size_t ((w : Int) - (r.length : Int)) = w - r.length := by unfold size_t; omega
  have h4 := string_fill_ok (w - r.length)
    (char_of_int (if data.d1 = -1 then int_of_char ' ' else data.d1)) (by omega)
  have h5 := string_fill_ok ((w - r.length) / 2)
    (char_of_int (if data.d1 = -1 then int_of_char ' ' else data.d1)) (by omega)
  have h6 := string_fill_ok ((w - r.length + 1) / 2)
    (char_of_int (if data.d1 = -1 then int_of_char ' ' else data.d1)) (by omega)
  unfold data_fmt_pad
  simp only [h1, h2, h3, h4, h5, h6, hlen, Except.map, ne_eq, not_false_eq_true, decide_True,
    Bool.and_self, if_true, gt_iff_lt]

/-- Claim C6: for an `int` whose rendering without width is `r`, a fill
character `c` (space when none is given) and a width `w` above the length of
`r`, left alignment gives `r` followed by `w - |r|` copies of `c` and right
alignment gives `w - |r|` copies of `c` followed by `r`. -/
theorem int_left_right_padding (data : Data) (n : Int) (fill : Option Char) (w : Nat)
    (r : Str) (hfill : data.d1 = fill_slot fill) (hascii : ∀ c, fill = some c → c.toNat < 128)
    (hw : w < 2 ^ 31) (hr : aformat { data with d4 := -1 } (.int n) = .ok r)
    (hlen : r.length < w) :
    (data.d2 = 0 → aformat { data with d4 := w } (.int n) =
        .ok (r ++ List.replicate (w - r.length) (fill.getD ' '))) ∧
      (data.d2 = 1 → aformat { data with d4 := w } (.int n) =
        .ok (List.replicate (w - r.length) (fill.getD ' ') ++ r)) := by
  have hc := fill_char_eq data fill hfill hascii
  constructor
  · intro h2
    rw [aformat_aligned data w (.int n) r rfl (by rw [h2]; decide) hr,
      data_fmt_pad_wide data w r hw hlen, if_pos h2, hc]
  · intro h2
    rw [aformat_aligned data w (.int n) r rfl (by rw [h2]; decide) hr,
      data_fmt_pad_wide data w r hw hlen, if_neg (by rw [h2]; decide), if_pos h2, hc]

/-- Witness of `int_left_right_padding`: 5 with fill `*`, left, width 5. -/
theorem int_left_right_padding_witness :
    aformat ⟨-1, 42, 0, -1, 5, -1, -1, -1⟩ (.int 5) = .ok "5****".toList ∧
      aformat ⟨-1, 48, 1, -1, 5, -1, -1, -1⟩ (.int 5) = .ok "00005".toList ∧
      vsformat no_double "\x7b:*<5\x7d|\x7b:0>5\x7d|\x7b:>5\x7d".toList [.int 5] =
        .ok "5****|00005|    5".toList :=
  ⟨(int_left_right_padding ⟨-1, 42, 0, -1, 5, -1, -1, -1⟩ 5 (some '*') 5 "5".toList
      (by decide) (by decide) (by decide) (by decide) (by decide)).1 (by decide),
    (int_left_right_padding ⟨-1, 48, 1, -1, 5, -1, -1, -1⟩ 5 (some '0') 5 "5".toList
      (by decide) (by decide) (by decide) (by decide) (by decide)).2 (by decide),
    by decide⟩

/-- Claim C7: for a value of a primitive type whose rendering without width
is `r`, a fill character `c` and a width `w` above the length of `r`, center
alignment gives `floor((w - |r|) / 2)` copies of `c`, then `r`, then
`ceil((w - |r|) / 2)` copies of `c`: `w` characters, the odd one on the right. -/
theorem center_padding (data : Data) (arg : Arg) (fill : Option Char) (w : Nat) (r : Str)
    (hprim : is_primitive arg = true) (hfill : data.d1 = fill_slot fill)
    (hascii : ∀ c, fill = some c → c.toNat < 128) (hcenter : data.d2 = 3) (hw : w < 2 ^ 31)
    (hr : aformat { data with d4 := -1 } arg = .ok r) (hlen : r.length < w) :
    aformat { data with d4 := w } arg =
        .ok (List.replicate ((w - r.length) / 2) (fill.getD ' ') ++ r ++
          List.replicate ((w - r.length + 1) / 2) (fill.getD ' ')) ∧
      (List.replicate ((w - r.length) / 2) (fill.getD ' ') ++ r ++
          List.replicate ((w - r.length + 1) / 2) (fill.getD ' ')).length = w := by
  have hc := fill_char_eq data fill hfill hascii
  constructor
  · rw [aformat_aligned data w arg r hprim (by rw [hcenter]; decide) hr,
      data_fmt_pad_wide data w r hw hlen, if_neg (by rw [hcenter]; decide),
      if_neg (by rw [hcenter]; decide), if_neg (by rw [hcenter]; decide), if_pos hcenter, hc]
  · simp only [List.length_append, List.length_replicate]
    omega

/-- Witness of `center_padding`: 5 with fill `*`, centered, widths 5 and 6. -/
theorem center_padding_witness :
    aformat ⟨-1, 42, 3, -1, 5, -1, -1, -1⟩ (.int 5) = .ok "**5**".toList ∧
      aformat ⟨-1, 42, 3, -1, 6, -1, -1, -1⟩ (.int 5) = .ok "**5***".toList ∧
      vsformat no_double "\x7b:*^5\x7d|\x7b:*^6\x7d|\x7b:^6\x7d".toList
          [.int 5, .c_str "ab".toList, .bool true] = .ok "**5**|**ab**| true ".toList :=
  ⟨(center_padding ⟨-1, 42, 3, -1, 5, -1, -1, -1⟩ (.int 5) (some '*') 5 "5".toList
      rfl (by decide) (by decide) (by decide) (by decide) (by decide) (by decide)).1,
    (center_padding ⟨-1, 42, 3, -1, 6, -1, -1, -1⟩ (.int 5) (some '*') 6 "5".toList
      rfl (by decide) (by decide) (by decide) (by decide) (by decide) (by decide)).1,
    by decide⟩

/-! ## Numerals -/

/-- With enough fuel the digit loop of `Nat.toDigits` puts the numeral in front
of the accumulator. -/
theorem toDigitsCore_eq (b : Nat) (hb : 2 ≤ b) :
    ∀ (fuel n : Nat) (ds : List Char), n < fuel →
      Nat.toDigitsCore b fuel n ds = Nat.toDigits b n ++ ds := by
  intro fuel
  induction fuel using Nat.strong_induction_on with
  | _ fuel ih =>
    intro n ds h
    cases fuel with
    | zero => omega
    | succ f =>
      unfold Nat.toDigits
      simp only [Nat.toDigitsCore]
      by_cases h0 : n / b = 0
      · simp [h0]
      · simp only [h0, if_false]
        have hlt : n / b < n := Nat.div_lt_self (by
          rcases Nat.eq_zero_or_pos n with hz | hz
          · subst hz; simp at h0
          · exact hz) hb
        rw [ih f (by omega) (n / b) _ (by omega), ih n (by omega) (n / b) _ hlt]
        simp

theorem toDigits_step (b : Nat) (hb : 2 ≤ b) (v : Nat) (hv : b ≤ v) :
    Nat.toDigits b v = Nat.toDigits b (v / b) ++ [Nat.digitChar (v % b)] := by
  have h0 : v / b ≠ 0 := by
    intro h
    have := (Nat.div_eq_zero_iff (by omega : 0 < b)).mp h
    omega
  conv_lhs => unfold Nat.toDigits
  simp only [Nat.toDigitsCore, h0, if_false]
  exact toDigitsCore_eq b hb v (v / b) _ (Nat.div_lt_self (by omega) hb)

theorem toDigits_small (b : Nat) (v : Nat) (hv : v < b) :
    Nat.toDigits b v = [Nat.digitChar v] := by
  unfold Nat.toDigits
  simp [Nat.toDigitsCore, Nat.div_eq_of_lt hv, Nat.mod_eq_of_lt hv]

/-- A numeral of a value below `b ^ e` has at most `e` digits. -/
theorem toDigits_length_le (b : Nat) (hb : 2 ≤ b) :
    ∀ (e v : Nat), 0 < e → v < b ^ e → (Nat.toDigits b v).length ≤ e := by
  intro e
  induction e with
  | zero => intro v h; omega
  | succ k ih =>
    intro v _ hv
    by_cases hs : v < b
    · rw [toDigits_small b v hs]; simp
    · have hk : 0 < k := by
        rcases Nat.eq_zero_or_pos k with hz | hz
        · subst hz; simp at hv; omega
        · exact hz
      rw [toDigits_step b hb v (by omega)]
      have : v / b < b ^ k := by
        rw [Nat.div_lt_iff_lt_mul (by omega)]
        rw [pow_succ] at hv
        exact hv
      have := ih (v / b) hk this
      simp
      omega

theorem bitset_to_string_length (N v : Nat) : (bitset_to_string N v).length = N := by
  induction N with
  | zero => rfl
  | succ k ih => simp [bitset_to_string, ih]

theorem bitset_to_string_chars (N v : Nat) : ∀ c ∈ bitset_to_string N v, c = '0' ∨ c = '1' := by
  induction N with
  | zero => intro c h; simp [bitset_to_string] at h
  | succ k ih =>
    intro c h
    simp only [bitset_to_string, List.mem_cons] at h
    rcases h with h | h
    · subst h; split <;> simp
    · exact ih c h

/-- The text of a bitset depends on the bits below its size only. -/
theorem bitset_to_string_congr (N u v : Nat) (h : ∀ i < N, u.testBit i = v.testBit i) :
    bitset_to_string N u = bitset_to_string N v := by
  induction N with
  | zero => rfl
  | succ k ih =>
    simp only [bitset_to_string, h k (Nat.lt_succ_self k),
      ih (fun i hi => h i (Nat.lt_succ_of_lt hi))]

/-- The text of a bitset, last bit apart, is the text of half the value. -/
theorem bitset_to_string_snoc (N v : Nat) :
    bitset_to_string (N + 1) v =
      bitset_to_string N (v / 2) ++ [if v.testBit 0 then '1' else '0'] := by
  induction N with
  | zero => simp [bitset_to_string]
  | succ k ih =>
    rw [bitset_to_string, ih]
    simp only [bitset_to_string, List.cons_append]
    have : v.testBit (k + 1) = (v / 2).testBit k := by
      rw [Nat.testBit_succ]
    rw [this]

theorem digitChar_bit (v : Nat) : Nat.digitChar (v % 2) = if v.testBit 0 then '1' else '0' := by
  rcases Nat.mod_two_eq_zero_or_one v with h | h
  · simp [h, Nat.testBit_zero]; rfl
  · simp [h, Nat.testBit_zero]; rfl

/-- The text of a bitset of `N` bits is the binary numeral of its value, padded
with zeros to `N` characters. -/
theorem bitset_to_string_eq :
    ∀ (N v : Nat), 0 < N → v < 2 ^ N →
      bitset_to_string N v = pad_left N '0' (Nat.toDigits 2 v) := by
  intro N
  induction N with
  | zero => intro v h; omega
  | succ k ih =>
    intro v _ hv
    rw [bitset_to_string_snoc]
    by_cases hs : v < 2
    · have hz : bitset_to_string k (v / 2) = List.replicate k '0' := by
        rw [Nat.div_eq_of_lt hs]
        clear ih hv
        induction k with
        | zero => rfl
        | succ j ihj => simp [bitset_to_string, ihj, List.replicate_succ]
      rw [hz, toDigits_small 2 v hs, ← digitChar_bit, Nat.mod_eq_of_lt hs]
      simp [pad_left]
    · have hk : 0 < k := by
        rcases Nat.eq_zero_or_pos k with hz | hz
        · subst hz; simp at hv; omega
        · exact hz
      have hdiv : v / 2 < 2 ^ k := by
        rw [Nat.div_lt_iff_lt_mul (by omega)]
        rw [pow_succ] at hv
        exact hv
      rw [ih (v / 2) hk hdiv, toDigits_step 2 (le_refl 2) v (by omega), ← digitChar_bit]
      have hl := toDigits_length_le 2 (le_refl 2) k (v / 2) hk hdiv
      simp only [pad_left, List.length_append, List.length_singleton, List.append_assoc]
      congr 2
      omega

/-! ## Integer conversions -/

theorem negetive_int_iff (n : Int) (hlo : -2 ^ 63 ≤ n) (hhi : n < 2 ^ 63) :
    negetive_int n = true ↔ n < 0 := by
  unfold negetive_int wrap_signed
  simp only [decide_eq_true_eq]
  omega

theorem vsnprintf_s (s : Str) : vsnprintf "%s".toList (.str s) = some s := by
  simp [vsnprintf, printf_flags, printf_number, printf_precision, printf_length,
    printf_conversion, printf_text, pad_left, isdigit]

theorem vsnprintf_0s (s : Str) : vsnprintf "%0s".toList (.str s) = some s := by
  simp [vsnprintf, printf_flags, printf_number, printf_precision, printf_length,
    printf_conversion, printf_text, pad_left, isdigit]

/-- The `printf` format of `data_fmt` when sign, width and precision are unset. -/
theorem data_fmt_format_plain (data : Data) (type : Str) (h3 : data.d3 = -1)
    (h4 : data.d4 = -1) (h5 : data.d5 = -1) (ht : type.head? ≠ some '-') :
    data_fmt_format data type =
      if data.d1 = 48 then '%' :: '0' :: type else '%' :: type := by
  unfold data_fmt_format
  by_cases h1 : data.d1 = 48 <;> simp [ht, h3, h4, h5, int_of_char, h1]

/-- The bits of an `int` as `to_binary` sets them. -/
theorem to_binary_int (n : Nat) (fmt : Str) (v : Int) (hpos : 0 < n)
    (hfmt : ∀ t, vsnprintf fmt (.str t) = some t) (hlo : -2 ^ 31 < v) (hhi : v < 2 ^ 31) :
    to_binary .int n fmt v =
      .ok (if 0 ≤ v then pad_left 32 '0' (Nat.toDigits 2 v.toNat)
        else '1' :: pad_left 31 '0' (Nat.toDigits 2 v.natAbs)) := by
  have hneg := negetive_int_iff v (by omega) (by omega)
  unfold to_binary to_xstring
  simp only [hfmt, Ty.bits, bitset_to_string_length]
  by_cases hv : 0 ≤ v
  · have hf : negetive_int v = false := by
      rw [← Bool.not_eq_true, hneg]; omega
    have hm : size_t (make_positive .int v) % 2 ^ 32 = v.toNat := by
      simp only [make_positive, hf]
      unfold size_t
      simp
      omega
    have hlt : v.toNat < 2 ^ 32 := by omega
    simp only [hf, hm, if_pos hv]
    simp [hpos]
    exact bitset_to_string_eq 32 v.toNat (by omega) hlt
  · have hf : negetive_int v = true := by rw [hneg]; omega
    have hm : size_t (make_positive .int v) % 2 ^ 32 = v.natAbs := by
      simp only [make_positive, hf]
      unfold size_t
      simp
      omega
    have hlt : v.natAbs < 2 ^ 31 := by omega
    have hbit : (v.natAbs ||| 2 ^ 31).testBit 31 = true := by
      rw [Nat.testBit_or, Nat.testBit_two_pow_self]; simp
    have hlow : ∀ i < 31, (v.natAbs ||| 2 ^ 31).testBit i = v.natAbs.testBit i := by
      intro i hi
      rw [Nat.testBit_or, Nat.testBit_two_pow]
      have : ¬ (31 = i) := by omega
      simp [this]
    simp only [hf, hm, if_neg hv, if_true]
    rw [show (32 : Nat) = 31 + 1 from rfl, bitset_to_string, hbit,
      bitset_to_string_congr 31 _ _ hlow, bitset_to_string_eq 31 v.natAbs (by omega) hlt]
    simp
    omega


/-- Claim C9: the conversion `b` of an `int` above the least one, without width,
precision or sign, gives 32 characters `0` and `1`: the binary numeral of
the value padded with zeros when it is not negative, and `1` followed by the
binary numeral of the magnitude padded with zeros to 31 characters when it is
negative (sign and magnitude, not two's complement). -/
theorem int_binary (data : Data) (n : Int) (h3 : data.d3 = -1) (h4 : data.d4 = -1)
    (h5 : data.d5 = -1) (h6 : data.d6 = 98) (hlo : -2 ^ 31 < n) (hhi : n < 2 ^ 31) :
    aformat data (.int n) =
        .ok (if 0 ≤ n then pad_left 32 '0' (Nat.toDigits 2 n.toNat)
          else '1' :: pad_left 31 '0' (Nat.toDigits 2 n.natAbs)) ∧
      ∀ out, aformat data (.int n) = .ok out →
        out.length = 32 ∧ ∀ c ∈ out, c = '0' ∨ c = '1' := by
  have hfmt : data_fmt_format data "b".toList =
      if data.d1 = 48 then "%0b".toList else "%b".toList :=
    data_fmt_format_plain data _ h3 h4 h5 (by decide)
  have hpad : ∀ t, data_fmt_pad data t = .ok t := by
    intro t; simp [data_fmt_pad, h4]
  have hb : aformat data (.int n) =
      .ok (if 0 ≤ n then pad_left 32 '0' (Nat.toDigits 2 n.toNat)
        else '1' :: pad_left 31 '0' (Nat.toDigits 2 n.natAbs)) := by
    have hstep : aformat data (.int n) = data_fmt data 16 "b".toList .int (.int n) := by
      simp only [aformat, aformat_int, h6]
      rfl
    rw [hstep]
    simp only [data_fmt, hfmt]
    by_cases h1 : data.d1 = 48
    · have e : ("%0b".toList.getLast? = some 'b') := by decide
      have e2 : "%0b".toList.dropLast ++ ['s'] = "%0s".toList := by decide
      simp only [h1, if_true, e, e2, to_binary_int 16 _ n (by decide) vsnprintf_0s hlo hhi, hpad]
    · have e : ("%b".toList.getLast? = some 'b') := by decide
      have e2 : "%b".toList.dropLast ++ ['s'] = "%s".toList := by decide
      simp only [h1, if_false, if_true, e, e2,
        to_binary_int 16 _ n (by decide) vsnprintf_s hlo hhi, hpad]
  refine ⟨hb, ?_⟩
  intro out hout
  rw [hb] at hout
  cases hout
  split
  · refine ⟨?_, ?_⟩
    · rw [← bitset_to_string_eq 32 n.toNat (by omega) (by omega), bitset_to_string_length]
    · rw [← bitset_to_string_eq 32 n.toNat (by omega) (by omega)]
      exact bitset_to_string_chars _ _
  · refine ⟨?_, ?_⟩
    · rw [← bitset_to_string_eq 31 n.natAbs (by omega) (by omega), List.length_cons,
        bitset_to_string_length]
    · rw [← bitset_to_string_eq 31 n.natAbs (by omega) (by omega)]
      intro c hc
      rcases List.mem_cons.mp hc with h | h
      · exact Or.inr h
      · exact bitset_to_string_chars _ _ c h

/-- Witness of `int_binary`: the values 5 and -5. -/
theorem int_binary_witness :
    aformat ⟨-1, -1, -1, -1, -1, -1, 98, -1⟩ (.int 5) =
        .ok "00000000000000000000000000000101".toList ∧
      aformat ⟨-1, -1, -1, -1, -1, -1, 98, -1⟩ (.int (-5)) =
        .ok "10000000000000000000000000000101".toList :=
  ⟨(int_binary ⟨-1, -1, -1, -1, -1, -1, 98, -1⟩ 5 rfl rfl rfl rfl (by decide) (by decide)).1,
    (int_binary ⟨-1, -1, -1, -1, -1, -1, 98, -1⟩ (-5) rfl rfl rfl rfl (by decide) (by decide)).1⟩

/-- The `printf` format of `data_fmt` for a type string with a leading `-`. -/
theorem data_fmt_format_minus (data : Data) (type : Str) (h3 : data.d3 = -1)
    (h4 : data.d4 = -1) (h5 : data.d5 = -1) :
    data_fmt_format data ('-' :: type) =
      if data.d1 = 48 then '-' :: '%' :: '0' :: type else '-' :: '%' :: type := by
  unfold data_fmt_format
  by_cases h1 : data.d1 = 48 <;> simp [h3, h4, h5, int_of_char, h1]

/-- Without a width `data_fmt` returns what `vsnprintf` prints, when that fits the buffer. -/
theorem data_fmt_printed (data : Data) (n : Nat) (type : Str) (T : Ty) (a : VArg) (out : Str)
    (h4 : data.d4 = -1) (hb : (data_fmt_format data type).getLast? ≠ some 'b')
    (hv : vsnprintf (data_fmt_format data type) a = some out)
    (hlen : out.length < n) : data_fmt data n type T a = .ok out := by
  have hn : n ≠ 0 := by omega
  simp [data_fmt, hb, to_xstring, hv, hn, hlen, data_fmt_pad, h4]

theorem printf_integer_plain (zero : Bool) (digits : Str) (z : Bool) :
    printf_integer { zero := zero } [] digits z = digits := by
  cases zero <;> simp [printf_integer, pad_left]

theorem vsnprintf_unsigned (c : Char) (hc : c = 'x' ∨ c = 'X' ∨ c = 'o') (m : Int)
    (pre : Str) (hpre : pre = [] ∨ pre = ['-']) (zero : Str) (hz : zero = [] ∨ zero = ['0']) :
    vsnprintf (pre ++ '%' :: (zero ++ [c])) (.int m) =
      some (pre ++
        (if c = 'x' then Nat.toDigits 16 (wrap_unsigned 32 m)
         else if c = 'X' then (Nat.toDigits 16 (wrap_unsigned 32 m)).map Char.toUpper
         else Nat.toDigits 8 (wrap_unsigned 32 m))) := by
  rcases hc with rfl | rfl | rfl <;> rcases hpre with rfl | rfl <;> rcases hz with rfl | rfl <;>
    simp [vsnprintf, printf_flags, printf_number, printf_precision, printf_length,
      printf_conversion, isdigit, printf_bits, printf_integer_plain]

theorem magnitude_digits_length (c : Char) (m : Nat) (hm : m < 2 ^ 31) :
    (magnitude_digits c m).length ≤ 11 := by
  have h16 := toDigits_length_le 16 (by decide) 8 m (by decide) (by omega)
  have h8 := toDigits_length_le 8 (by decide) 11 m (by decide) (by omega)
  unfold magnitude_digits
  split
  · omega
  · split
    · rw [List.length_map]; omega
    · exact h8

/-- The two calls of `data_fmt` in the branches of `aformat` for `x`, `X`, `o`. -/
theorem aformat_int_magnitude (data : Data) (n : Int) (c : Char)
    (hc : c = 'x' ∨ c = 'X' ∨ c = 'o') (h3 : data.d3 = -1) (h4 : data.d4 = -1)
    (h5 : data.d5 = -1) (hlo : -2 ^ 31 < n) (hhi : n < 2 ^ 31) :
    (if negetive_int n = true then
        data_fmt data 16 ['-', c] .int (.int (make_positive .int n))
      else data_fmt data 16 [c] .int (.int n)) =
      .ok ((if n < 0 then ['-'] else []) ++ magnitude_digits c n.natAbs) := by
  have hneg := negetive_int_iff n (by omega) (by omega)
  have hcm : c ≠ '-' := by rcases hc with rfl | rfl | rfl <;> decide
  have hcb : c ≠ 'b' := by rcases hc with rfl | rfl | rfl <;> decide
  have hlen := magnitude_digits_length c n.natAbs (by omega)
  have hz : (if data.d1 = 48 then ['0'] else ([] : Str)) = [] ∨
      (if data.d1 = 48 then ['0'] else ([] : Str)) = ['0'] := by
    split
    · exact Or.inr rfl
    · exact Or.inl rfl
  by_cases hn : n < 0
  · have hf : negetive_int n = true := hneg.mpr hn
    have hfmt : data_fmt_format data ['-', c] =
        ['-'] ++ '%' :: ((if data.d1 = 48 then ['0'] else []) ++ [c]) := by
      rw [data_fmt_format_minus data [c] h3 h4 h5]
      split <;> rfl
    have hw : wrap_unsigned 32 (make_positive .int n) = n.natAbs := by
      simp only [make_positive, hf]
      unfold wrap_unsigned
      simp
      omega
    have hv := vsnprintf_unsigned c hc (make_positive .int n) ['-'] (Or.inr rfl) _ hz
    rw [hw] at hv
    rw [if_pos hf, if_pos hn]
    refine data_fmt_printed data 16 _ _ _ _ h4 ?_ ?_ ?_
    · rw [hfmt]
      rcases hz with h | h <;> rw [h] <;> simp [hcb]
    · rw [hfmt, hv]; rfl
    · simp only [List.length_append, List.length_singleton]; omega
  · have hf : ¬ negetive_int n = true := fun h => hn (hneg.mp h)
    have hfmt : data_fmt_format data [c] =
        [] ++ '%' :: ((if data.d1 = 48 then ['0'] else []) ++ [c]) := by
      rw [data_fmt_format_plain data [c] h3 h4 h5 (by simpa using hcm)]
      split <;> rfl
    have hw : wrap_unsigned 32 n = n.natAbs := by
      unfold wrap_unsigned
      omega
    have hv := vsnprintf_unsigned c hc n [] (Or.inl rfl) _ hz
    rw [hw] at hv
    rw [if_neg hf, if_neg hn]
    refine data_fmt_printed data 16 _ _ _ _ h4 ?_ ?_ ?_
    · rw [hfmt]
      rcases hz with h | h <;> rw [h] <;> simp [hcb]
    · rw [hfmt, hv]; rfl
    · simp only [List.nil_append]; omega

/-- Claim C10: the conversions `x`, `X` and `o` of an `int` above the least
one, without width, precision or sign, give the lowercase hexadecimal,
uppercase hexadecimal and octal numeral of the magnitude, with a `-` in front
when the value is negative and no sign otherwise. -/
theorem int_hex_octal (data : Data) (n : Int) (h3 : data.d3 = -1) (h4 : data.d4 = -1)
    (h5 : data.d5 = -1) (hlo : -2 ^ 31 < n) (hhi : n < 2 ^ 31) :
    (data.d6 = 120 → aformat data (.int n) =
        .ok ((if n < 0 then ['-'] else []) ++ Nat.toDigits 16 n.natAbs)) ∧
      (data.d6 = 88 → aformat data (.int n) =
        .ok ((if n < 0 then ['-'] else []) ++ (Nat.toDigits 16 n.natAbs).map Char.toUpper)) ∧
      (data.d6 = 111 → aformat data (.int n) =
        .ok ((if n < 0 then ['-'] else []) ++ Nat.toDigits 8 n.natAbs)) := by
  refine ⟨?_, ?_, ?_⟩
  · intro h6
    have hstep : aformat data (.int n) =
        if negetive_int n = true then
          data_fmt data 16 ['-', 'x'] .int (.int (make_positive .int n))
        else data_fmt data 16 ['x'] .int (.int n) := by
      simp only [aformat, aformat_int, h6]
      rfl
    rw [hstep, aformat_int_magnitude data n 'x' (Or.inl rfl) h3 h4 h5 hlo hhi]
    rfl
  · intro h6
    have hstep : aformat data (.int n) =
        if negetive_int n = true then
          data_fmt data 16 ['-', 'X'] .int (.int (make_positive .int n))
        else data_fmt data 16 ['X'] .int (.int n) := by
      simp only [aformat, aformat_int, h6]
      rfl
    rw [hstep, aformat_int_magnitude data n 'X' (Or.inr (Or.inl rfl)) h3 h4 h5 hlo hhi]
    rfl
  · intro h6
    have hstep : aformat data (.int n) =
        if negetive_int n = true then
          data_fmt data 16 ['-', 'o'] .int (.int (make_positive .int n))
        else data_fmt data 16 ['o'] .int (.int n) := by
      simp only [aformat, aformat_int, h6]
      rfl
    rw [hstep, aformat_int_magnitude data n 'o' (Or.inr (Or.inr rfl)) h3 h4 h5 hlo hhi]
    rfl

/-- Witness of `int_hex_octal`: -255 and 255 under `x`, `X` and `o`. -/
theorem int_hex_octal_witness :
    aformat ⟨-1, -1, -1, -1, -1, -1, 120, -1⟩ (.int (-255)) = .ok "-ff".toList ∧
      aformat ⟨-1, -1, -1, -1, -1, -1, 88, -1⟩ (.int (-255)) = .ok "-FF".toList ∧
      aformat ⟨-1, -1, -1, -1, -1, -1, 111, -1⟩ (.int 255) = .ok "377".toList :=
  ⟨(int_hex_octal ⟨-1, -1, -1, -1, -1, -1, 120, -1⟩ (-255) rfl rfl rfl
      (by decide) (by decide)).1 rfl,
    (int_hex_octal ⟨-1, -1, -1, -1, -1, -1, 88, -1⟩ (-255) rfl rfl rfl
      (by decide) (by decide)).2.1 rfl,
    (int_hex_octal ⟨-1, -1, -1, -1, -1, -1, 111, -1⟩ 255 rfl rfl rfl
      (by decide) (by decide)).2.2 rfl⟩

/-- Claim C8, as the code has it: the generic formatter has no guard on the
width under center alignment.  A `std::string` with `^` and no width, or a
width below its length, makes `std::string(count, fill)` throw
`std::length_error` (the `std::size_t` difference wraps), where the primitive
formatter returns the C string of the same characters unpadded; at a width
equal to the length the generic formatter returns the text. -/
theorem generic_center_narrow :
    vsformat no_double "\x7b:^\x7d".toList [.string "abc".toList] = .error .length_error ∧
      vsformat no_double "\x7b:^2\x7d".toList [.string "abc".toList] = .error .length_error ∧
      vsformat no_double "\x7b:^2\x7d".toList [.c_str "abc".toList] = .ok "abc".toList ∧
      vsformat no_double "\x7b:^\x7d".toList [.c_str "abc".toList] = .ok "abc".toList ∧
      vsformat no_double "\x7b:^3\x7d".toList [.string "abc".toList] = .ok "abc".toList := by
  decide

/-- The default rendering of an `int`: its decimal numeral. -/
theorem aformat_int_decimal (data : Data) (n : Int) (h3 : data.d3 = -1) (h4 : data.d4 = -1)
    (h5 : data.d5 = -1) (h6 : data.d6 = -1) (hlo : -2 ^ 31 ≤ n) (hhi : n < 2 ^ 31) :
    aformat data (.int n) = .ok (to_string n) := by
  have hstep : aformat data (.int n) = data_fmt data 16 ['d'] .int (.int n) := by
    simp only [aformat, aformat_int, h6]
    rfl
  have hfmt := data_fmt_format_plain data ['d'] h3 h4 h5 (by decide)
  have hw : wrap_signed 32 n = n := by unfold wrap_signed; omega
  have hlen := toDigits_length_le 10 (by decide) 10 n.natAbs (by decide) (by omega)
  have hv : vsnprintf (data_fmt_format data ['d']) (.int n) = some (to_string n) := by
    rw [hfmt]
    by_cases hn : n < 0
    · have e : n.toNat = 0 := by omega
      split <;>
        simp [vsnprintf, printf_flags, printf_number, printf_precision, printf_length,
          printf_conversion, isdigit, printf_bits, printf_integer, pad_left, hw, hn, to_string]
    · have e : n.natAbs = n.toNat := by omega
      split <;>
        simp [vsnprintf, printf_flags, printf_number, printf_precision, printf_length,
          printf_conversion, isdigit, printf_bits, printf_integer, pad_left, hw, hn, to_string, e]
  rw [hstep]
  refine data_fmt_printed data 16 _ _ _ _ h4 ?_ hv ?_
  · rw [hfmt]; split <;> decide
  · unfold to_string
    split
    · simp only [List.length_cons]; omega
    · have e : n.natAbs = n.toNat := by omega
      rw [← e]; omega

/-! ## Decimal numerals read back -/

theorem digitChar_isdigit (m : Nat) (h : m < 10) :
    isdigit (Nat.digitChar m) = true ∧ (Nat.digitChar m).toNat - 48 = m := by
  interval_cases m <;> decide

theorem toDigits_ten_isdigit (n : Nat) : ∀ c ∈ Nat.toDigits 10 n, isdigit c = true := by
  induction n using Nat.strong_induction_on with
  | _ n ih =>
    intro c hc
    by_cases hs : n < 10
    · rw [toDigits_small 10 n hs] at hc
      simp only [List.mem_singleton] at hc
      subst hc
      exact (digitChar_isdigit n hs).1
    · rw [toDigits_step 10 (by decide) n (by omega)] at hc
      rcases List.mem_append.mp hc with h | h
      · exact ih (n / 10) (Nat.div_lt_self (by omega) (by decide)) c h
      · simp only [List.mem_singleton] at h
        subst h
        exact (digitChar_isdigit (n % 10) (Nat.mod_lt _ (by decide))).1

theorem toDigits_ne_nil (b : Nat) (hb : 2 ≤ b) (n : Nat) : Nat.toDigits b n ≠ [] := by
  by_cases hs : n < b
  · rw [toDigits_small b n hs]; simp
  · rw [toDigits_step b hb n (by omega)]; simp

/-- The digit loop of `atoi` over a run of digits is a left fold. -/
theorem digits_value_append (A B : Str) (hA : ∀ c ∈ A, isdigit c = true) (acc : Nat) :
    digits_value (A ++ B) acc =
      digits_value B (A.foldl (fun a c => a * 10 + (c.toNat - 48)) acc) := by
  induction A generalizing acc with
  | nil => rfl
  | cons c A ih =>
    have hc := hA c (List.mem_cons_self _ _)
    simp only [List.cons_append, digits_value, hc, if_true, List.foldl_cons]
    exact ih (fun x hx => hA x (List.mem_cons_of_mem _ hx)) _

/-- Reading the decimal numeral of `n` gives `n`. -/
theorem foldl_toDigits_ten (n : Nat) :
    (Nat.toDigits 10 n).foldl (fun a c => a * 10 + (c.toNat - 48)) 0 = n := by
  induction n using Nat.strong_induction_on with
  | _ n ih =>
    by_cases hs : n < 10
    · rw [toDigits_small 10 n hs]
      simp only [List.foldl_cons, List.foldl_nil, Nat.zero_mul, Nat.zero_add]
      exact (digitChar_isdigit n hs).2
    · rw [toDigits_step 10 (by decide) n (by omega), List.foldl_append,
        ih (n / 10) (Nat.div_lt_self (by omega) (by decide))]
      simp only [List.foldl_cons, List.foldl_nil]
      rw [(digitChar_isdigit (n % 10) (Nat.mod_lt _ (by decide))).2]
      omega

theorem digits_value_stop_at (B : Str) (hB : no_digit_ahead B) (acc : Nat) :
    digits_value B acc = acc := by
  cases B with
  | nil => rfl
  | cons c t => simp [digits_value, hB c rfl]

theorem digits_value_numeral (n : Nat) (B : Str) (hB : no_digit_ahead B) :
    digits_value (Nat.toDigits 10 n ++ B) 0 = n := by
  rw [digits_value_append _ _ (toDigits_ten_isdigit n), foldl_toDigits_ten,
    digits_value_stop_at B hB]

/-- The function `atoi` reads a decimal numeral back. -/
theorem atoi_numeral (n : Nat) (B : Str) (hB : no_digit_ahead B) :
    atoi (Nat.toDigits 10 n ++ B) = n := by
  have hne := toDigits_ne_nil 10 (by decide) n
  have hval := digits_value_numeral n B hB
  have hdig := toDigits_ten_isdigit n
  cases hd : Nat.toDigits 10 n with
  | nil => exact absurd hd hne
  | cons c t =>
    rw [hd] at hval hdig
    have hc := hdig c (List.mem_cons_self _ _)
    have hsp : isspace c = false := by
      simp only [isdigit, Bool.and_eq_true, decide_eq_true_eq] at hc
      simp only [isspace, Bool.or_eq_false_iff, decide_eq_false_iff_not, Bool.and_eq_false_iff]
      constructor
      · intro h; subst h; revert hc; decide
      · right; omega
    have h1 : c ≠ '-' := by intro h; subst h; revert hc; decide
    have h2 : c ≠ '+' := by intro h; subst h; revert hc; decide
    have e : List.dropWhile isspace (c :: t ++ B) = c :: (t ++ B) := by
      simp [List.dropWhile, hsp]
    unfold atoi
    rw [e]
    simp only [List.cons_append] at hval
    split <;> simp_all

/-! ## The formatters throw no exception of their own -/

theorem library_failure_ok (s : Str) : library_failure (.ok s) := by
  intro e h; cases h

theorem library_failure_fill (count : Nat) (ch : Char) (g : Str → Str) :
    library_failure ((string_fill count ch).map g) := by
  intro e h
  cases hs : string_fill count ch with
  | error e1 =>
    rw [hs] at h
    simp only [Except.map] at h
    cases h
    exact Or.inr (string_fill_error hs)
  | ok s => rw [hs] at h; simp [Except.map] at h

theorem library_failure_pad_both (c1 c2 : Nat) (ch : Char) (g : Str → Str → Str) :
    library_failure
      (match string_fill c1 ch, string_fill c2 ch with
      | .ok l, .ok r => .ok (g l r)
      | .error e, _ => .error e
      | _, .error e => .error e) := by
  intro e h
  split at h
  · cases h
  · rename_i e1 h1; cases h; exact Or.inr (string_fill_error h1)
  · rename_i h1 _; cases h; exact Or.inr (string_fill_error h1)

theorem library_failure_data_fmt_pad (data : Data) (fmt : Str) :
    library_failure (data_fmt_pad data fmt) := by
  unfold data_fmt_pad
  simp only
  split
  · split
    · exact library_failure_fill _ _ _
    · split
      · exact library_failure_fill _ _ _
      · split
        · split <;> exact library_failure_fill _ _ _
        · split
          · exact library_failure_pad_both _ _ _ (fun l r => l ++ fmt ++ r)
          · exact library_failure_ok _
  · exact library_failure_ok _

theorem library_failure_to_xstring (n : Nat) (fmt : Str) (arg : VArg) :
    library_failure (to_xstring n fmt arg) := by
  intro e h
  unfold to_xstring at h
  simp only at h
  repeat' split at h
  all_goals first | (cases h; exact Or.inl rfl) | cases h

theorem library_failure_data_fmt (data : Data) (n : Nat) (type : Str) (T : Ty) (args : VArg) :
    library_failure (data_fmt data n type T args) := by
  unfold data_fmt
  simp only
  generalize hp : (if (data_fmt_format data type).getLast? = some 'b' then
      match args with
      | .int v => to_binary T n ((data_fmt_format data type).dropLast ++ ['s']) v
      | .str _ => .ok []
      | .flt _ => .error .undefined
    else to_xstring n (data_fmt_format data type) args : Res) = printed
  have hlib : library_failure printed := by
    rw [← hp]
    split
    · cases args
      · exact library_failure_to_xstring _ _ _
      · exact library_failure_ok _
      · intro e h; cases h; exact Or.inl rfl
    · exact library_failure_to_xstring _ _ _
  cases printed with
  | error e => intro e1 h; cases h; exact hlib e rfl
  | ok s => exact library_failure_data_fmt_pad _ _

theorem library_failure_aformat_generic (data : Data) (argument : Str) :
    library_failure (aformat_generic data argument) := by
  unfold aformat_generic
  simp only
  split
  · exact library_failure_pad_both _ _ _ _
  · exact library_failure_ok _

/-- The three formatters throw neither `std::invalid_argument` nor
`std::out_of_range`. -/
theorem library_failure_aformat (data : Data) (argument : Arg) :
    library_failure (aformat data argument) := by
  unfold aformat
  cases argument <;> simp only
  case custom => exact library_failure_ok _
  case string => exact library_failure_aformat_generic _ _
  all_goals
    first
    | exact library_failure_data_fmt _ _ _ _ _
    | (unfold aformat_int; repeat' split) <;> exact library_failure_data_fmt _ _ _ _ _
    | (unfold aformat_unsigned; repeat' split) <;> exact library_failure_data_fmt _ _ _ _ _
    | (unfold aformat_long; repeat' split) <;> exact library_failure_data_fmt _ _ _ _ _
    | (unfold aformat_unsigned_long; repeat' split) <;> exact library_failure_data_fmt _ _ _ _ _
    | (unfold aformat_unsigned_long_long; repeat' split) <;>
        exact library_failure_data_fmt _ _ _ _ _
    | (unfold aformat_floating; repeat' split) <;> exact library_failure_data_fmt _ _ _ _ _

theorem aformat_not_invalid_argument (data : Data) (argument : Arg) (what : Str) :
    aformat data argument ≠ .error (.invalid_argument what) := by
  intro h
  rcases library_failure_aformat data argument _ h with h1 | h1 <;> cases h1

/-! ## Claims on the type table, the subscript layer and the conversion layer -/

/-- Claim C11, as the code has it: the conversion character does not select the
rendering for `long` and `long long`.  The `long long` branch returns the
decimal rendering before it looks at the conversion character, and the `long`
branch prints `x` and `X` with the type strings `lh` and `lH`, which are no
`printf` conversions; `unsigned`, `unsigned long` and `unsigned long long`
agree with `int`, and so does `long` under `o`. -/
theorem integer_types_hex_octal :
    aformat ⟨-1, -1, -1, -1, -1, -1, 120, -1⟩ (.int 255) = .ok "ff".toList ∧
      aformat ⟨-1, -1, -1, -1, -1, -1, 120, -1⟩ (.long_long 255) = .ok "255".toList ∧
      aformat ⟨-1, -1, -1, -1, -1, -1, 88, -1⟩ (.long_long 255) = .ok "255".toList ∧
      aformat ⟨-1, -1, -1, -1, -1, -1, 111, -1⟩ (.long_long 255) = .ok "255".toList ∧
      aformat ⟨-1, -1, -1, -1, -1, -1, 120, -1⟩ (.long 255) = .error .undefined ∧
      aformat ⟨-1, -1, -1, -1, -1, -1, 88, -1⟩ (.long 255) = .error .undefined ∧
      aformat ⟨-1, -1, -1, -1, -1, -1, 111, -1⟩ (.long 255) = .ok "377".toList ∧
      aformat ⟨-1, -1, -1, -1, -1, -1, 120, -1⟩ (.unsigned 255) = .ok "ff".toList ∧
      aformat ⟨-1, -1, -1, -1, -1, -1, 120, -1⟩ (.unsigned_long 255) = .ok "ff".toList ∧
      aformat ⟨-1, -1, -1, -1, -1, -1, 120, -1⟩ (.unsigned_long_long 255) = .ok "ff".toList ∧
      vsformat no_double "\x7b:x\x7d".toList [.long_long 255] = .ok "255".toList := by
  decide

theorem asformat_no_subscript (to_double : Int → Floating) (data : Data) (argument : Arg)
    (h : has_subscript argument = false) :
    asformat to_double data argument =
      if data.d7 ≠ -1 then .error (.invalid_argument (subscript_message data argument.ty))
      else acdformat to_double data argument := by
  unfold asformat subscript_message
  simp [h]

theorem acformat_not_convertible (to_double : Int → Floating) (U : Target) (data : Data)
    (argument : Arg) (h : is_convertible argument = false) :
    acformat to_double U data argument =
      .error (.invalid_argument (conversion_message data argument.ty U.ty)) := by
  unfold acformat conversion_message
  simp [h]

theorem acformat_convertible (to_double : Int → Floating) (U : Target) (data : Data)
    (argument : Arg) (h : is_convertible argument = true) :
    acformat to_double U data argument = aformat data (convert to_double U argument) := by
  unfold acformat
  simp [h]

/-- A `std::invalid_argument` of `acdformat` is the one of `acformat`. -/
theorem acdformat_invalid_argument (to_double : Int → Floating) (data : Data) (argument : Arg)
    (what : Str) (h : acdformat to_double data argument = .error (.invalid_argument what)) :
    ∃ U : Target, what = conversion_message data argument.ty U.ty := by
  have hc : ∀ U : Target, acformat to_double U data argument = .error (.invalid_argument what) →
      what = conversion_message data argument.ty U.ty := by
    intro U hU
    by_cases hconv : is_convertible argument = true
    · rw [acformat_convertible _ _ _ _ hconv] at hU
      exact absurd hU (aformat_not_invalid_argument _ _ _)
    · rw [acformat_not_convertible _ _ _ _ (by simpa using hconv)] at hU
      cases hU
      rfl
  unfold acdformat at h
  split at h
  · exact absurd h (aformat_not_invalid_argument _ _ _)
  · split at h
    · split at h
      · exact absurd h (aformat_not_invalid_argument _ _ _)
      · exact ⟨.double, hc _ h⟩
    · split at h
      · split at h
        · exact absurd h (aformat_not_invalid_argument _ _ _)
        · exact ⟨.int, hc _ h⟩
      · split at h
        · split at h
          · exact absurd h (aformat_not_invalid_argument _ _ _)
          · exact ⟨.char, hc _ h⟩
        · cases h

/-- The two messages differ. -/
theorem conversion_message_ne (data : Data) (T U : Ty) :
    conversion_message data T U ≠ subscript_message data T := by
  unfold conversion_message subscript_message
  intro h
  rw [List.append_assoc, List.append_assoc, List.append_assoc, List.append_assoc,
    List.append_assoc, List.append_assoc, List.append_assoc] at h
  have h1 := List.append_cancel_left h
  have h2 := List.append_cancel_left h1
  have h3 := List.append_cancel_left h2
  have h4 := List.append_cancel_left h3
  have h5 := congrArg (fun l => l.getD 8 'a') h4
  revert h5
  simp

/-- Claim C12: for an argument of a type without indexed access `asformat`
throws the unsupported-subscript error exactly when the directive set has a
subscript (`data[7] != -1`), and without one it passes the argument on to
`acdformat` unchanged. -/
theorem asformat_unsupported_subscript (to_double : Int → Floating) (data : Data)
    (argument : Arg) (h : has_subscript argument = false) :
    (asformat to_double data argument =
        .error (.invalid_argument (subscript_message data argument.ty)) ↔ data.d7 ≠ -1) ∧
      (data.d7 = -1 → asformat to_double data argument = acdformat to_double data argument) := by
  rw [asformat_no_subscript to_double data argument h]
  constructor
  · constructor
    · intro he
      by_contra hd
      rw [if_neg (not_not.mpr hd)] at he
      obtain ⟨U, hU⟩ := acdformat_invalid_argument _ _ _ _ he
      exact conversion_message_ne data argument.ty U.ty hU.symm
    · intro hd
      rw [if_pos hd]
  · intro hd
    rw [if_neg (by simpa using hd)]

/-- Witness of `asformat_unsupported_subscript`: the field `{0[1]}` on the `int` 3. -/
theorem asformat_unsupported_subscript_witness :
    asformat no_double ⟨0, -1, -1, -1, -1, -1, -1, -1⟩ (.int 3) =
        acdformat no_double ⟨0, -1, -1, -1, -1, -1, -1, -1⟩ (.int 3) ∧
      vsformat no_double "\x7b0[1]\x7d".toList [.int 3] =
        .error (.invalid_argument
          ("argument index (which is 0) of type int is not subscriptable, " ++
            "but format string requested subscript").toList) :=
  ⟨(asformat_unsupported_subscript no_double ⟨0, -1, -1, -1, -1, -1, -1, -1⟩ (.int 3) rfl).2 rfl,
    by decide⟩

theorem char_toNat_lt (c : Char) : c.toNat < 2 ^ 31 := by
  have h := c.valid
  have e : c.toNat = c.val.toNat := rfl
  simp only [UInt32.isValidChar, Nat.isValidChar] at h
  omega

theorem not_convertible_types (argument : Arg) (h : is_convertible argument = false) :
    argument.ty.is_floating = false ∧ argument.ty.is_integer = false ∧ argument.ty ≠ .char := by
  cases argument <;> simp [is_convertible] at h <;>
    exact ⟨rfl, rfl, fun e => by cases e⟩

/-- The four cases of `acdformat` for an argument without value conversions. -/
theorem acdformat_not_convertible (to_double : Int → Floating) (data : Data) (argument : Arg)
    (hconv : is_convertible argument = false) :
    (∀ c ∈ ['x', 'X', 'o', 'b', 'd'], data.d6 = int_of_char c →
        acdformat to_double data argument =
          .error (.invalid_argument (conversion_message data argument.ty .int))) ∧
      (∀ c ∈ ['e', 'E', 'f', 'F', 'g', 'G', '%'], data.d6 = int_of_char c →
        acdformat to_double data argument =
          .error (.invalid_argument (conversion_message data argument.ty .double))) ∧
      (data.d6 = int_of_char 'c' →
        acdformat to_double data argument =
          .error (.invalid_argument (conversion_message data argument.ty .char))) ∧
      (data.d6 = -1 ∨ data.d6 = int_of_char 's' →
        acdformat to_double data argument = aformat data argument) := by
  obtain ⟨hfl, hin, hch⟩ := not_convertible_types argument hconv
  have e := fun U => acformat_not_convertible to_double U data argument hconv
  refine ⟨?_, ?_, ?_, ?_⟩
  · intro c hc h6
    simp only [List.mem_cons, List.mem_singleton, List.not_mem_nil, or_false] at hc
    unfold acdformat
    rw [h6, hin]
    simp only [e]
    rcases hc with rfl | rfl | rfl | rfl | rfl <;> rfl
  · intro c hc h6
    simp only [List.mem_cons, List.mem_singleton, List.not_mem_nil, or_false] at hc
    unfold acdformat
    rw [h6, hfl]
    simp only [e]
    rcases hc with rfl | rfl | rfl | rfl | rfl | rfl | rfl <;> rfl
  · intro h6
    unfold acdformat
    rw [h6]
    simp only [e, hch, if_false]
    rfl
  · intro h6
    unfold acdformat
    rcases h6 with h | h <;> rw [h] <;> rfl

/-- Claim C15: a value whose type is not in the class of the conversion
character but converts to it is formatted as the converted value under the
same directives: a `char` and a `bool` under `d`, `x`, `X`, `o`, `b` as the
`int` of equal value, an `int` under `c` as the `char` of its low byte. -/
theorem converted_value_formatted (to_double : Int → Floating) (data : Data) :
    (∀ k ∈ ['d', 'x', 'X', 'o', 'b'], data.d6 = int_of_char k →
        (∀ c : Char, acdformat to_double data (.char c) = aformat data (.int (int_of_char c))) ∧
          ∀ b : Bool, acdformat to_double data (.bool b) =
            aformat data (.int (if b then 1 else 0))) ∧
      (data.d6 = int_of_char 'c' →
        ∀ n : Int, acdformat to_double data (.int n) = aformat data (.char (char_of_int n))) := by
  constructor
  · intro k hk h6
    simp only [List.mem_cons, List.mem_singleton, List.not_mem_nil, or_false] at hk
    have hstep : ∀ a : Arg, a.ty.is_integer = false →
        acdformat to_double data a = acformat to_double .int data a := by
      intro a ha
      unfold acdformat
      rw [h6, ha]
      rcases hk with rfl | rfl | rfl | rfl | rfl <;> rfl
    constructor
    · intro c
      rw [hstep (.char c) rfl, acformat_convertible to_double .int data (.char c) rfl]
      have hw : wrap_signed 32 (int_of_char c) = int_of_char c := by
        have := char_toNat_lt c
        unfold wrap_signed int_of_char
        omega
      simp only [convert, Arg.integral, hw]
    · intro b
      rw [hstep (.bool b) rfl, acformat_convertible to_double .int data (.bool b) rfl]
      cases b <;> rfl
  · intro h6 n
    unfold acdformat
    rw [h6, acformat_convertible to_double .char data (.int n) rfl]
    rfl

/-- Witness of `converted_value_formatted`: the `char` `A` under `d` is `65`,
the `int` 66 under `c` is `B`. -/
theorem converted_value_formatted_witness :
    acdformat no_double ⟨-1, -1, -1, -1, -1, -1, 100, -1⟩ (.char 'A') =
        aformat ⟨-1, -1, -1, -1, -1, -1, 100, -1⟩ (.int 65) ∧
      vsformat no_double "\x7b:d\x7d|\x7b:x\x7d|\x7b:c\x7d".toList
          [.char 'A', .bool true, .int 66] = .ok "65|1|B".toList :=
  ⟨((converted_value_formatted no_double ⟨-1, -1, -1, -1, -1, -1, 100, -1⟩).1 'd'
      (by decide) rfl).1 'A',
    by decide⟩


/-- Claim C16, as the code has it: the two errors report `data[0]`, the slot of
the explicit index, which is `-1` for a field without one; the cursor is not
reported.  The second field of `{}{:x}` resolves to argument 1 and reports -1,
as does the only field of `{:x}`, which resolves to argument 0; with an
explicit index the position is the index. -/
theorem error_position_of_auto_field :
    vsformat no_double "\x7b:x\x7d".toList [.c_str "ab".toList] =
        .error (.invalid_argument
          "argument index (which is -1) of type char const* is not convertable to type of int".toList) ∧
      vsformat no_double "\x7b\x7d\x7b:x\x7d".toList [.int 1, .c_str "ab".toList] =
        .error (.invalid_argument
          "argument index (which is -1) of type char const* is not convertable to type of int".toList) ∧
      vsformat no_double "\x7b\x7d\x7b[1]:\x7d".toList [.int 1, .int 2] =
        .error (.invalid_argument
          ("argument index (which is -1) of type int is not subscriptable, " ++
            "but format string requested subscript").toList) ∧
      vsformat no_double "\x7b1:x\x7d".toList [.int 1, .c_str "ab".toList] =
        .error (.invalid_argument
          "argument index (which is 1) of type char const* is not convertable to type of int".toList) := by
  decide

/-- The numeral of a positive number starts with a digit other than `0`. -/
theorem toDigits_ten_head (w : Nat) (hw : 1 ≤ w) :
    ∃ c t, Nat.toDigits 10 w = c :: t ∧ c ≠ '0' ∧ isdigit c = true := by
  induction w using Nat.strong_induction_on with
  | _ w ih =>
    by_cases hs : w < 10
    · refine ⟨Nat.digitChar w, [], toDigits_small 10 w hs, ?_, (digitChar_isdigit w hs).1⟩
      interval_cases w <;> decide
    · obtain ⟨c, t, h1, h2, h3⟩ := ih (w / 10) (Nat.div_lt_self (by omega) (by decide))
        (by omega)
      refine ⟨c, t ++ [Nat.digitChar (w % 10)], ?_, h2, h3⟩
      rw [toDigits_step 10 (by decide) w (by omega), h1]
      rfl

theorem dropWhile_isdigit_append (A B : Str) (hA : ∀ c ∈ A, isdigit c = true)
    (hB : no_digit_ahead B) : List.dropWhile isdigit (A ++ B) = B := by
  induction A with
  | nil =>
    cases B with
    | nil => rfl
    | cons c t => simp [List.dropWhile, hB c rfl]
  | cons a A ih =>
    simp only [List.cons_append, List.dropWhile, hA a (List.mem_cons_self _ _)]
    exact ih (fun x hx => hA x (List.mem_cons_of_mem _ hx))

/-- The width of a `printf` format is read back from its numeral. -/
theorem printf_number_numeral (w : Nat) (B : Str) (hB : no_digit_ahead B) :
    printf_number (Nat.toDigits 10 w ++ B) = (some w, B) := by
  unfold printf_number
  have hne := toDigits_ne_nil 10 (by decide) w
  have hdig := toDigits_ten_isdigit w
  rw [digits_value_numeral w B hB, dropWhile_isdigit_append _ _ hdig hB]
  cases hd : Nat.toDigits 10 w with
  | nil => exact absurd hd hne
  | cons c t =>
    rw [hd] at hdig
    simp [List.takeWhile, hdig c (List.mem_cons_self _ _)]

theorem printf_flags_digit (c : Char) (t : Str) (sp : PSpec) (h0 : c ≠ '0')
    (hd : isdigit c = true) : printf_flags (c :: t) sp = (sp, c :: t) := by
  have h1 : c ≠ '+' := by intro h; subst h; revert hd; decide
  have h2 : c ≠ '-' := by intro h; subst h; revert hd; decide
  have h3 : c ≠ ' ' := by intro h; subst h; revert hd; decide
  simp [printf_flags, h0, h1, h2, h3]

/-- The format `%<w>s` pads the string on the left with spaces to `w` characters. -/
theorem vsnprintf_width_s (w : Nat) (hw : 1 ≤ w) (s : Str) :
    vsnprintf ('%' :: (Nat.toDigits 10 w ++ ['s'])) (.str s) = some (pad_left w ' ' s) := by
  obtain ⟨c, t, h1, h2, h3⟩ := toDigits_ten_head w hw
  have hB : no_digit_ahead ['s'] := by
    intro x hx
    simp only [List.head?_cons, Option.some.injEq] at hx
    subst hx
    decide
  have hnum := printf_number_numeral w ['s'] hB
  rw [h1] at hnum
  simp only [List.cons_append] at hnum
  unfold vsnprintf
  rw [h1]
  simp [printf_flags_digit c _ _ h2 h3, hnum, printf_precision, printf_length,
    printf_conversion, printf_text]

theorem to_string_nat (w : Nat) : to_string (w : Int) = Nat.toDigits 10 w := by
  unfold to_string
  have h : ¬ ((w : Int) < 0) := by omega
  simp [h]

theorem pad_left_length (w : Nat) (c : Char) (s : Str) (h : s.length ≤ w) :
    (pad_left w c s).length = w := by
  simp only [pad_left, List.length_append, List.length_replicate]
  omega

/-- Without alignment and fill `data_fmt` hands the width to `printf`, which
pads a string on the left. -/
theorem data_fmt_width_s (data : Data) (s : Str) (w n : Nat) (T : Ty) (h1 : data.d1 = -1)
    (h2 : data.d2 = -1) (h3 : data.d3 = -1) (h4 : data.d4 = w) (h5 : data.d5 = -1)
    (hw : 1 ≤ w) (hlen : s.length ≤ w) (hn : w < n) (hmax : n ≤ 2 ^ 31) :
    data_fmt data n ['s'] T (.str s) = .ok (pad_left w ' ' s) := by
  have hfmt : data_fmt_format data ['s'] = '%' :: (Nat.toDigits 10 w ++ ['s']) := by
    have hw1 : (w : Int) ≠ -1 := by omega
    unfold data_fmt_format
    simp [h1, h2, h3, h4, h5, hw1, int_of_char, to_string_nat]
  have hlast : (data_fmt_format data ['s']).getLast? ≠ some 'b' := by
    rw [hfmt, ← List.cons_append, List.getLast?_append]
    simp
  have hsz : size_t (w : Int) = w := by
    unfold size_t
    omega
  have hpl := pad_left_length w ' ' s hlen
  have hn0 : n ≠ 0 := by omega
  unfold data_fmt
  simp only [hlast, if_false]
  rw [hfmt]
  simp [to_xstring, vsnprintf_width_s w hw s, hpl, hn, hn0, data_fmt_pad, h4, hsz]

/-- Claim C20 fails on the C string `abc` at width 5: the spaces come first. -/
theorem text_width_pads_left :
    vsformat no_double "\x7b:5\x7d".toList [.c_str "abc".toList] = .ok "  abc".toList ∧
      vsformat no_double "\x7b:5\x7d".toList [.c_str "abc".toList] ≠ .ok "abc  ".toList := by
  decide

/-- Claim C20, amended: for a C string `s` and a width `w` above its length and
below the buffer limit 255, a specifier that gives only the width yields
`w - length(s)` spaces followed by `s`: text is right-aligned, as `printf`
pads it. -/
theorem text_default_alignment (data : Data) (s : Str) (w : Nat) (h1 : data.d1 = -1)
    (h2 : data.d2 = -1) (h3 : data.d3 = -1) (h4 : data.d4 = w) (h5 : data.d5 = -1)
    (hlen : s.length < w) (hw : w < 255) :
    aformat data (.c_str s) = .ok (List.replicate (w - s.length) ' ' ++ s) := by
  have h := data_fmt_width_s data s w 255 .c_str h1 h2 h3 h4 h5 (by omega) (by omega) hw
    (by decide)
  simpa [aformat, pad_left] using h

/-- Witness of `text_default_alignment`: `abc` at width 5. -/
theorem text_default_alignment_witness :
    aformat ⟨-1, -1, -1, -1, 5, -1, -1, -1⟩ (.c_str "abc".toList) = .ok "  abc".toList :=
  text_default_alignment ⟨-1, -1, -1, -1, 5, -1, -1, -1⟩ "abc".toList 5 rfl rfl rfl rfl rfl
    (by decide) (by decide)

/-! ## Fields with index and subscript -/

theorem not_mem_toDigits_ten (n : Nat) (c : Char) (hc : isdigit c = false) :
    c ∉ Nat.toDigits 10 n := by
  intro h
  rw [toDigits_ten_isdigit n c h] at hc
  cases hc

/-- The parse of the field text `i[k]`, index and subscript as decimal numerals. -/
theorem parse_argument_index_subscript (i k : Nat) (after : Str) (d : Data) :
    parse_argument d ⟨Nat.toDigits 10 i ++ '[' :: (Nat.toDigits 10 k ++ [']']), after⟩ =
      (true, ⟨i, -1, -1, -1, -1, -1, -1, k⟩) := by
  have hcolon : ':' ∉ Nat.toDigits 10 i ++ '[' :: (Nat.toDigits 10 k ++ [']']) := by
    simp only [List.mem_append, List.mem_cons, List.mem_singleton, List.not_mem_nil, or_false,
      not_or]
    exact ⟨not_mem_toDigits_ten i ':' (by decide), by decide,
      not_mem_toDigits_ten k ':' (by decide), by decide⟩
  have hbr : '[' ∉ Nat.toDigits 10 i := not_mem_toDigits_ten i '[' (by decide)
  have hne := toDigits_ne_nil 10 (by decide) i
  have hlen : 0 < (Nat.toDigits 10 i).length := List.length_pos.mpr hne
  have ha1 : atoi (Nat.toDigits 10 i ++ ('[' :: (Nat.toDigits 10 k ++ [']']) ++ after)) = i :=
    atoi_numeral i _ (by intro c hc; simp at hc; subst hc; decide)
  have ha2 : atoi (Nat.toDigits 10 k ++ (']' :: after)) = k :=
    atoi_numeral k _ (by intro c hc; simp at hc; subst hc; decide)
  unfold parse_argument
  rw [find_first_of_none hcolon]
  simp only [string_view.size, List.length_append, List.length_cons, List.length_nil,
    string_view.c_str, List.append_assoc]
  have hsz : ¬ ((Nat.toDigits 10 i).length + ((Nat.toDigits 10 k).length + (0 + 1) + 1) = 0) := by
    omega
  simp only [ne_eq, hsz, not_false_eq_true, if_true]
  unfold parse_index
  rw [find_first_of_some hbr]
  simp only [string_view.substr, string_view.size, string_view.c_str, List.length_append,
    List.length_cons, List.length_nil, List.drop_zero, take_length_append,
    drop_length_succ_append, drop_length_append, List.append_assoc]
  have hcnt : (Nat.toDigits 10 i).length + 2 ≤
      (Nat.toDigits 10 i).length + ((Nat.toDigits 10 k).length + (0 + 1) + 1) := by omega
  have hsub : (Nat.toDigits 10 i).length + ((Nat.toDigits 10 k).length + (0 + 1) + 1) -
      (Nat.toDigits 10 i).length - 2 = (Nat.toDigits 10 k).length := by omega
  simp only [hcnt, if_true, hsub, take_length_append, drop_length_append]
  have hi0 : ¬ ((Nat.toDigits 10 i).length = 0) := by omega
  simp only [ne_eq, hi0, not_false_eq_true, if_true]
  simp only [List.cons_append, List.nil_append, List.append_assoc] at ha1 ha2 ⊢
  rw [ha1, ha2]
  rfl

theorem seq_form_snoc (P : Str → Prop) :
    ∀ (Ps : List (Str → Prop)) (a b : Str), seq_form Ps a → P b →
      seq_form (Ps ++ [P]) (a ++ b) := by
  intro Ps
  induction Ps with
  | nil =>
    intro a b ha hb
    simp only [seq_form] at ha
    subst ha
    exact ⟨b, [], by simp, hb, rfl⟩
  | cons Q Qs ih =>
    intro a b ha hb
    obtain ⟨x, y, hxy, hx, hy⟩ := ha
    exact ⟨x, y ++ b, by rw [hxy, List.append_assoc], hx, ih y b hy hb⟩

theorem seq_form_extend (Qs : List (Str → Prop)) (hQ : ∀ Q ∈ Qs, Q []) :
    ∀ (Ps : List (Str → Prop)) (a : Str), seq_form Ps a → seq_form (Ps ++ Qs) a := by
  intro Ps
  induction Ps with
  | nil =>
    intro a ha
    simp only [seq_form] at ha
    subst ha
    induction Qs with
    | nil => rfl
    | cons Q Qs ih =>
      exact ⟨[], [], rfl, hQ Q (List.mem_cons_self _ _),
        ih (fun R hR => hQ R (List.mem_cons_of_mem _ hR))⟩
  | cons R Rs ih =>
    intro a ha
    obtain ⟨x, y, hxy, hx, hy⟩ := ha
    exact ⟨x, y, hxy, hx, ih y hy⟩

/-- Inside the view `operator[]` reads the text. -/
theorem take_succ_get (v : string_view) (i : Nat) (h : i < v.size) :
    v.text.take (i + 1) = v.text.take i ++ [v.get i] := by
  unfold string_view.size at h
  unfold string_view.get
  rw [List.getD_append _ _ _ _ h, List.take_succ, List.getD_eq_getElem?_getD,
    List.getElem?_eq_getElem h]
  rfl

/-- The character `operator[]` reads at `size()` behind a field: the closing
brace or the terminating NUL. -/
theorem get_size_field_end (v : string_view) (h : field_end v.after) :
    v.get v.size = '}' ∨ v.get v.size = Char.ofNat 0 := by
  unfold string_view.get string_view.size
  rw [List.getD_append_right _ _ _ _ (le_refl _), Nat.sub_self]
  rcases h with h | ⟨r, h⟩
  · rw [h]; exact Or.inr rfl
  · rw [h]; exact Or.inl rfl

theorem take_size (v : string_view) : v.text.take v.size = v.text := by
  unfold string_view.size
  exact List.take_length _


theorem is_conversion_mem (c : Char) (h : is_conversion c = true) :
    c ∈ conversion_characters := by
  have key : ∀ n ∈ [37, 69, 70, 71, 88, 98, 99, 100, 101, 102, 103, 111, 115, 120],
      Char.ofNat n ∈ conversion_characters := by decide
  have hn : c.toNat ∈ [37, 69, 70, 71, 88, 98, 99, 100, 101, 102, 103, 111, 115, 120] := by
    simp only [is_conversion, Bool.or_eq_true, Bool.and_eq_true, decide_eq_true_eq] at h
    simp only [List.mem_cons, List.mem_singleton, List.not_mem_nil, or_false]
    omega
  have := key _ hn
  rwa [Char.ofNat_toNat] at this

/-- The shape of the alignment, sign and zero steps: the step reads nothing or
one character that passes its test. -/
theorem spec_char_form (v : string_view) (hend : field_end v.after) (test : Char → Bool)
    (store : Data → Char → Data) (h1 : test '}' = false) (h2 : test (Char.ofNat 0) = false)
    (C : Str → Prop) (hC : ∀ c, test c = true → C [c]) (hC0 : C [])
    (Ps : List (Str → Prop)) (s : Scan) (hs : s.2 ≤ v.size)
    (hform : seq_form Ps (v.text.take s.2)) :
    (∀ s1, spec_char v test store s = .ok s1 →
        s1.2 ≤ v.size ∧ seq_form (Ps ++ [C]) (v.text.take s1.2)) ∧
      ∀ r, spec_char v test store s = .error r → r.1 = true ∧ seq_form (Ps ++ [C]) v.text := by
  have hkeep : seq_form (Ps ++ [C]) (v.text.take s.2) := by
    have := seq_form_snoc C Ps _ [] hform hC0
    rwa [List.append_nil] at this
  unfold spec_char
  by_cases ht : test (v.get s.2) = true
  · have hlt : s.2 < v.size := by
      by_contra hge
      have e : s.2 = v.size := by omega
      rw [e] at ht
      rcases get_size_field_end v hend with h | h <;> rw [h] at ht
      · rw [h1] at ht; cases ht
      · rw [h2] at ht; cases ht
    have hnext : seq_form (Ps ++ [C]) (v.text.take (s.2 + 1)) := by
      rw [take_succ_get v s.2 hlt]
      exact seq_form_snoc C Ps _ _ hform (hC _ ht)
    rw [if_pos ht]
    by_cases hx : s.2 + 1 ≥ v.size
    · rw [if_pos hx]
      refine ⟨fun s1 h => (by cases h), fun r h => ?_⟩
      cases h
      have e : s.2 + 1 = v.size := by omega
      rw [e, take_size] at hnext
      exact ⟨rfl, hnext⟩
    · rw [if_neg hx]
      refine ⟨fun s1 h => ?_, fun r h => by cases h⟩
      cases h
      have hle : s.2 + 1 ≤ v.size := by omega
      exact ⟨hle, hnext⟩
  · rw [if_neg ht]
    refine ⟨fun s1 h => ?_, fun r h => by cases h⟩
    cases h
    exact ⟨hs, hkeep⟩

/-- The fill and alignment steps together read nothing, an alignment character,
or a fill character and an alignment character. -/
theorem spec_align_form (v : string_view) (hend : field_end v.after) (d : Data) :
    (∀ s1, spec_align v (spec_fill v d) = .ok s1 →
        s1.2 ≤ v.size ∧ seq_form [fill_align_form] (v.text.take s1.2)) ∧
      ∀ r, spec_align v (spec_fill v d) = .error r →
        r.1 = true ∧ seq_form [fill_align_form] v.text := by
  unfold spec_fill
  by_cases hf : (decide (v.size > 2) && is_align (v.get 1)) = true
  · rw [if_pos hf]
    simp only [Bool.and_eq_true, decide_eq_true_eq] at hf
    obtain ⟨h2, ha⟩ := hf
    unfold spec_align spec_char
    simp only [Nat.zero_add]
    rw [if_pos ha, if_neg (by omega)]
    refine ⟨fun s1 h => ?_, fun r h => (by cases h)⟩
    cases h
    have hle : 1 + 1 ≤ v.size := by omega
    refine ⟨hle, ?_⟩
    have e1 := take_succ_get v 0 (by omega)
    have e2 := take_succ_get v 1 (by omega)
    simp only [Nat.zero_add, List.take_zero, List.nil_append] at e1
    rw [e2, e1]
    exact ⟨[v.get 0, v.get 1], [], by simp, Or.inr (Or.inr ⟨_, _, ha, rfl⟩), rfl⟩
  · rw [if_neg hf]
    exact spec_char_form v hend is_align _ (by decide) (by decide) fill_align_form
      (fun c hc => Or.inr (Or.inl ⟨c, hc, rfl⟩)) (Or.inl rfl) [] (d, 0) (Nat.zero_le _) rfl

/-- The width loop reads a run of digits. -/
theorem parse_width_form (v : string_view) : ∀ (fuel i : Nat) (a : Int), i ≤ v.size →
    (parse_width v fuel i a).2 ≤ v.size ∧
      ∃ ds, digits_form ds ∧ v.text.take (parse_width v fuel i a).2 = v.text.take i ++ ds
  | 0, i, a, h => ⟨h, [], (fun c hc => (by cases hc)), (by simp [parse_width])⟩
  | fuel + 1, i, a, h => by
    unfold parse_width
    by_cases hc : (decide (i < v.size) && isdigit (v.get i)) = true
    · rw [if_pos hc]
      simp only [Bool.and_eq_true, decide_eq_true_eq] at hc
      obtain ⟨hle, ds, hds, he⟩ := parse_width_form v fuel (i + 1)
        ((if a = -1 then 0 else a) * 10 + (int_of_char (v.get i) - 48)) (by omega)
      refine ⟨hle, v.get i :: ds, ?_, ?_⟩
      · intro c hcm
        rcases List.mem_cons.mp hcm with rfl | hm
        · exact hc.2
        · exact hds c hm
      · rw [he, take_succ_get v i hc.1]; simp
    · rw [if_neg hc]
      exact ⟨h, [], (fun c hc => (by cases hc)), (by simp)⟩

/-- The precision loop reads a run of digits. -/
theorem parse_precision_form (v : string_view) : ∀ (fuel i : Nat) (a : Int), i ≤ v.size →
    (parse_precision v fuel i a).2 ≤ v.size ∧
      ∃ ds, digits_form ds ∧ v.text.take (parse_precision v fuel i a).2 = v.text.take i ++ ds
  | 0, i, a, h => ⟨h, [], (fun c hc => (by cases hc)), (by simp [parse_precision])⟩
  | fuel + 1, i, a, h => by
    unfold parse_precision
    by_cases hc : (decide (i < v.size) && isdigit (v.get i)) = true
    · rw [if_pos hc]
      simp only [Bool.and_eq_true, decide_eq_true_eq] at hc
      obtain ⟨hle, ds, hds, he⟩ := parse_precision_form v fuel (i + 1)
        (a * 10 + (int_of_char (v.get i) - 48)) (by omega)
      refine ⟨hle, v.get i :: ds, ?_, ?_⟩
      · intro c hcm
        rcases List.mem_cons.mp hcm with rfl | hm
        · exact hc.2
        · exact hds c hm
      · rw [he, take_succ_get v i hc.1]; simp
    · rw [if_neg hc]
      exact ⟨h, [], (fun c hc => (by cases hc)), (by simp)⟩

/-- The width step extends what was read by a run of digits. -/
theorem spec_width_form (v : string_view) (Ps : List (Str → Prop)) (s : Scan)
    (hs : s.2 ≤ v.size) (hform : seq_form Ps (v.text.take s.2)) :
    (∀ s1, spec_width v s = .ok s1 →
        s1.2 ≤ v.size ∧ seq_form (Ps ++ [digits_form]) (v.text.take s1.2)) ∧
      ∀ r, spec_width v s = .error r →
        r.1 = true ∧ seq_form (Ps ++ [digits_form]) v.text := by
  obtain ⟨hle, ds, hds, he⟩ := parse_width_form v (v.size - s.2) s.2 s.1.d4 hs
  have hnext : seq_form (Ps ++ [digits_form])
      (v.text.take (parse_width v (v.size - s.2) s.2 s.1.d4).2) := by
    rw [he]; exact seq_form_snoc _ Ps _ _ hform hds
  unfold spec_width
  simp only []
  split_ifs with hx
  · refine ⟨fun s1 h => (by cases h), fun r h => ?_⟩
    cases h
    have e : (parse_width v (v.size - s.2) s.2 s.1.d4).2 = v.size := by omega
    rw [e, take_size] at hnext
    exact ⟨rfl, hnext⟩
  · refine ⟨fun s1 h => ?_, fun r h => (by cases h)⟩
    cases h
    exact ⟨hle, hnext⟩

/-- The precision step extends what was read by nothing or by a point and a
run of digits. -/
theorem spec_precision_form (v : string_view) (hend : field_end v.after)
    (Ps : List (Str → Prop)) (s : Scan)
    (hs : s.2 ≤ v.size) (hform : seq_form Ps (v.text.take s.2)) :
    (∀ s1, spec_precision v s = .ok s1 →
        s1.2 ≤ v.size ∧ seq_form (Ps ++ [precision_form]) (v.text.take s1.2)) ∧
      ∀ r, spec_precision v s = .error r →
        r.1 = true ∧ seq_form (Ps ++ [precision_form]) v.text := by
  have hkeep : seq_form (Ps ++ [precision_form]) (v.text.take s.2) := by
    have := seq_form_snoc precision_form Ps _ [] hform (Or.inl rfl)
    rwa [List.append_nil] at this
  unfold spec_precision
  by_cases hp : v.get s.2 = '.'
  · have hlt : s.2 < v.size := by
      by_contra hge
      have e : s.2 = v.size := by omega
      rw [e] at hp
      rcases get_size_field_end v hend with h | h <;> rw [h] at hp <;> revert hp <;> decide
    obtain ⟨hle, ds, hds, he⟩ := parse_precision_form v (v.size - (s.2 + 1)) (s.2 + 1) 0 hlt
    have hnext : seq_form (Ps ++ [precision_form])
        (v.text.take (parse_precision v (v.size - (s.2 + 1)) (s.2 + 1) 0).2) := by
      rw [he, take_succ_get v s.2 hlt, hp, List.append_assoc]
      exact seq_form_snoc _ Ps _ _ hform (Or.inr ⟨ds, hds, rfl⟩)
    rw [if_pos hp]
    simp only []
    split_ifs with hx
    · refine ⟨fun s1 h => (by cases h), fun r h => ?_⟩
      cases h
      have e : (parse_precision v (v.size - (s.2 + 1)) (s.2 + 1) 0).2 = v.size := by omega
      rw [e, take_size] at hnext
      exact ⟨rfl, hnext⟩
    · refine ⟨fun s1 h => ?_, fun r h => (by cases h)⟩
      cases h
      exact ⟨hle, hnext⟩
  · rw [if_neg hp]
    split_ifs with hx
    · refine ⟨fun s1 h => (by cases h), fun r h => ?_⟩
      cases h
      have e : s.2 = v.size := by omega
      rw [e, take_size] at hkeep
      exact ⟨rfl, hkeep⟩
    · refine ⟨fun s1 h => ?_, fun r h => (by cases h)⟩
      cases h
      exact ⟨hs, hkeep⟩

/-- The conversion step reports success only when nothing or one conversion
character was left. -/
theorem spec_conversion_form (v : string_view) (hend : field_end v.after)
    (Ps : List (Str → Prop)) (s : Scan)
    (hs : s.2 ≤ v.size) (hform : seq_form Ps (v.text.take s.2))
    (h : (spec_conversion v s).1 = true) : seq_form (Ps ++ [conversion_form]) v.text := by
  unfold spec_conversion at h
  by_cases hc : is_conversion (v.get s.2) = true
  · have hlt : s.2 < v.size := by
      by_contra hge
      have e : s.2 = v.size := by omega
      rw [e] at hc
      rcases get_size_field_end v hend with h | h <;> rw [h] at hc <;> revert hc <;> decide
    rw [if_pos hc] at h
    simp only [] at h
    split_ifs at h with hx
    have e : s.2 + 1 = v.size := by omega
    rw [← take_size v, ← e, take_succ_get v s.2 hlt]
    exact seq_form_snoc _ Ps _ _ hform (Or.inr ⟨_, is_conversion_mem _ hc, rfl⟩)
  · rw [if_neg hc] at h
    simp only [] at h
    split_ifs at h with hx
    have e : s.2 = v.size := by omega
    rw [e, take_size] at hform
    have := seq_form_snoc conversion_form Ps _ [] hform (Or.inl rfl)
    rwa [List.append_nil] at this

/-- The parts behind the alignment may all be empty. -/
theorem forms_nil : ∀ Q ∈ [sign_form, zero_form, digits_form, precision_form,
    conversion_form], Q [] := by
  intro Q hQ
  simp only [List.mem_cons, List.mem_singleton, List.not_mem_nil, or_false] at hQ
  rcases hQ with rfl | rfl | rfl | rfl | rfl
  · exact Or.inl rfl
  · exact Or.inl rfl
  · exact fun c hc => (by cases hc)
  · exact Or.inl rfl
  · exact Or.inl rfl

/-- A specifier that `parse_spec` accepts has the form of the grammar. -/
theorem parse_spec_form (v : string_view) (hend : field_end v.after) (d : Data)
    (h : (parse_spec d v).1 = true) : spec_form v.text := by
  have hall := forms_nil
  unfold parse_spec spec_steps at h
  obtain ⟨a1, a2⟩ := spec_align_form v hend d
  cases h1 : spec_align v (spec_fill v d) with
  | error r1 =>
    exact seq_form_extend [sign_form, zero_form, digits_form, precision_form, conversion_form]
      hall [fill_align_form] _ (a2 r1 h1).2
  | ok s1 =>
    obtain ⟨l1, f1⟩ := a1 s1 h1
    obtain ⟨b1, b2⟩ := spec_char_form v hend is_sign
      (fun data c => { data with d3 := sign_code c }) (by decide) (by decide) sign_form
      (fun c hc => Or.inr ⟨c, hc, rfl⟩) (Or.inl rfl) [fill_align_form] s1 l1 f1
    cases h2 : spec_sign v s1 with
    | error r2 =>
      exact seq_form_extend [zero_form, digits_form, precision_form, conversion_form]
        (fun Q hQ => hall Q (List.mem_cons_of_mem _ hQ)) [fill_align_form, sign_form] _
        (b2 r2 h2).2
    | ok s2 =>
      obtain ⟨l2, f2⟩ := b1 s2 h2
      obtain ⟨c1, c2⟩ := spec_char_form v hend (fun c => c = '0')
        (fun data _ => { data with d1 := int_of_char '0' }) (by decide) (by decide) zero_form
        (fun c hc => Or.inr (by rw [of_decide_eq_true hc])) (Or.inl rfl)
        [fill_align_form, sign_form] s2 l2 f2
      cases h3 : spec_zero v s2 with
      | error r3 =>
        exact seq_form_extend [digits_form, precision_form, conversion_form]
          (fun Q hQ => hall Q (List.mem_cons_of_mem _ (List.mem_cons_of_mem _ hQ)))
          [fill_align_form, sign_form, zero_form] _ (c2 r3 h3).2
      | ok s3 =>
        obtain ⟨l3, f3⟩ := c1 s3 h3
        obtain ⟨d1, d2⟩ := spec_width_form v [fill_align_form, sign_form, zero_form] s3 l3 f3
        cases h4 : spec_width v s3 with
        | error r4 =>
          exact seq_form_extend [precision_form, conversion_form]
            (fun Q hQ => hall Q (List.mem_cons_of_mem _ (List.mem_cons_of_mem _
              (List.mem_cons_of_mem _ hQ))))
            [fill_align_form, sign_form, zero_form, digits_form] _ (d2 r4 h4).2
        | ok s4 =>
          obtain ⟨l4, f4⟩ := d1 s4 h4
          obtain ⟨e1, e2⟩ := spec_precision_form v hend
            [fill_align_form, sign_form, zero_form, digits_form] s4 l4 f4
          cases h5 : spec_precision v s4 with
          | error r5 =>
            exact seq_form_extend [conversion_form]
              (fun Q hQ => hall Q (List.mem_cons_of_mem _ (List.mem_cons_of_mem _
                (List.mem_cons_of_mem _ (List.mem_cons_of_mem _ hQ)))))
              [fill_align_form, sign_form, zero_form, digits_form, precision_form] _
              (e2 r5 h5).2
          | ok s5 =>
            obtain ⟨l5, f5⟩ := e1 s5 h5
            rw [h1] at h
            simp only [Except.bind, h2, h3, h4, h5] at h
            exact spec_conversion_form v hend
              [fill_align_form, sign_form, zero_form, digits_form, precision_form] s5 l5 f5 h

/-- The parse of a field with a colon is the parse of the specifier behind the
first colon. -/
theorem parse_argument_colon (idx spec after : Str) (d : Data) (hidx : ':' ∉ idx) :
    ∃ d1, parse_argument d ⟨idx ++ ':' :: spec, after⟩ = parse_spec d1 ⟨spec, after⟩ := by
  unfold parse_argument
  simp only [find_first_of_some hidx, string_view.substr, drop_length_succ_append]
  exact ⟨_, rfl⟩

/-- Claim C17: for a field text with a colon (the text `idx` in front of the
first colon, the specifier `spec` behind it), if `parse_argument` reports
success the specifier has the form
`[[fill]align][sign]['0'][width digits]['.' precision digits][conversion character]`
in that order; a specifier that is not of this form makes `parse_argument`
report failure, and on failure `vsformat` raises the syntax error for the field. -/
theorem specifier_form (to_double : Int → Floating) (args : List Arg)
    (pre idx spec rest : Str) (d : Data) (hpre : '{' ∉ pre) (hidx : ':' ∉ idx)
    (hf : '}' ∉ idx ++ ':' :: spec) :
    ((parse_argument d ⟨idx ++ ':' :: spec, '}' :: rest⟩).1 = true → spec_form spec) ∧
    (¬ spec_form spec → (parse_argument d ⟨idx ++ ':' :: spec, '}' :: rest⟩).1 = false) ∧
    ((parse_argument d ⟨idx ++ ':' :: spec, '}' :: rest⟩).1 = false →
      vsformat to_double (pre ++ '{' :: ((idx ++ ':' :: spec) ++ '}' :: rest)) args =
        .error (.invalid_argument (syntax_message (idx ++ ':' :: spec)))) := by
  have hform : (parse_argument d ⟨idx ++ ':' :: spec, '}' :: rest⟩).1 = true →
      spec_form spec := by
    intro h
    obtain ⟨d1, e⟩ := parse_argument_colon idx spec ('}' :: rest) d hidx
    rw [e] at h
    exact parse_spec_form ⟨spec, '}' :: rest⟩ (Or.inr ⟨rest, rfl⟩) d1 h
  refine ⟨hform, fun hn => ?_, fun hfail => ?_⟩
  · cases hp : (parse_argument d ⟨idx ++ ':' :: spec, '}' :: rest⟩).1 with
    | false => rfl
    | true => exact absurd (hform hp) hn
  · have e : parse_argument Data.unset ⟨idx ++ ':' :: spec, '}' :: rest⟩ =
        parse_argument d ⟨idx ++ ':' :: spec, '}' :: rest⟩ := by
      rw [parse_argument_closed _ rest Data.unset d, ← parse_argument_closed _ rest d d]
    unfold vsformat
    rw [vsformat_loop_field to_double args _ pre (idx ++ ':' :: spec) rest 0 [] hpre hf, e,
      if_pos hfail]
    rfl

/-- Witness of `specifier_form`: the field `1:*<+08.3x` parses and its
specifier has the form of the grammar; in `a{:5q}b` the character `q` is left
over and `vsformat` raises the syntax error. -/
theorem specifier_form_witness :
    spec_form "*<+08.3x".toList ∧
      vsformat no_double "a\x7b:5q\x7db".toList [.int 1] =
        .error (.invalid_argument
          "Format string specifier (which is \":5q\") is of an invalid format".toList) :=
  ⟨(specifier_form no_double [] [] "1".toList "*<+08.3x".toList [] Data.unset
      (by decide) (by decide) (by decide)).1 (by decide),
    (specifier_form no_double [.int 1] "a".toList [] "5q".toList "b".toList Data.unset
      (by decide) (by decide) (by decide)).2.2 (by decide)⟩

/-! ## The parse of a specifier with a zero flag behind the alignment -/

/-- Behind a prefix `operator[]` reads the next character of the text. -/
theorem get_append_cons (pre : Str) (c : Char) (rest after : Str) :
    string_view.get ⟨pre ++ c :: rest, after⟩ pre.length = c := by
  unfold string_view.get
  induction pre with
  | nil => rfl
  | cons a l ih => simpa using ih

/-- The width loop on a run of digits, from an accumulator that is set. -/
theorem parse_width_run (B after : Str) (hB : no_digit_ahead B) :
    ∀ (A : Str), (∀ c ∈ A, isdigit c = true) → ∀ (pre : Str) (fuel m : Nat), A.length ≤ fuel →
      parse_width ⟨pre ++ (A ++ B), after⟩ fuel pre.length (m : Int) =
        (((A.foldl (fun a c => a * 10 + (c.toNat - 48)) m : Nat) : Int),
          pre.length + A.length) := by
  intro A
  induction A with
  | nil =>
    intro _ pre fuel m _
    cases fuel with
    | zero => rfl
    | succ fuel =>
      unfold parse_width
      have hstop : (decide (pre.length < string_view.size ⟨pre ++ ([] ++ B), after⟩) &&
          isdigit (string_view.get ⟨pre ++ ([] ++ B), after⟩ pre.length)) = false := by
        cases B with
        | nil => simp [string_view.size]
        | cons b B =>
          have hb := hB b rfl
          simp only [List.nil_append, get_append_cons, hb, Bool.and_false]
      rw [hstop]
      rfl
  | cons c t ih =>
    intro hA pre fuel m hfuel
    cases fuel with
    | zero => simp at hfuel
    | succ fuel =>
      have hc := hA c (List.mem_cons_self _ _)
      have hget : string_view.get ⟨pre ++ (c :: t ++ B), after⟩ pre.length = c :=
        get_append_cons pre c (t ++ B) after
      have hgo : (decide (pre.length < string_view.size ⟨pre ++ (c :: t ++ B), after⟩) &&
          isdigit (string_view.get ⟨pre ++ (c :: t ++ B), after⟩ pre.length)) = true := by
        rw [hget, hc]
        simp [string_view.size]
      unfold parse_width
      rw [if_pos hgo, hget]
      have hm : ((if (m : Int) = -1 then 0 else (m : Int)) * 10 + (int_of_char c - 48)) =
          ((m * 10 + (c.toNat - 48) : Nat) : Int) := by
        have h1 : ¬ ((m : Int) = -1) := by omega
        simp only [isdigit, Bool.and_eq_true, decide_eq_true_eq] at hc
        rw [if_neg h1]
        unfold int_of_char
        omega
      have htext : pre ++ (c :: t ++ B) = (pre ++ [c]) ++ (t ++ B) := by simp
      have hlen : pre.length + 1 = (pre ++ [c]).length := by simp
      rw [hm, htext, hlen, ih (fun x hx => hA x (List.mem_cons_of_mem _ hx)) (pre ++ [c]) fuel _
        (by simpa using hfuel)]
      simp only [List.foldl_cons, List.length_append, List.length_cons, List.length_nil]
      congr 1
      omega

/-- The width loop reads a decimal numeral back, from the unset accumulator. -/
theorem parse_width_numeral (w : Nat) (pre B after : Str) (hB : no_digit_ahead B) (fuel : Nat)
    (hfuel : (Nat.toDigits 10 w).length ≤ fuel) :
    parse_width ⟨pre ++ (Nat.toDigits 10 w ++ B), after⟩ fuel pre.length (-1) =
      ((w : Int), pre.length + (Nat.toDigits 10 w).length) := by
  have hdig := toDigits_ten_isdigit w
  have hval := foldl_toDigits_ten w
  have hne := toDigits_ne_nil 10 (by decide) w
  cases hd : Nat.toDigits 10 w with
  | nil => exact absurd hd hne
  | cons c t =>
    rw [hd] at hdig hval hfuel
    cases fuel with
    | zero => simp at hfuel
    | succ fuel =>
      have hc := hdig c (List.mem_cons_self _ _)
      have hget : string_view.get ⟨pre ++ (c :: t ++ B), after⟩ pre.length = c :=
        get_append_cons pre c (t ++ B) after
      have hgo : (decide (pre.length < string_view.size ⟨pre ++ (c :: t ++ B), after⟩) &&
          isdigit (string_view.get ⟨pre ++ (c :: t ++ B), after⟩ pre.length)) = true := by
        rw [hget, hc]
        simp [string_view.size]
      unfold parse_width
      rw [if_pos hgo, hget]
      have hm : ((if (-1 : Int) = -1 then 0 else (-1 : Int)) * 10 + (int_of_char c - 48)) =
          ((0 * 10 + (c.toNat - 48) : Nat) : Int) := by
        simp only [isdigit, Bool.and_eq_true, decide_eq_true_eq] at hc
        unfold int_of_char
        simp only [if_true]
        omega
      have htext : pre ++ (c :: t ++ B) = (pre ++ [c]) ++ (t ++ B) := by simp
      have hlen : pre.length + 1 = (pre ++ [c]).length := by simp
      rw [hm, htext, hlen, parse_width_run B after hB t
        (fun x hx => hdig x (List.mem_cons_of_mem _ hx)) (pre ++ [c]) fuel _
        (by simpa using hfuel)]
      simp only [List.foldl_cons] at hval
      rw [hval]
      simp only [List.length_append, List.length_cons, List.length_nil]
      congr 1
      omega

/-- The parse of a field whose text starts with the colon is the parse of the
specifier from the unset record. -/
theorem parse_argument_spec (spec after : Str) (d : Data) :
    parse_argument d ⟨':' :: spec, after⟩ = parse_spec Data.unset ⟨spec, after⟩ := by
  have h : string_view.find_first_of ⟨':' :: spec, after⟩ ':' = some 0 :=
    @find_first_of_some [] spec after ':' (List.not_mem_nil _)
  unfold parse_argument
  rw [h]
  rfl

/-- Claim C23 fails on `*<05`: the zero flag replaces the fill `*` by `0`. -/
theorem zero_flag_replaces_fill :
    (parse_argument Data.unset ⟨":*<05".toList, ['\x7d']⟩).2.d1 = int_of_char '0' ∧
      (parse_argument Data.unset ⟨":*<05".toList, ['\x7d']⟩).2.d1 ≠ int_of_char '*' ∧
      (parse_argument Data.unset ⟨":*<05".toList, ['\x7d']⟩).2.d2 = 0 := by
  decide

/-- Claim C23, amended: for every fill character `c`, alignment character `a`
and width `w` below `2 ^ 31` (a width that the `int` slot holds, so that the
accumulation of line 1045 stays inside `int`), the specifier `c a '0' w`
parses with the alignment slot set to `a` and the width slot to `w`, but with
the fill slot set to `'0'`: the zero flag overwrites the explicit fill. -/
theorem zero_flag_after_fill_align (c a : Char) (w : Nat) (after : Str) (d : Data)
    (ha : is_align a = true) (hmax : w < 2 ^ 31) :
    parse_argument d ⟨':' :: c :: a :: '0' :: Nat.toDigits 10 w, after⟩ =
      (true, ⟨-1, int_of_char '0', align_code a, -1, w, -1, -1, -1⟩) := by
  have _ := hmax
  have hw := parse_width_numeral w [c, a, '0'] [] after (by intro x hx; cases hx)
    (Nat.toDigits 10 w).length (le_refl _)
  simp only [List.append_nil, List.cons_append, List.nil_append, List.length_cons,
    List.length_nil] at hw
  have hs : is_sign '0' = false := by decide
  have hne := toDigits_ne_nil 10 (by decide) w
  have hle : (Nat.toDigits 10 w).length + 1 + 1 + 1 ≤ 3 + (Nat.toDigits 10 w).length := by omega
  rw [parse_argument_spec]
  simp [parse_spec, spec_steps, spec_fill, spec_align, spec_char, spec_sign, spec_zero,
    spec_width, string_view.size, string_view.get, ha, hs, hne, hle, Except.bind, hw, Data.unset]

/-- Witness of `zero_flag_after_fill_align`: the field `:*<05`. -/
theorem zero_flag_after_fill_align_witness :
    parse_argument Data.unset ⟨":*<05".toList, ['\x7d']⟩ =
      (true, ⟨-1, 48, 0, -1, 5, -1, -1, -1⟩) :=
  zero_flag_after_fill_align '*' '<' 5 ['\x7d'] Data.unset (by decide) (by decide)

/-! ## The two-character specifier: a fill and an alignment -/

/-- On the two characters `c a`, a step that reads one character and rejects
`a` leaves the scan in front of `a` or in front of `c`. -/
theorem spec_char_pair (c a : Char) (after : Str) (test : Char → Bool)
    (store : Data → Char → Data) (s : Scan)
    (h : s.2 = 0 ∨ (s.2 = 1 ∧ test a = false)) :
    ∃ s1, spec_char ⟨[c, a], after⟩ test store s = .ok s1 ∧ s1.2 ≤ 1 := by
  unfold spec_char
  rcases h with h | ⟨h, ht⟩
  · rw [h]
    by_cases hc : test (string_view.get ⟨[c, a], after⟩ 0) = true
    · rw [if_pos hc, if_neg (by simp [string_view.size])]
      exact ⟨_, rfl, le_refl _⟩
    · rw [if_neg hc]
      exact ⟨_, rfl, by omega⟩
  · have hg : string_view.get ⟨[c, a], after⟩ 1 = a := rfl
    rw [h, hg, ht]
    exact ⟨_, rfl, by omega⟩

/-- The specifier `c a` of a fill and an alignment character and nothing else
is rejected from every record. -/
theorem parse_spec_pair (c a : Char) (after : Str) (d : Data) (ha : is_align a = true) :
    (parse_spec d ⟨[c, a], after⟩).1 = false := by
  have hsign : is_sign a = false := by
    simp only [is_align, Bool.or_eq_true, decide_eq_true_eq] at ha
    rcases ha with ((rfl | rfl) | rfl) | rfl <;> decide
  have hzero : (fun x : Char => decide (x = '0')) a = false := by
    simp only [is_align, Bool.or_eq_true, decide_eq_true_eq] at ha
    rcases ha with ((rfl | rfl) | rfl) | rfl <;> decide
  have hdigit : isdigit a = false := by
    simp only [is_align, Bool.or_eq_true, decide_eq_true_eq] at ha
    rcases ha with ((rfl | rfl) | rfl) | rfl <;> decide
  have hpoint : a ≠ '.' := by
    simp only [is_align, Bool.or_eq_true, decide_eq_true_eq] at ha
    rcases ha with ((rfl | rfl) | rfl) | rfl <;> decide
  have hconv : is_conversion a = false := by
    simp only [is_align, Bool.or_eq_true, decide_eq_true_eq] at ha
    rcases ha with ((rfl | rfl) | rfl) | rfl <;> decide
  have hg0 : string_view.get ⟨[c, a], after⟩ 0 = c := rfl
  have hg1 : string_view.get ⟨[c, a], after⟩ 1 = a := rfl
  have hsz : string_view.size ⟨[c, a], after⟩ = 2 := rfl
  have hfill : spec_fill ⟨[c, a], after⟩ d = (d, 0) := by
    simp [spec_fill, hsz]
  obtain ⟨s1, h1, l1⟩ := spec_char_pair c a after is_align
    (fun data x => { data with d2 := align_code x }) (d, 0) (Or.inl rfl)
  obtain ⟨s2, h2, l2⟩ := spec_char_pair c a after is_sign
    (fun data x => { data with d3 := sign_code x }) s1 (by
      rcases Nat.le_one_iff_eq_zero_or_eq_one.mp l1 with h | h
      · exact Or.inl h
      · exact Or.inr ⟨h, hsign⟩)
  obtain ⟨s3, h3, l3⟩ := spec_char_pair c a after (fun x => x = '0')
    (fun data _ => { data with d1 := int_of_char '0' }) s2 (by
      rcases Nat.le_one_iff_eq_zero_or_eq_one.mp l2 with h | h
      · exact Or.inl h
      · exact Or.inr ⟨h, hzero⟩)
  have h4 : ∃ s4, spec_width ⟨[c, a], after⟩ s3 = .ok s4 ∧ s4.2 ≤ 1 := by
    unfold spec_width
    rcases Nat.le_one_iff_eq_zero_or_eq_one.mp l3 with h | h
    · rw [h, hsz]
      by_cases hc : isdigit c = true
      · simp [parse_width, hsz, hg0, hg1, hc, hdigit]
      · simp [parse_width, hsz, hg0, hc]
    · rw [h, hsz]
      simp [parse_width, hsz, hg1, hdigit]
  obtain ⟨s4, h4, l4⟩ := h4
  have h5 : ∃ s5, spec_precision ⟨[c, a], after⟩ s4 = .ok s5 ∧ s5.2 ≤ 1 := by
    unfold spec_precision
    rcases Nat.le_one_iff_eq_zero_or_eq_one.mp l4 with h | h
    · rw [h, hsz, hg0]
      by_cases hc : c = '.'
      · subst hc
        have hg : string_view.get ⟨['.', a], after⟩ 1 = a := rfl
        have hs : string_view.size ⟨['.', a], after⟩ = 2 := rfl
        simp [parse_precision, hs, hg, hdigit]
      · simp [hc, l4]
    · rw [h, hsz, hg1]
      simp [hpoint, l4]
  obtain ⟨s5, h5, l5⟩ := h5
  have h6 : (spec_conversion ⟨[c, a], after⟩ s5).1 = false := by
    have hlt : s5.2 < 2 := by omega
    unfold spec_conversion
    rcases Nat.le_one_iff_eq_zero_or_eq_one.mp l5 with h | h
    · rw [h, hsz, hg0]
      by_cases hc : is_conversion c = true
      · simp [hc]
      · simp [hc, hlt]
    · rw [h, hsz, hg1]
      simp [hconv, hlt]
  unfold parse_spec spec_steps
  rw [hfill]
  have h1a : spec_align ⟨[c, a], after⟩ (d, 0) = .ok s1 := h1
  have h2a : spec_sign ⟨[c, a], after⟩ s1 = .ok s2 := h2
  have h3a : spec_zero ⟨[c, a], after⟩ s2 = .ok s3 := h3
  simp only [h1a, h2a, h3a, h4, h5, Except.bind]
  exact h6

/-- Claim C24 fails for every fill and alignment: the field text `:` `c` `a`
is rejected, because the fill is looked for only in a specifier of more than
two characters, and `vsformat` raises the syntax error. -/
theorem fill_align_pair_rejected (to_double : Int → Floating) (args : List Arg) (c a : Char)
    (rest : Str) (d : Data) (ha : is_align a = true) (hc : c ≠ '\x7d') :
    (parse_argument d ⟨[':', c, a], '\x7d' :: rest⟩).1 = false ∧
      vsformat to_double ('\x7b' :: ([':', c, a] ++ '\x7d' :: rest)) args =
        .error (.invalid_argument (syntax_message [':', c, a])) := by
  have hp : ∀ d1, (parse_argument d1 ⟨[':', c, a], '\x7d' :: rest⟩).1 = false := by
    intro d1
    rw [parse_argument_spec]
    exact parse_spec_pair c a _ _ ha
  refine ⟨hp d, ?_⟩
  have hf : '\x7d' ∉ [':', c, a] := by
    simp only [List.mem_cons, List.mem_singleton, List.not_mem_nil, or_false, not_or]
    refine ⟨by decide, fun h => hc h.symm, ?_⟩
    intro h
    rw [← h] at ha
    revert ha
    decide
  unfold vsformat
  have hstep := vsformat_loop_field to_double args
    ('\x7b' :: ([':', c, a] ++ '\x7d' :: rest)).length [] [':', c, a] rest 0 []
    (List.not_mem_nil _) hf
  simp only [List.nil_append] at hstep
  rw [hstep, if_pos (hp _)]
  rfl

/-- Witness of `fill_align_pair_rejected`: the field `:*<`. -/
theorem fill_align_pair_rejected_witness :
    (parse_argument Data.unset ⟨":*<".toList, ['\x7d']⟩).1 = false ∧
      vsformat no_double "\x7b:*<\x7d".toList [.int 1] =
        .error (.invalid_argument
          "Format string specifier (which is \":*<\") is of an invalid format".toList) :=
  fill_align_pair_rejected no_double [.int 1] '*' '<' [] Data.unset (by decide) (by decide)

/-! ## The slots of a parsed specifier -/

/-- The index part of the parse touches only the index and the subscript. -/
theorem parse_index_slots (d : Data) (v : string_view) :
    (parse_index d v).d1 = d.d1 ∧ (parse_index d v).d2 = d.d2 ∧ (parse_index d v).d3 = d.d3 ∧
      (parse_index d v).d4 = d.d4 ∧ (parse_index d v).d5 = d.d5 ∧
      (parse_index d v).d6 = d.d6 := by
  unfold parse_index
  split
  · exact ⟨rfl, rfl, rfl, rfl, rfl, rfl⟩
  · simp only
    split <;> exact ⟨rfl, rfl, rfl, rfl, rfl, rfl⟩

/-- A property of the record that the stored character keeps is kept by a
one-character step, whether the step goes on or returns. -/
theorem spec_char_keeps (v : string_view) (test : Char → Bool) (store : Data → Char → Data)
    (s : Scan) (P : Data → Prop) (hs : P s.1) (hstore : ∀ c, test c = true → P (store s.1 c)) :
    (∀ s1, spec_char v test store s = .ok s1 → P s1.1) ∧
      ∀ r, spec_char v test store s = .error r → P r.2 := by
  unfold spec_char
  by_cases ht : test (v.get s.2) = true
  · rw [if_pos ht]
    by_cases hx : s.2 + 1 ≥ v.size
    · rw [if_pos hx]
      exact ⟨fun s1 h => (by cases h), fun r h => (by cases h; exact hstore _ ht)⟩
    · rw [if_neg hx]
      exact ⟨fun s1 h => (by cases h; exact hstore _ ht), fun r h => (by cases h)⟩
  · rw [if_neg ht]
    exact ⟨fun s1 h => (by cases h; exact hs), fun r h => (by cases h)⟩

/-- One iteration of the width loop, in numbers. -/
theorem width_step_bound (a dgt : Int) (P : Nat) (h0 : 0 ≤ dgt) (h9 : dgt ≤ 9) (h1 : -1 ≤ a)
    (h2 : a < (P : Int)) (hP : 0 < P) :
    -1 ≤ (if a = -1 then 0 else a) * 10 + dgt ∧
      (if a = -1 then 0 else a) * 10 + dgt < ((10 * P : Nat) : Int) := by
  push_cast
  split <;> constructor <;> omega

/-- One iteration of the precision loop, in numbers. -/
theorem precision_step_bound (a dgt : Int) (P : Nat) (h0 : 0 ≤ dgt) (h9 : dgt ≤ 9) (h1 : 0 ≤ a)
    (h2 : a < (P : Int)) : 0 ≤ a * 10 + dgt ∧ a * 10 + dgt < ((10 * P : Nat) : Int) := by
  push_cast
  constructor <;> omega

/-- The bound of a loop that does not iterate holds for every fuel. -/
theorem loop_bound_mono (a : Int) (k n : Nat) (h : a < ((10 ^ k : Nat) : Int)) :
    a < ((10 ^ (k + n) : Nat) : Int) := by
  have hmono : (10 : Nat) ^ k ≤ 10 ^ (k + n) := Nat.pow_le_pow_right (by decide) (by omega)
  have : ((10 ^ k : Nat) : Int) ≤ ((10 ^ (k + n) : Nat) : Int) := Int.ofNat_le.mpr hmono
  omega

/-- The width loop keeps the accumulator at the sentinel or above, and below
the power of ten of the number of its iterations. -/
theorem parse_width_bound (v : string_view) :
    ∀ (fuel i : Nat) (a : Int) (k : Nat), -1 ≤ a → a < ((10 ^ k : Nat) : Int) →
      -1 ≤ (parse_width v fuel i a).1 ∧
        (parse_width v fuel i a).1 < ((10 ^ (k + fuel) : Nat) : Int) := by
  intro fuel
  induction fuel with
  | zero => intro i a k h1 h2; exact ⟨h1, h2⟩
  | succ n ih =>
    intro i a k h1 h2
    unfold parse_width
    by_cases hc : (decide (i < v.size) && isdigit (v.get i)) = true
    · rw [if_pos hc]
      simp only [Bool.and_eq_true, decide_eq_true_eq, isdigit] at hc
      have hk : (10 : Nat) ^ (k + 1) = 10 * 10 ^ k := by rw [Nat.pow_succ, Nat.mul_comm]
      have hstep := width_step_bound a (int_of_char (v.get i) - 48) (10 ^ k)
        (by unfold int_of_char; omega) (by unfold int_of_char; omega) h1 h2
        (Nat.pos_pow_of_pos k (by decide))
      rw [← hk] at hstep
      have h := ih (i + 1) ((if a = -1 then 0 else a) * 10 + (int_of_char (v.get i) - 48))
        (k + 1) hstep.1 hstep.2
      have he : k + 1 + n = k + (n + 1) := by omega
      rw [he] at h
      exact h
    · rw [if_neg hc]
      exact ⟨h1, loop_bound_mono a k (n + 1) h2⟩

/-- The precision loop keeps the accumulator at zero or above, and below the
power of ten of the number of its iterations. -/
theorem parse_precision_bound (v : string_view) :
    ∀ (fuel i : Nat) (a : Int) (k : Nat), 0 ≤ a → a < ((10 ^ k : Nat) : Int) →
      0 ≤ (parse_precision v fuel i a).1 ∧
        (parse_precision v fuel i a).1 < ((10 ^ (k + fuel) : Nat) : Int) := by
  intro fuel
  induction fuel with
  | zero => intro i a k h1 h2; exact ⟨h1, h2⟩
  | succ n ih =>
    intro i a k h1 h2
    unfold parse_precision
    by_cases hc : (decide (i < v.size) && isdigit (v.get i)) = true
    · rw [if_pos hc]
      simp only [Bool.and_eq_true, decide_eq_true_eq, isdigit] at hc
      have hk : (10 : Nat) ^ (k + 1) = 10 * 10 ^ k := by rw [Nat.pow_succ, Nat.mul_comm]
      have hstep := precision_step_bound a (int_of_char (v.get i) - 48) (10 ^ k)
        (by unfold int_of_char; omega) (by unfold int_of_char; omega) h1 h2
      rw [← hk] at hstep
      have h := ih (i + 1) (a * 10 + (int_of_char (v.get i) - 48)) (k + 1) hstep.1 hstep.2
      have he : k + 1 + n = k + (n + 1) := by omega
      rw [he] at h
      exact h
    · rw [if_neg hc]
      exact ⟨h1, loop_bound_mono a k (n + 1) h2⟩

/-- Inside the view `operator[]` reads a character of the text. -/
theorem get_mem_text (v : string_view) (i : Nat) (h : i < v.size) : v.get i ∈ v.text := by
  have e := take_succ_get v i h
  have hm : v.get i ∈ v.text.take (i + 1) := by rw [e]; simp
  exact List.mem_of_mem_take hm

theorem align_code_range (c : Char) : 0 ≤ align_code c ∧ align_code c ≤ 3 := by
  unfold align_code
  split_ifs <;> constructor <;> decide

theorem sign_code_range (c : Char) : 0 ≤ sign_code c ∧ sign_code c ≤ 2 := by
  unfold sign_code
  split_ifs <;> constructor <;> decide

/-- The fill step keeps the slots in range. -/
theorem spec_fill_slots (N : Int) (v : string_view) (d : Data)
    (htext : ∀ c ∈ v.text, int_of_char c < N)
    (hd : slots_in_range N d ∧ d.d4 = -1 ∧ d.d5 = -1) :
    slots_in_range N (spec_fill v d).1 ∧ (spec_fill v d).1.d4 = -1 ∧
      (spec_fill v d).1.d5 = -1 := by
  unfold spec_fill
  by_cases hf : (decide (v.size > 2) && is_align (v.get 1)) = true
  · rw [if_pos hf]
    simp only [Bool.and_eq_true, decide_eq_true_eq] at hf
    obtain ⟨⟨_, h2, h3, h4, h5, h6⟩, e4, e5⟩ := hd
    have hm := htext _ (get_mem_text v 0 (by omega))
    exact ⟨⟨Or.inr ⟨Int.ofNat_nonneg _, hm⟩, h2, h3, h4, h5, h6⟩, e4, e5⟩
  · rw [if_neg hf]
    exact hd

/-- The alignment, sign and zero steps keep the slots in range. -/
theorem spec_flags_slots (N : Int) (hN : 48 < N) (v : string_view) (s : Scan)
    (hd : slots_in_range N s.1 ∧ s.1.d4 = -1 ∧ s.1.d5 = -1) :
    ((∀ s1, spec_align v s = .ok s1 → slots_in_range N s1.1 ∧ s1.1.d4 = -1 ∧ s1.1.d5 = -1) ∧
      ∀ r, spec_align v s = .error r → slots_in_range N r.2 ∧ r.2.d4 = -1 ∧ r.2.d5 = -1) ∧
    ((∀ s1, spec_sign v s = .ok s1 → slots_in_range N s1.1 ∧ s1.1.d4 = -1 ∧ s1.1.d5 = -1) ∧
      ∀ r, spec_sign v s = .error r → slots_in_range N r.2 ∧ r.2.d4 = -1 ∧ r.2.d5 = -1) ∧
    ((∀ s1, spec_zero v s = .ok s1 → slots_in_range N s1.1 ∧ s1.1.d4 = -1 ∧ s1.1.d5 = -1) ∧
      ∀ r, spec_zero v s = .error r → slots_in_range N r.2 ∧ r.2.d4 = -1 ∧ r.2.d5 = -1) := by
  obtain ⟨⟨h1, h2, h3, h4, h5, h6⟩, e4, e5⟩ := hd
  refine ⟨?_, ?_, ?_⟩
  · exact spec_char_keeps v is_align _ s
      (fun x => slots_in_range N x ∧ x.d4 = -1 ∧ x.d5 = -1) ⟨⟨h1, h2, h3, h4, h5, h6⟩, e4, e5⟩
      (fun c _ => ⟨⟨h1, Or.inr (align_code_range c), h3, h4, h5, h6⟩, e4, e5⟩)
  · exact spec_char_keeps v is_sign _ s
      (fun x => slots_in_range N x ∧ x.d4 = -1 ∧ x.d5 = -1) ⟨⟨h1, h2, h3, h4, h5, h6⟩, e4, e5⟩
      (fun c _ => ⟨⟨h1, h2, Or.inr (sign_code_range c), h4, h5, h6⟩, e4, e5⟩)
  · exact spec_char_keeps v (fun c => c = '0') _ s
      (fun x => slots_in_range N x ∧ x.d4 = -1 ∧ x.d5 = -1) ⟨⟨h1, h2, h3, h4, h5, h6⟩, e4, e5⟩
      (fun c _ => ⟨⟨Or.inr ⟨Int.ofNat_nonneg _, hN⟩, h2, h3, h4, h5, h6⟩, e4, e5⟩)

/-- The width step keeps the slots in range and the width below the power of
ten of the length of the specifier. -/
theorem spec_width_slots (N : Int) (v : string_view) (s : Scan)
    (hd : slots_in_range N s.1 ∧ s.1.d4 = -1 ∧ s.1.d5 = -1) :
    (∀ s1, spec_width v s = .ok s1 →
        slots_in_range N s1.1 ∧ s1.1.d4 < ((10 ^ v.size : Nat) : Int) ∧ s1.1.d5 = -1) ∧
      ∀ r, spec_width v s = .error r →
        slots_in_range N r.2 ∧ r.2.d4 < ((10 ^ v.size : Nat) : Int) ∧ r.2.d5 = -1 := by
  obtain ⟨⟨h1, h2, h3, h4, h5, h6⟩, e4, e5⟩ := hd
  obtain ⟨b1, b2⟩ := parse_width_bound v (v.size - s.2) s.2 s.1.d4 0 (by omega)
    (by rw [e4]; decide)
  have hmono : (10 : Nat) ^ (0 + (v.size - s.2)) ≤ 10 ^ v.size :=
    Nat.pow_le_pow_right (by decide) (by omega)
  have hb : (parse_width v (v.size - s.2) s.2 s.1.d4).1 < ((10 ^ v.size : Nat) : Int) :=
    lt_of_lt_of_le b2 (Int.ofNat_le.mpr hmono)
  have hnew : slots_in_range N { s.1 with d4 := (parse_width v (v.size - s.2) s.2 s.1.d4).1 } ∧
      ({ s.1 with d4 := (parse_width v (v.size - s.2) s.2 s.1.d4).1 } : Data).d4 <
        ((10 ^ v.size : Nat) : Int) ∧
      ({ s.1 with d4 := (parse_width v (v.size - s.2) s.2 s.1.d4).1 } : Data).d5 = -1 :=
    ⟨⟨h1, h2, h3, (by simp only; omega), h5, h6⟩, hb, e5⟩
  unfold spec_width
  simp only []
  split_ifs with hx
  · exact ⟨fun s1 h => (by cases h), fun r h => (by cases h; exact hnew)⟩
  · exact ⟨fun s1 h => (by cases h; exact hnew), fun r h => (by cases h)⟩

/-- The precision step keeps the slots in range and the precision below the
power of ten of the length of the specifier. -/
theorem spec_precision_slots (N : Int) (v : string_view) (s : Scan)
    (hd : slots_in_range N s.1 ∧ s.1.d4 < ((10 ^ v.size : Nat) : Int) ∧ s.1.d5 = -1) :
    (∀ s1, spec_precision v s = .ok s1 →
        slots_in_range N s1.1 ∧ s1.1.d4 < ((10 ^ v.size : Nat) : Int) ∧
          s1.1.d5 < ((10 ^ v.size : Nat) : Int)) ∧
      ∀ r, spec_precision v s = .error r →
        slots_in_range N r.2 ∧ r.2.d4 < ((10 ^ v.size : Nat) : Int) ∧
          r.2.d5 < ((10 ^ v.size : Nat) : Int) := by
  obtain ⟨⟨h1, h2, h3, h4, h5, h6⟩, e4, e5⟩ := hd
  obtain ⟨b1, b2⟩ := parse_precision_bound v (v.size - (s.2 + 1)) (s.2 + 1) 0 0 (le_refl _)
    (by decide)
  have hmono : (10 : Nat) ^ (0 + (v.size - (s.2 + 1))) ≤ 10 ^ v.size :=
    Nat.pow_le_pow_right (by decide) (by omega)
  have hb : (parse_precision v (v.size - (s.2 + 1)) (s.2 + 1) 0).1 < ((10 ^ v.size : Nat) : Int) :=
    lt_of_lt_of_le b2 (Int.ofNat_le.mpr hmono)
  have hpos : (0 : Int) < ((10 ^ v.size : Nat) : Int) :=
    Int.ofNat_lt.mpr (Nat.pos_pow_of_pos _ (by decide))
  have hold : slots_in_range N s.1 ∧ s.1.d4 < ((10 ^ v.size : Nat) : Int) ∧
      s.1.d5 < ((10 ^ v.size : Nat) : Int) :=
    ⟨⟨h1, h2, h3, h4, h5, h6⟩, e4, by rw [e5]; omega⟩
  have hnew : slots_in_range N
        { s.1 with d5 := (parse_precision v (v.size - (s.2 + 1)) (s.2 + 1) 0).1 } ∧
      ({ s.1 with d5 := (parse_precision v (v.size - (s.2 + 1)) (s.2 + 1) 0).1 } : Data).d4 <
        ((10 ^ v.size : Nat) : Int) ∧
      ({ s.1 with d5 := (parse_precision v (v.size - (s.2 + 1)) (s.2 + 1) 0).1 } : Data).d5 <
        ((10 ^ v.size : Nat) : Int) :=
    ⟨⟨h1, h2, h3, h4, Or.inr b1, h6⟩, e4, hb⟩
  unfold spec_precision
  simp only []
  split_ifs with hp hx hy
  · exact ⟨fun s1 h => (by cases h), fun r h => (by cases h; exact hnew)⟩
  · exact ⟨fun s1 h => (by cases h; exact hnew), fun r h => (by cases h)⟩
  · exact ⟨fun s1 h => (by cases h), fun r h => (by cases h; exact hold)⟩
  · exact ⟨fun s1 h => (by cases h; exact hold), fun r h => (by cases h)⟩

/-- The conversion step keeps the slots in range: it stores a character that
`is_conversion` accepts. -/
theorem spec_conversion_slots (N : Int) (n : Nat) (v : string_view) (s : Scan)
    (hd : slots_in_range N s.1 ∧ s.1.d4 < ((10 ^ n : Nat) : Int) ∧
      s.1.d5 < ((10 ^ n : Nat) : Int)) :
    slots_in_range N (spec_conversion v s).2 ∧
      (spec_conversion v s).2.d4 < ((10 ^ n : Nat) : Int) ∧
      (spec_conversion v s).2.d5 < ((10 ^ n : Nat) : Int) := by
  obtain ⟨⟨h1, h2, h3, h4, h5, h6⟩, e4, e5⟩ := hd
  unfold spec_conversion
  by_cases hc : is_conversion (v.get s.2) = true
  · rw [if_pos hc]
    have hnew : slots_in_range N { s.1 with d6 := int_of_char (v.get s.2) } :=
      ⟨h1, h2, h3, h4, h5, Or.inr (List.mem_map.mpr ⟨_, is_conversion_mem _ hc, rfl⟩)⟩
    simp only []
    split_ifs <;> exact ⟨hnew, e4, e5⟩
  · rw [if_neg hc]
    simp only []
    split_ifs <;> exact ⟨⟨h1, h2, h3, h4, h5, h6⟩, e4, e5⟩

/-- The specifier part of the parse leaves every slot in range, and the width
and the precision below the power of ten of the length of the specifier. -/
theorem parse_spec_slots (N : Int) (hN : 48 < N) (v : string_view) (d : Data)
    (htext : ∀ c ∈ v.text, int_of_char c < N)
    (hd : slots_in_range N d ∧ d.d4 = -1 ∧ d.d5 = -1) :
    slots_in_range N (parse_spec d v).2 ∧
      (parse_spec d v).2.d4 < ((10 ^ v.size : Nat) : Int) ∧
      (parse_spec d v).2.d5 < ((10 ^ v.size : Nat) : Int) := by
  have hpos : (-1 : Int) < ((10 ^ v.size : Nat) : Int) :=
    lt_trans (by decide) (Int.ofNat_lt.mpr (Nat.pos_pow_of_pos _ (by decide)))
  have weak0 : ∀ x : Data, slots_in_range N x ∧ x.d4 = -1 ∧ x.d5 = -1 →
      slots_in_range N x ∧ x.d4 < ((10 ^ v.size : Nat) : Int) ∧
        x.d5 < ((10 ^ v.size : Nat) : Int) :=
    fun x hx => ⟨hx.1, by rw [hx.2.1]; exact hpos, by rw [hx.2.2]; exact hpos⟩
  have weak1 : ∀ x : Data,
      slots_in_range N x ∧ x.d4 < ((10 ^ v.size : Nat) : Int) ∧ x.d5 = -1 →
      slots_in_range N x ∧ x.d4 < ((10 ^ v.size : Nat) : Int) ∧
        x.d5 < ((10 ^ v.size : Nat) : Int) :=
    fun x hx => ⟨hx.1, hx.2.1, by rw [hx.2.2]; exact hpos⟩
  have h0 := spec_fill_slots N v d htext hd
  unfold parse_spec spec_steps
  cases h1 : spec_align v (spec_fill v d) with
  | error r1 => exact weak0 _ ((spec_flags_slots N hN v _ h0).1.2 r1 h1)
  | ok s1 =>
    simp only [Except.bind]
    have g1 := (spec_flags_slots N hN v _ h0).1.1 s1 h1
    cases h2 : spec_sign v s1 with
    | error r2 => exact weak0 _ ((spec_flags_slots N hN v _ g1).2.1.2 r2 h2)
    | ok s2 =>
      simp only [Except.bind]
      have g2 := (spec_flags_slots N hN v _ g1).2.1.1 s2 h2
      cases h3 : spec_zero v s2 with
      | error r3 => exact weak0 _ ((spec_flags_slots N hN v _ g2).2.2.2 r3 h3)
      | ok s3 =>
        simp only [Except.bind]
        have g3 := (spec_flags_slots N hN v _ g2).2.2.1 s3 h3
        cases h4 : spec_width v s3 with
        | error r4 => exact weak1 _ ((spec_width_slots N v _ g3).2 r4 h4)
        | ok s4 =>
          simp only [Except.bind]
          have g4 := (spec_width_slots N v _ g3).1 s4 h4
          cases h5 : spec_precision v s4 with
          | error r5 => exact (spec_precision_slots N v _ g4).2 r5 h5
          | ok s5 =>
            have g5 := (spec_precision_slots N v _ g4).1 s5 h5
            exact spec_conversion_slots N v.size v s5 g5

/-- The record of unset slots is in range. -/
theorem unset_slots (N : Int) (d0 d7 : Int) :
    slots_in_range N ⟨d0, -1, -1, -1, -1, -1, -1, d7⟩ :=
  ⟨Or.inl rfl, Or.inl rfl, Or.inl rfl, Or.inl rfl, Or.inl rfl, Or.inl rfl⟩

/-- Whatever the field text, `parse_argument` leaves every slot in range, and
the width and the precision below the power of ten of the length of the text. -/
theorem parse_argument_slots (N : Int) (hN : 48 < N) (d : Data) (f after : Str)
    (htext : ∀ c ∈ f, int_of_char c < N) :
    slots_in_range N (parse_argument d ⟨f, after⟩).2 ∧
      (parse_argument d ⟨f, after⟩).2.d4 < ((10 ^ f.length : Nat) : Int) ∧
      (parse_argument d ⟨f, after⟩).2.d5 < ((10 ^ f.length : Nat) : Int) := by
  have hpos : (-1 : Int) < ((10 ^ f.length : Nat) : Int) :=
    lt_trans (by decide) (Int.ofNat_lt.mpr (Nat.pos_pow_of_pos _ (by decide)))
  have hkeep : ∀ (x : Data) (v : string_view),
      (slots_in_range N x ∧ x.d4 = -1 ∧ x.d5 = -1) →
      (slots_in_range N (parse_index x v) ∧ (parse_index x v).d4 = -1 ∧
        (parse_index x v).d5 = -1) := by
    intro x v hx
    obtain ⟨e1, e2, e3, e4, e5, e6⟩ := parse_index_slots x v
    unfold slots_in_range at hx ⊢
    rw [e1, e2, e3, e4, e5, e6]
    exact hx
  have hunset : ∀ a : Int, slots_in_range N { Data.unset with d0 := a } ∧
      ({ Data.unset with d0 := a } : Data).d4 = -1 ∧
      ({ Data.unset with d0 := a } : Data).d5 = -1 :=
    fun a => ⟨unset_slots N a (-1), rfl, rfl⟩
  unfold parse_argument
  cases hc : string_view.find_first_of ⟨f, after⟩ ':' with
  | some colon =>
    simp only []
    have hd : slots_in_range N
          (if (string_view.substr ⟨f, after⟩ 0 (some colon)).size ≠ 0 then
            parse_index Data.unset (string_view.substr ⟨f, after⟩ 0 (some colon))
          else Data.unset) ∧
        (if (string_view.substr ⟨f, after⟩ 0 (some colon)).size ≠ 0 then
            parse_index Data.unset (string_view.substr ⟨f, after⟩ 0 (some colon))
          else Data.unset).d4 = -1 ∧
        (if (string_view.substr ⟨f, after⟩ 0 (some colon)).size ≠ 0 then
            parse_index Data.unset (string_view.substr ⟨f, after⟩ 0 (some colon))
          else Data.unset).d5 = -1 := by
      split_ifs
      · exact hkeep _ _ (hunset (-1))
      · exact hunset (-1)
    have hsub : ∀ c ∈ (string_view.substr ⟨f, after⟩ (colon + 1)).text, int_of_char c < N :=
      fun c hm => htext c (List.mem_of_mem_drop hm)
    have hsize : (string_view.substr ⟨f, after⟩ (colon + 1)).size ≤ f.length := by
      simp [string_view.substr, string_view.size]
    have hmono : ((10 ^ (string_view.substr ⟨f, after⟩ (colon + 1)).size : Nat) : Int) ≤
        ((10 ^ f.length : Nat) : Int) :=
      Int.ofNat_le.mpr (Nat.pow_le_pow_right (by decide) hsize)
    obtain ⟨r1, r2, r3⟩ := parse_spec_slots N hN _ _ hsub hd
    exact ⟨r1, lt_of_lt_of_le r2 hmono, lt_of_lt_of_le r3 hmono⟩
  | none =>
    simp only []
    split_ifs
    · obtain ⟨r1, r2, r3⟩ := hkeep _ ⟨f, after⟩ (hunset (atoi (string_view.c_str ⟨f, after⟩)))
      exact ⟨r1, by rw [r2]; exact hpos, by rw [r3]; exact hpos⟩
    · exact ⟨(hunset (-1)).1, hpos, hpos⟩

/-- The characters `is_conversion` accepts are the listed ones. -/
theorem mem_is_conversion : ∀ c ∈ conversion_characters, is_conversion c = true := by decide

/-- A conversion character is read by no step in front of the conversion step. -/
theorem conversion_not_flag : ∀ c ∈ conversion_characters,
    is_align c = false ∧ is_sign c = false ∧ c ≠ '0' ∧ isdigit c = false ∧ c ≠ '.' := by
  decide

/-- The parse of a specifier of one character. -/
theorem parse_spec_single (ch : Char) (after : Str) :
    (parse_spec Data.unset ⟨[ch], after⟩).2.d6 =
      if is_conversion ch = true then int_of_char ch else -1 := by
  have hg : string_view.get ⟨[ch], after⟩ 0 = ch := rfl
  have hs : string_view.size ⟨[ch], after⟩ = 1 := rfl
  by_cases hc : is_conversion ch = true
  · obtain ⟨h1, h2, h3, h4, h5⟩ := conversion_not_flag ch (is_conversion_mem ch hc)
    rw [if_pos hc]
    simp [parse_spec, spec_steps, spec_fill, spec_align, spec_sign, spec_zero, spec_width,
      spec_precision, spec_conversion, spec_char, parse_width, Except.bind, hg, hs, h1, h2, h3,
      h4, h5, hc, Data.unset]
  · rw [if_neg hc]
    by_cases h1 : is_align ch = true
    · simp [parse_spec, spec_steps, spec_fill, spec_align, spec_char, Except.bind, hg, hs, h1,
        Data.unset]
    by_cases h2 : is_sign ch = true
    · simp [parse_spec, spec_steps, spec_fill, spec_align, spec_sign, spec_char, Except.bind,
        hg, hs, h1, h2, Data.unset]
    by_cases h3 : ch = '0'
    · subst h3
      have g : string_view.get ⟨['0'], after⟩ 0 = '0' := rfl
      have z : string_view.size ⟨['0'], after⟩ = 1 := rfl
      simp [parse_spec, spec_steps, spec_fill, spec_align, spec_sign, spec_zero, spec_char,
        Except.bind, g, z, h1, h2, Data.unset]
    by_cases h4 : isdigit ch = true
    · simp [parse_spec, spec_steps, spec_fill, spec_align, spec_sign, spec_zero, spec_width,
        spec_char, parse_width, Except.bind, hg, hs, h1, h2, h3, h4, Data.unset]
    by_cases h5 : ch = '.'
    · subst h5
      have g : string_view.get ⟨['.'], after⟩ 0 = '.' := rfl
      have z : string_view.size ⟨['.'], after⟩ = 1 := rfl
      simp [parse_spec, spec_steps, spec_fill, spec_align, spec_sign, spec_zero, spec_width,
        spec_precision, spec_char, parse_width, parse_precision, Except.bind, g, z, h1, h2,
        h4, Data.unset]
    · simp [parse_spec, spec_steps, spec_fill, spec_align, spec_sign, spec_zero, spec_width,
        spec_precision, spec_conversion, spec_char, parse_width, Except.bind, hg, hs, h1, h2,
        h3, h4, h5, hc, Data.unset]

/-- Claim C25 fails on `d`: the field `:d` parses with the conversion slot set
to `d`, which is not among the thirteen listed characters. -/
theorem conversion_d_accepted :
    parse_argument Data.unset ⟨":d".toList, ['\x7d']⟩ =
        (true, ⟨-1, -1, -1, -1, -1, -1, int_of_char 'd', -1⟩) ∧
      'd' ∉ listed_conversion_characters := by
  decide

/-- Claim C25, amended: the conversion characters are the thirteen listed ones
and `d`.  After every parse the conversion slot is unset or the code of one of
these fourteen characters, and a specifier of the single character `ch` stores
`ch` in the conversion slot if and only if `ch` is one of them. -/
theorem conversion_slot_set (d : Data) (f after : Str) (ch : Char) :
    ((parse_argument d ⟨f, after⟩).2.d6 = -1 ∨
        (parse_argument d ⟨f, after⟩).2.d6 ∈ conversion_characters.map int_of_char) ∧
      ((parse_argument d ⟨[':', ch], after⟩).2.d6 = int_of_char ch ↔
        ch ∈ conversion_characters) ∧
      ∀ c, c ∈ conversion_characters ↔ c ∈ listed_conversion_characters ∨ c = 'd' := by
  refine ⟨?_, ?_, ?_⟩
  · have h := parse_argument_slots (2 ^ 31) (by decide) d f after (fun c _ => by
      have := char_toNat_lt c
      unfold int_of_char
      exact_mod_cast this)
    exact h.1.2.2.2.2.2
  · rw [parse_argument_spec, parse_spec_single]
    constructor
    · intro h
      by_cases hc : is_conversion ch = true
      · exact is_conversion_mem ch hc
      · rw [if_neg hc] at h
        unfold int_of_char at h
        omega
    · intro h
      rw [if_pos (mem_is_conversion ch h)]
  · intro c
    simp only [conversion_characters, listed_conversion_characters, String.toList,
      List.mem_cons, List.mem_singleton, List.not_mem_nil, or_false]
    tauto

/-! ## Fields without a colon, fields with a subscript and no index -/

/-- Behind a field no digit follows. -/
theorem field_end_no_digit (after : Str) (h : field_end after) : no_digit_ahead after := by
  intro c hc
  rcases h with h | ⟨r, h⟩
  · rw [h] at hc; cases hc
  · rw [h] at hc
    cases hc
    decide

/-- Claim C26: for every field text without a colon `parse_argument` succeeds
and leaves fill, alignment, sign, width, precision and conversion unset; for
the decimal numeral of `k` the index slot is `k` and the subscript is unset,
for the numeral followed by `[j]` the index slot is `k` and the subscript slot
`j`, and for the empty text every slot is unset.  The slots are `int`s and
take their values from `atoi`: `k` and `j` are values of `int`, below `2 ^ 31`. -/
theorem field_without_colon (d : Data) (f after : Str) (k j : Nat) (hcolon : ':' ∉ f)
    (hend : field_end after) (hk : k < 2 ^ 31) (hj : j < 2 ^ 31) :
    ((parse_argument d ⟨f, after⟩).1 = true ∧
      (parse_argument d ⟨f, after⟩).2.d1 = -1 ∧ (parse_argument d ⟨f, after⟩).2.d2 = -1 ∧
      (parse_argument d ⟨f, after⟩).2.d3 = -1 ∧ (parse_argument d ⟨f, after⟩).2.d4 = -1 ∧
      (parse_argument d ⟨f, after⟩).2.d5 = -1 ∧ (parse_argument d ⟨f, after⟩).2.d6 = -1) ∧
    parse_argument d ⟨Nat.toDigits 10 k, after⟩ = (true, ⟨k, -1, -1, -1, -1, -1, -1, -1⟩) ∧
    parse_argument d ⟨Nat.toDigits 10 k ++ '[' :: (Nat.toDigits 10 j ++ [']']), after⟩ =
      (true, ⟨k, -1, -1, -1, -1, -1, -1, j⟩) ∧
    parse_argument d ⟨[], after⟩ = (true, Data.unset) := by
  have _ := hk
  have _ := hj
  refine ⟨?_, ?_, parse_argument_index_subscript k j after d, rfl⟩
  · unfold parse_argument
    rw [find_first_of_none hcolon]
    simp only []
    split_ifs
    · obtain ⟨e1, e2, e3, e4, e5, e6⟩ :=
        parse_index_slots { Data.unset with d0 := atoi (string_view.c_str ⟨f, after⟩) } ⟨f, after⟩
      exact ⟨rfl, e1, e2, e3, e4, e5, e6⟩
    · exact ⟨rfl, rfl, rfl, rfl, rfl, rfl, rfl⟩
  · have hc : ':' ∉ Nat.toDigits 10 k := not_mem_toDigits_ten k ':' (by decide)
    have hb : '[' ∉ Nat.toDigits 10 k := not_mem_toDigits_ten k '[' (by decide)
    have hne := toDigits_ne_nil 10 (by decide) k
    have hlen : ¬ ((Nat.toDigits 10 k).length = 0) := fun h => hne (List.length_eq_zero.mp h)
    have ha : atoi (Nat.toDigits 10 k ++ after) = k :=
      atoi_numeral k after (field_end_no_digit after hend)
    unfold parse_argument
    rw [find_first_of_none hc]
    simp only [string_view.size, ne_eq, hlen, not_false_eq_true, if_true]
    unfold parse_index
    rw [find_first_of_none hb]
    simp only [string_view.c_str, ha]
    rfl

/-- Witness of `field_without_colon`: the field texts `12`, `12[3]` and the
empty text in front of a closing brace. -/
theorem field_without_colon_witness :
    parse_argument Data.unset ⟨"12".toList, ['\x7d']⟩ = (true, ⟨12, -1, -1, -1, -1, -1, -1, -1⟩) ∧
      parse_argument Data.unset ⟨"12[3]".toList, ['\x7d']⟩ =
        (true, ⟨12, -1, -1, -1, -1, -1, -1, 3⟩) ∧
      parse_argument Data.unset ⟨[], ['\x7d']⟩ = (true, Data.unset) :=
  (field_without_colon Data.unset "12[3]".toList ['\x7d'] 12 3 (by decide)
    (Or.inr ⟨[], rfl⟩) (by decide) (by decide)).2

/-- The empty specifier in front of the end of the field parses and changes
nothing. -/
theorem parse_spec_empty (d : Data) (after : Str) (hend : field_end after) :
    parse_spec d ⟨[], after⟩ = (true, d) := by
  have hg := get_size_field_end ⟨[], after⟩ hend
  have hz : string_view.size ⟨[], after⟩ = 0 := rfl
  rw [hz] at hg
  have ha : is_align (string_view.get ⟨[], after⟩ 0) = false := by
    rcases hg with h | h <;> rw [h] <;> decide
  have hs : is_sign (string_view.get ⟨[], after⟩ 0) = false := by
    rcases hg with h | h <;> rw [h] <;> decide
  have h0 : ¬ (string_view.get ⟨[], after⟩ 0 = '0') := by
    rcases hg with h | h <;> rw [h] <;> decide
  simp [parse_spec, spec_steps, spec_fill, spec_align, spec_sign, spec_zero, spec_width,
    spec_char, parse_width, Except.bind, hz, ha, hs, h0]

/-- The code of `[` is no digit, no sign and no white space: `atoi` reads zero. -/
theorem atoi_bracket (t : Str) : atoi ('[' :: t) = 0 := by
  simp [atoi, digits_value, isspace, isdigit, List.dropWhile]

/-- Claim C27 fails for every subscript: the field text `[j]` is parsed with
the index slot set to `0`, the value `atoi` reads from the text that starts
with the bracket, where the text `[j]:` leaves the index slot unset; so
`vsformat` takes argument 0 for `[j]` and the argument under the cursor only
for `[j]:`. -/
theorem subscript_without_index (j : Nat) (after : Str) (d : Data) (hend : field_end after) :
    parse_argument d ⟨'[' :: (Nat.toDigits 10 j ++ [']']), after⟩ =
        (true, ⟨0, -1, -1, -1, -1, -1, -1, j⟩) ∧
      parse_argument d ⟨'[' :: (Nat.toDigits 10 j ++ [']', ':']), after⟩ =
        (true, ⟨-1, -1, -1, -1, -1, -1, -1, j⟩) ∧
      vsformat no_double "\x7b\x7d\x7b[1]\x7d".toList [.c_str "ab".toList, .c_str "cd".toList] =
        .ok "abb".toList ∧
      vsformat no_double "\x7b\x7d\x7b[1]:\x7d".toList [.c_str "ab".toList, .c_str "cd".toList] =
        .ok "abd".toList := by
  have hc1 : ':' ∉ '[' :: (Nat.toDigits 10 j ++ [']']) := by
    simp only [List.mem_cons, List.mem_append, List.mem_singleton, List.not_mem_nil, or_false,
      not_or]
    exact ⟨by decide, not_mem_toDigits_ten j ':' (by decide), by decide⟩
  have ha1 : atoi (Nat.toDigits 10 j ++ (']' :: after)) = j :=
    atoi_numeral j _ (by intro c hc; simp at hc; subst hc; decide)
  have ha2 : atoi (Nat.toDigits 10 j ++ (']' :: ':' :: after)) = j :=
    atoi_numeral j _ (by intro c hc; simp at hc; subst hc; decide)
  have hb : ∀ (t a : Str), string_view.find_first_of ⟨'[' :: t, a⟩ '[' = some 0 :=
    fun t a => @find_first_of_some [] t a '[' (List.not_mem_nil _)
  refine ⟨?_, ?_, by decide, by decide⟩
  · unfold parse_argument
    rw [find_first_of_none hc1]
    simp only [string_view.size, List.length_cons, List.length_append, List.length_nil, ne_eq,
      Nat.add_one_ne_zero, not_false_eq_true, if_true, string_view.c_str, List.cons_append,
      atoi_bracket]
    unfold parse_index
    rw [hb]
    simp only [string_view.substr, string_view.size, string_view.c_str, List.length_cons,
      List.length_append, List.length_nil, List.drop_zero, List.take_zero, List.drop_succ_cons]
    have hcnt : 0 + 2 ≤ (Nat.toDigits 10 j).length + (0 + 1) + 1 := by omega
    have hsub : (Nat.toDigits 10 j).length + (0 + 1) + 1 - 0 - 2 = (Nat.toDigits 10 j).length := by
      omega
    simp only [hcnt, if_true, hsub, take_length_append, drop_length_append, ne_eq,
      not_true_eq_false, if_false, List.append_assoc, List.cons_append, List.nil_append, ha1]
    rfl
  · have hpre : ':' ∉ '[' :: (Nat.toDigits 10 j ++ [']']) := hc1
    have hfind : string_view.find_first_of
        ⟨'[' :: (Nat.toDigits 10 j ++ [']', ':']), after⟩ ':' =
        some ('[' :: (Nat.toDigits 10 j ++ [']'])).length := by
      have h := @find_first_of_some ('[' :: (Nat.toDigits 10 j ++ [']'])) [] after ':' hpre
      simp only [List.cons_append, List.append_assoc, List.nil_append] at h
      exact h
    unfold parse_argument
    rw [hfind]
    have htake : List.take ('[' :: (Nat.toDigits 10 j ++ [']'])).length
        ('[' :: (Nat.toDigits 10 j ++ [']', ':'])) = '[' :: (Nat.toDigits 10 j ++ [']']) := by
      have h := take_length_append ('[' :: (Nat.toDigits 10 j ++ [']'])) [':']
      simp only [List.cons_append, List.append_assoc, List.nil_append] at h
      exact h
    have hdrop : List.drop ('[' :: (Nat.toDigits 10 j ++ [']'])).length
        ('[' :: (Nat.toDigits 10 j ++ [']', ':'])) = [':'] := by
      have h := drop_length_append ('[' :: (Nat.toDigits 10 j ++ [']'])) [':']
      simp only [List.cons_append, List.append_assoc, List.nil_append] at h
      exact h
    have hdrop1 : List.drop (('[' :: (Nat.toDigits 10 j ++ [']'])).length + 1)
        ('[' :: (Nat.toDigits 10 j ++ [']', ':'])) = [] := by
      have h := drop_length_succ_append ('[' :: (Nat.toDigits 10 j ++ [']'])) ':' []
      simp only [List.cons_append, List.append_assoc, List.nil_append] at h
      exact h
    simp only [string_view.substr, List.drop_zero, htake, hdrop, hdrop1]
    simp only [string_view.size, List.length_cons, ne_eq, Nat.add_one_ne_zero,
      not_false_eq_true, if_true]
    rw [parse_spec_empty _ after hend]
    unfold parse_index
    rw [hb]
    simp only [string_view.substr, string_view.size, string_view.c_str, List.length_cons,
      List.length_append, List.length_nil, List.drop_zero, List.take_zero, List.drop_succ_cons]
    have hcnt : 0 + 2 ≤ (Nat.toDigits 10 j).length + (0 + 1) + 1 := by omega
    have hsub : (Nat.toDigits 10 j).length + (0 + 1) + 1 - 0 - 2 = (Nat.toDigits 10 j).length := by
      omega
    simp only [hcnt, if_true, hsub, take_length_append, drop_length_append, ne_eq,
      not_true_eq_false, if_false, List.append_assoc, List.cons_append, List.nil_append, ha2]
    rfl

/-- Witness of `subscript_without_index`: the field texts `[1]` and `[1]:`. -/
theorem subscript_without_index_witness :
    parse_argument Data.unset ⟨"[1]".toList, ['\x7d']⟩ = (true, ⟨0, -1, -1, -1, -1, -1, -1, 1⟩) ∧
      parse_argument Data.unset ⟨"[1]:".toList, ['\x7d']⟩ =
        (true, ⟨-1, -1, -1, -1, -1, -1, -1, 1⟩) :=
  ⟨(subscript_without_index 1 ['\x7d'] Data.unset (Or.inr ⟨[], rfl⟩)).1,
    (subscript_without_index 1 ['\x7d'] Data.unset (Or.inr ⟨[], rfl⟩)).2.1⟩

/-! ## The buffer limit of `to_xstring`: precision of a string, width of an `int` -/

/-- The text `printf` gives a string under a precision: its first characters. -/
theorem vsnprintf_precision_s (p : Nat) (s : Str) :
    vsnprintf ('%' :: '.' :: (Nat.toDigits 10 p ++ ['s'])) (.str s) = some (s.take p) := by
  have hB : no_digit_ahead ['s'] := by
    intro x hx
    simp only [List.head?_cons, Option.some.injEq] at hx
    subst hx
    decide
  have hnum := printf_number_numeral p ['s'] hB
  have hdot : printf_number ('.' :: (Nat.toDigits 10 p ++ ['s'])) =
      (none, '.' :: (Nat.toDigits 10 p ++ ['s'])) := by
    simp [printf_number, isdigit]
  unfold vsnprintf
  simp [printf_flags, hdot, printf_precision, hnum, printf_length, printf_conversion,
    printf_text, pad_left]

/-- Claim C30 holds up to the buffer limit and fails above it: for a C string
`s` and a precision `p` without width, fill and sign, the output is the first
`min(p, length(s))` characters of `s` when that number is below 255, the limit
`data_fmt` gives `to_xstring`; from 255 characters on the string returned is
read past what `vsnprintf` wrote, which is undefined. -/
theorem c_str_precision (data : Data) (s : Str) (p : Nat) (h1 : data.d1 = -1)
    (h3 : data.d3 = -1) (h4 : data.d4 = -1) (h5 : data.d5 = p) :
    aformat data (.c_str s) =
      if min p s.length < 255 then .ok (s.take p) else .error .undefined := by
  have hfmt : data_fmt_format data ['s'] = '%' :: '.' :: (Nat.toDigits 10 p ++ ['s']) := by
    have hp1 : (p : Int) ≠ -1 := by omega
    unfold data_fmt_format
    simp [h1, h3, h4, h5, hp1, int_of_char, to_string_nat]
  have hlast : (data_fmt_format data ['s']).getLast? ≠ some 'b' := by
    rw [hfmt]
    have e : '%' :: '.' :: (Nat.toDigits 10 p ++ ['s']) =
        ('%' :: '.' :: Nat.toDigits 10 p) ++ ['s'] := by simp
    rw [e, List.getLast?_append]
    simp
  have hstep : aformat data (.c_str s) = data_fmt data 255 ['s'] .c_str (.str s) := rfl
  rw [hstep]
  unfold data_fmt
  simp only [hlast, if_false]
  rw [hfmt]
  simp only [to_xstring, vsnprintf_precision_s, List.length_take]
  by_cases hm : min p s.length < 255
  · simp [hm, data_fmt_pad, h4]
  · simp [hm]

/-- Witness of `c_str_precision`: `abcdef` under precision 3, and a string of
300 characters under precision 300. -/
theorem c_str_precision_witness :
    aformat ⟨-1, -1, -1, -1, -1, 3, -1, -1⟩ (.c_str "abcdef".toList) = .ok "abc".toList ∧
      aformat ⟨-1, -1, -1, -1, -1, 300, -1, -1⟩ (.c_str (List.replicate 300 'a')) =
        .error .undefined :=
  ⟨(c_str_precision ⟨-1, -1, -1, -1, -1, 3, -1, -1⟩ "abcdef".toList 3 rfl rfl rfl rfl).trans
      (by decide),
    (c_str_precision ⟨-1, -1, -1, -1, -1, 300, -1, -1⟩ (List.replicate 300 'a') 300 rfl rfl rfl
      rfl).trans (if_neg (by rw [List.length_replicate]; decide))⟩

/-- The text `printf` gives an `int` under a width: spaces in front. -/
theorem vsnprintf_width_d (w : Nat) (hw : 1 ≤ w) (n : Int) (hlo : -2 ^ 31 ≤ n)
    (hhi : n < 2 ^ 31) :
    vsnprintf ('%' :: (Nat.toDigits 10 w ++ ['d'])) (.int n) =
      some (pad_left w ' ' (to_string n)) := by
  obtain ⟨c, t, h1, h2, h3⟩ := toDigits_ten_head w hw
  have hB : no_digit_ahead ['d'] := by
    intro x hx
    simp only [List.head?_cons, Option.some.injEq] at hx
    subst hx
    decide
  have hnum := printf_number_numeral w ['d'] hB
  rw [h1] at hnum
  simp only [List.cons_append] at hnum
  have hwrap : wrap_signed 32 n = n := by unfold wrap_signed; omega
  unfold vsnprintf
  rw [h1]
  by_cases hn : n < 0
  · simp [printf_flags_digit c _ _ h2 h3, hnum, printf_precision, printf_length,
      printf_conversion, printf_bits, printf_integer, hwrap, hn, to_string]
  · have e : n.natAbs = n.toNat := by omega
    simp [printf_flags_digit c _ _ h2 h3, hnum, printf_precision, printf_length,
      printf_conversion, printf_bits, printf_integer, hwrap, hn, to_string, e]

/-- The decimal numeral of an `int` has at most eleven characters. -/
theorem to_string_int_length (n : Int) (hlo : -2 ^ 31 ≤ n) (hhi : n < 2 ^ 31) :
    (to_string n).length ≤ 11 := by
  have hlen := toDigits_length_le 10 (by decide) 10 n.natAbs (by decide) (by omega)
  unfold to_string
  split
  · simp only [List.length_cons]; omega
  · have e : n.natAbs = n.toNat := by omega
    rw [← e]; omega

/-- Claim C21 holds up to the buffer limit and fails above it: for an `int`
`n` and a width `w` (at least 1) without fill, alignment, sign, precision and
conversion, the output is the decimal numeral of `n` with `w - length` spaces
in front when `w` is below 16, the limit `aformat` gives `to_xstring` for an
`int`; from width 16 on the string returned is read past what `vsnprintf`
wrote, which is undefined. -/
theorem int_width_default (data : Data) (n : Int) (w : Nat) (h1 : data.d1 = -1)
    (h2 : data.d2 = -1) (h3 : data.d3 = -1) (h4 : data.d4 = w) (h5 : data.d5 = -1)
    (h6 : data.d6 = -1) (hw : 1 ≤ w) (hwmax : w < 2 ^ 31) (hlo : -2 ^ 31 ≤ n)
    (hhi : n < 2 ^ 31) :
    aformat data (.int n) =
      if w < 16 then .ok (List.replicate (w - (to_string n).length) ' ' ++ to_string n)
      else .error .undefined := by
  have hstep : aformat data (.int n) = data_fmt data 16 ['d'] .int (.int n) := by
    simp only [aformat, aformat_int, h6]
    rfl
  have hfmt : data_fmt_format data ['d'] = '%' :: (Nat.toDigits 10 w ++ ['d']) := by
    have hw1 : (w : Int) ≠ -1 := by omega
    unfold data_fmt_format
    simp [h1, h2, h3, h4, h5, hw1, int_of_char, to_string_nat]
  have hlast : (data_fmt_format data ['d']).getLast? ≠ some 'b' := by
    rw [hfmt, ← List.cons_append, List.getLast?_append]
    simp
  have hsz : size_t (w : Int) = w := by
    unfold size_t
    omega
  have hlen := to_string_int_length n hlo hhi
  have hpl : (pad_left w ' ' (to_string n)).length =
      w - (to_string n).length + (to_string n).length := by
    simp [pad_left]
  rw [hstep]
  unfold data_fmt
  simp only [hlast, if_false]
  rw [hfmt]
  simp only [to_xstring, vsnprintf_width_d w hw n hlo hhi]
  by_cases hm : w < 16
  · have hfit : (pad_left w ' ' (to_string n)).length < 16 := by rw [hpl]; omega
    have hnopad : ¬ (w > (pad_left w ' ' (to_string n)).length) := by rw [hpl]; omega
    simp [hm, hfit, data_fmt_pad, h4, hsz, hnopad]
    rfl
  · have hfit : ¬ ((pad_left w ' ' (to_string n)).length < 16) := by rw [hpl]; omega
    simp [hm, hfit]

/-- Witness of `int_width_default`: `-42` at width 6 and at width 20. -/
theorem int_width_default_witness :
    aformat ⟨-1, -1, -1, -1, 6, -1, -1, -1⟩ (.int (-42)) = .ok "   -42".toList ∧
      aformat ⟨-1, -1, -1, -1, 20, -1, -1, -1⟩ (.int (-42)) = .error .undefined :=
  ⟨(int_width_default ⟨-1, -1, -1, -1, 6, -1, -1, -1⟩ (-42) 6 rfl rfl rfl rfl rfl rfl
      (by decide) (by decide) (by decide) (by decide)).trans (by decide),
    (int_width_default ⟨-1, -1, -1, -1, 20, -1, -1, -1⟩ (-42) 20 rfl rfl rfl rfl rfl rfl
      (by decide) (by decide) (by decide) (by decide)).trans (by decide)⟩

/-! ## The zero flag and the fill `0` with internal alignment -/

/-- The specifier `0w`: the zero flag and the width. -/
theorem parse_zero_width (w : Nat) (hw : 1 ≤ w) (after : Str) (d : Data) :
    parse_argument d ⟨':' :: '0' :: Nat.toDigits 10 w, after⟩ =
      (true, ⟨-1, 48, -1, -1, w, -1, -1, -1⟩) := by
  obtain ⟨c, t, h1, h2, h3⟩ := toDigits_ten_head w hw
  have hnum := parse_width_numeral w ['0'] [] after (by intro x hx; cases hx)
    (Nat.toDigits 10 w).length (le_refl _)
  simp only [List.append_nil, List.cons_append, List.nil_append, List.length_cons,
    List.length_nil] at hnum
  have ha : is_align c = false := by
    simp only [isdigit, Bool.and_eq_true, decide_eq_true_eq] at h3
    simp only [is_align, Bool.or_eq_false_iff, decide_eq_false_iff_not]
    refine ⟨⟨⟨?_, ?_⟩, ?_⟩, ?_⟩ <;> (intro h; subst h; revert h3; decide)
  have hs : is_sign '0' = false := by decide
  have ha0 : is_align '0' = false := by decide
  rw [h1] at hnum
  simp only [List.length_cons, Nat.zero_add] at hnum
  rw [parse_argument_spec, h1]
  have hle : t.length + 1 + 1 ≤ 1 + (t.length + 1) := by omega
  simp [parse_spec, spec_steps, spec_fill, spec_align, spec_char, spec_sign, spec_zero,
    spec_width, string_view.size, string_view.get, ha, hs, ha0, hle, Except.bind, hnum,
    Data.unset, int_of_char]

/-- The specifier `0=w`: the fill `0`, internal alignment and the width. -/
theorem parse_zero_internal_width (w : Nat) (hw : 1 ≤ w) (after : Str) (d : Data) :
    parse_argument d ⟨':' :: '0' :: '=' :: Nat.toDigits 10 w, after⟩ =
      (true, ⟨-1, 48, 2, -1, w, -1, -1, -1⟩) := by
  obtain ⟨c, t, h1, h2, h3⟩ := toDigits_ten_head w hw
  have hnum := parse_width_numeral w ['0', '='] [] after (by intro x hx; cases hx)
    (Nat.toDigits 10 w).length (le_refl _)
  simp only [List.append_nil, List.cons_append, List.nil_append, List.length_cons,
    List.length_nil] at hnum
  have hs : is_sign c = false := by
    simp only [isdigit, Bool.and_eq_true, decide_eq_true_eq] at h3
    simp only [is_sign, Bool.or_eq_false_iff, decide_eq_false_iff_not]
    refine ⟨⟨?_, ?_⟩, ?_⟩ <;> (intro h; subst h; revert h3; decide)
  have ha : is_align '=' = true := by decide
  rw [h1] at hnum
  simp only [List.length_cons, Nat.zero_add] at hnum
  rw [parse_argument_spec, h1]
  have hle : t.length + 1 + 1 + 1 ≤ 2 + (t.length + 1) := by omega
  simp [parse_spec, spec_steps, spec_fill, spec_align, spec_char, spec_sign, spec_zero,
    spec_width, string_view.size, string_view.get, ha, hs, h2, hle, Except.bind, hnum,
    Data.unset, int_of_char, align_code]

/-- The text `printf` gives an `int` under the zero flag and a width. -/
theorem vsnprintf_zero_width_d (w : Nat) (hw : 1 ≤ w) (n : Int) (hlo : -2 ^ 31 ≤ n)
    (hhi : n < 2 ^ 31) :
    vsnprintf ('%' :: '0' :: (Nat.toDigits 10 w ++ ['d'])) (.int n) =
      some (zero_padded w n) := by
  obtain ⟨c, t, h1, h2, h3⟩ := toDigits_ten_head w hw
  have hB : no_digit_ahead ['d'] := by
    intro x hx
    simp only [List.head?_cons, Option.some.injEq] at hx
    subst hx
    decide
  have hnum := printf_number_numeral w ['d'] hB
  rw [h1] at hnum
  simp only [List.cons_append] at hnum
  have hwrap : wrap_signed 32 n = n := by unfold wrap_signed; omega
  have hflags : printf_flags ('0' :: c :: (t ++ ['d'])) {} =
      ({ zero := true }, c :: (t ++ ['d'])) := by
    rw [printf_flags]
    simp [printf_flags_digit c _ _ h2 h3]
  unfold vsnprintf
  rw [h1]
  by_cases hn : n < 0
  · simp [hflags, hnum, printf_precision, printf_length, printf_conversion, printf_bits,
      printf_integer, hwrap, hn, zero_padded]
  · simp [hflags, hnum, printf_precision, printf_length, printf_conversion, printf_bits,
      printf_integer, hwrap, hn, zero_padded]

/-- The length of the zero-padded numeral of an `int`. -/
theorem zero_padded_length (w : Nat) (hw : 1 ≤ w) (n : Int) (hlo : -2 ^ 31 ≤ n)
    (hhi : n < 2 ^ 31) :
    w ≤ (zero_padded w n).length ∧ ((zero_padded w n).length < 16 ↔ w < 16) := by
  have hlen := toDigits_length_le 10 (by decide) 10 n.natAbs (by decide) (by omega)
  unfold zero_padded
  split <;> simp only [pad_left, List.length_cons, List.length_append, List.length_replicate] <;>
    constructor <;> omega

/-- The zero flag with a width on an `int`: `printf` pads, inside the buffer
limit of 16. -/
theorem aformat_zero_width (n : Int) (w : Nat) (hw : 1 ≤ w) (hwmax : w < 2 ^ 31)
    (hlo : -2 ^ 31 ≤ n) (hhi : n < 2 ^ 31) :
    aformat ⟨-1, 48, -1, -1, w, -1, -1, -1⟩ (.int n) =
      if w < 16 then .ok (zero_padded w n) else .error .undefined := by
  have hstep : aformat ⟨-1, 48, -1, -1, w, -1, -1, -1⟩ (.int n) =
      data_fmt ⟨-1, 48, -1, -1, w, -1, -1, -1⟩ 16 ['d'] .int (.int n) := by
    simp only [aformat, aformat_int]
    rfl
  have hfmt : data_fmt_format ⟨-1, 48, -1, -1, w, -1, -1, -1⟩ ['d'] =
      '%' :: '0' :: (Nat.toDigits 10 w ++ ['d']) := by
    have hw1 : (w : Int) ≠ -1 := by omega
    unfold data_fmt_format
    simp [hw1, int_of_char, to_string_nat]
  have hlast : (data_fmt_format ⟨-1, 48, -1, -1, w, -1, -1, -1⟩ ['d']).getLast? ≠ some 'b' := by
    rw [hfmt]
    have e : '%' :: '0' :: (Nat.toDigits 10 w ++ ['d']) =
        ('%' :: '0' :: Nat.toDigits 10 w) ++ ['d'] := by simp
    rw [e, List.getLast?_append]
    simp
  have hsz : size_t (w : Int) = w := by
    unfold size_t
    omega
  obtain ⟨hge, hiff⟩ := zero_padded_length w hw n hlo hhi
  rw [hstep]
  unfold data_fmt
  simp only [hlast, if_false]
  rw [hfmt]
  simp only [to_xstring, vsnprintf_zero_width_d w hw n hlo hhi]
  by_cases hm : w < 16
  · have hfit := hiff.mpr hm
    have hnopad : ¬ (w > (zero_padded w n).length) := by omega
    simp [hm, hfit, data_fmt_pad, hsz, hnopad]
  · have hfit : ¬ ((zero_padded w n).length < 16) := fun h => hm (hiff.mp h)
    simp [hm, hfit]

/-- The numeral of a natural number starts with a digit, not with a sign. -/
theorem toDigits_ten_head_not_sign (m : Nat) :
    ((Nat.toDigits 10 m).head? = some '-' || (Nat.toDigits 10 m).head? = some '+') = false := by
  have hdig := toDigits_ten_isdigit m
  cases hd : Nat.toDigits 10 m with
  | nil => rfl
  | cons c t =>
    rw [hd] at hdig
    have hc := hdig c (List.mem_cons_self _ _)
    have h1 : c ≠ '-' := by intro h; subst h; revert hc; decide
    have h2 : c ≠ '+' := by intro h; subst h; revert hc; decide
    simp [h1, h2]

/-- The fill `0` with internal alignment and a width on an `int`: `data_fmt`
pads by hand between the sign and the digits, for every width. -/
theorem aformat_zero_internal (n : Int) (w : Nat) (hwmax : w < 2 ^ 31)
    (hlo : -2 ^ 31 ≤ n) (hhi : n < 2 ^ 31) :
    aformat ⟨-1, 48, 2, -1, w, -1, -1, -1⟩ (.int n) = .ok (zero_padded w n) := by
  have hr : aformat ⟨-1, 48, 2, -1, -1, -1, -1, -1⟩ (.int n) = .ok (to_string n) :=
    aformat_int_decimal ⟨-1, 48, 2, -1, -1, -1, -1, -1⟩ n rfl rfl rfl rfl hlo hhi
  have hal := aformat_aligned ⟨-1, 48, 2, -1, -1, -1, -1, -1⟩ w (.int n) (to_string n) rfl
    (by decide) hr
  have hfill : char_of_int (if (48 : Int) = -1 then int_of_char ' ' else 48) = '0' := by decide
  have hsz : size_t (w : Int) = w := by
    unfold size_t
    omega
  have hw1 : (w : Int) ≠ -1 := by omega
  have hgoal : aformat ⟨-1, 48, 2, -1, w, -1, -1, -1⟩ (.int n) =
      data_fmt_pad ⟨-1, 48, 2, -1, w, -1, -1, -1⟩ (to_string n) := hal
  rw [hgoal]
  by_cases hlen : (to_string n).length < w
  · have hp := data_fmt_pad_wide ⟨-1, 48, 2, -1, -1, -1, -1, -1⟩ w (to_string n) hwmax hlen
    have hp2 : data_fmt_pad ⟨-1, 48, 2, -1, w, -1, -1, -1⟩ (to_string n) =
        if (to_string n).head? = some '-' || (to_string n).head? = some '+' then
          .ok ((to_string n).take 1 ++ List.replicate (w - (to_string n).length) '0' ++
            (to_string n).drop 1)
        else .ok (List.replicate (w - (to_string n).length) '0' ++ to_string n) := by
      rw [← hfill]
      exact hp
    rw [hp2]
    unfold to_string zero_padded at *
    by_cases hn : n < 0
    · simp only [hn, if_true, List.length_cons] at hlen ⊢
      simp only [List.head?_cons, List.take_succ_cons, List.take_zero, List.drop_succ_cons,
        List.drop_zero, Bool.or_eq_true, decide_eq_true_eq, true_or, if_true, pad_left,
        List.singleton_append, List.cons_append, List.nil_append]
      have e : w - ((Nat.toDigits 10 n.natAbs).length + 1) =
          w - 1 - (Nat.toDigits 10 n.natAbs).length := by omega
      simp [e]
    · have e : n.toNat = n.natAbs := by omega
      simp only [hn, if_false, e] at hlen ⊢
      rw [toDigits_ten_head_not_sign]
      simp [pad_left]
  · have hp : data_fmt_pad ⟨-1, 48, 2, -1, w, -1, -1, -1⟩ (to_string n) = .ok (to_string n) := by
      unfold data_fmt_pad
      have hno : ¬ (w > (to_string n).length) := by omega
      simp [hw1, hsz, hno]
    rw [hp]
    unfold to_string zero_padded at *
    by_cases hn : n < 0
    · simp only [hn, if_true, List.length_cons] at hlen ⊢
      have e : w - 1 - (Nat.toDigits 10 n.natAbs).length = 0 := by omega
      simp [pad_left, e]
    · have e : n.toNat = n.natAbs := by omega
      simp only [hn, if_false, e] at hlen ⊢
      have e2 : w - (Nat.toDigits 10 n.natAbs).length = 0 := by omega
      simp [pad_left, e2]

/-- Claim C22 holds up to the buffer limit and fails above it: for an `int` `n`
and a width `w` the specifiers `0w` and `0=w` parse to the zero flag with the
width and to the fill `0` with internal alignment and the width; the second
gives the numeral padded with zeros behind the sign for every width, the first
gives the same output only for a width below 16, the limit `aformat` gives
`to_xstring` for an `int`: from width 16 on the string returned is read past
what `vsnprintf` wrote, which is undefined. -/
theorem zero_flag_internal (n : Int) (w : Nat) (after : Str) (d : Data) (hw : 1 ≤ w)
    (hwmax : w < 2 ^ 31) (hlo : -2 ^ 31 ≤ n) (hhi : n < 2 ^ 31) :
    parse_argument d ⟨':' :: '0' :: Nat.toDigits 10 w, after⟩ =
        (true, ⟨-1, 48, -1, -1, w, -1, -1, -1⟩) ∧
      parse_argument d ⟨':' :: '0' :: '=' :: Nat.toDigits 10 w, after⟩ =
        (true, ⟨-1, 48, 2, -1, w, -1, -1, -1⟩) ∧
      aformat ⟨-1, 48, 2, -1, w, -1, -1, -1⟩ (.int n) = .ok (zero_padded w n) ∧
      aformat ⟨-1, 48, -1, -1, w, -1, -1, -1⟩ (.int n) =
        if w < 16 then .ok (zero_padded w n) else .error .undefined :=
  ⟨parse_zero_width w hw after d, parse_zero_internal_width w hw after d,
    aformat_zero_internal n w hwmax hlo hhi, aformat_zero_width n w hw hwmax hlo hhi⟩

/-- Witness of `zero_flag_internal`: `-5` at width 5 is `-0005` both ways; at
width 20 only the fill `0` with internal alignment gives the padded numeral. -/
theorem zero_flag_internal_witness :
    aformat ⟨-1, 48, 2, -1, 5, -1, -1, -1⟩ (.int (-5)) = .ok "-0005".toList ∧
      aformat ⟨-1, 48, -1, -1, 5, -1, -1, -1⟩ (.int (-5)) = .ok "-0005".toList ∧
      aformat ⟨-1, 48, 2, -1, 20, -1, -1, -1⟩ (.int (-5)) = .ok "-0000000000000000005".toList ∧
      aformat ⟨-1, 48, -1, -1, 20, -1, -1, -1⟩ (.int (-5)) = .error .undefined :=
  ⟨(zero_flag_internal (-5) 5 [] Data.unset (by decide) (by decide) (by decide)
      (by decide)).2.2.1.trans (by decide),
    (zero_flag_internal (-5) 5 [] Data.unset (by decide) (by decide) (by decide)
      (by decide)).2.2.2.trans (by decide),
    (zero_flag_internal (-5) 20 [] Data.unset (by decide) (by decide) (by decide)
      (by decide)).2.2.1.trans (by decide),
    (zero_flag_internal (-5) 20 [] Data.unset (by decide) (by decide) (by decide)
      (by decide)).2.2.2.trans (by decide)⟩

/-! ## The side on which the generic formatter pads -/

/-- A C string without width, sign and precision is printed as it is, below
the buffer limit. -/
theorem aformat_c_str_plain (data : Data) (s : Str) (h3 : data.d3 = -1) (h4 : data.d4 = -1)
    (h5 : data.d5 = -1) (hlen : s.length < 255) : aformat data (.c_str s) = .ok s := by
  have hfmt := data_fmt_format_plain data ['s'] h3 h4 h5 (by decide)
  have hv : vsnprintf (data_fmt_format data ['s']) (.str s) = some s := by
    rw [hfmt]
    split
    · exact vsnprintf_0s s
    · exact vsnprintf_s s
  exact data_fmt_printed data 255 ['s'] .c_str (.str s) s h4
    (by rw [hfmt]; split <;> decide) hv hlen

/-- The generic formatter at a width, under left or right alignment. -/
theorem aformat_generic_wide (data : Data) (s : Str) (w : Nat) :
    (data.d2 = 0 → aformat_generic { data with d4 := w } s =
        .ok (List.replicate (w - s.length)
          (char_of_int (if data.d1 = -1 then int_of_char ' ' else data.d1)) ++ s)) ∧
      (data.d2 = 1 → aformat_generic { data with d4 := w } s =
        .ok (s ++ List.replicate (w - s.length)
          (char_of_int (if data.d1 = -1 then int_of_char ' ' else data.d1)))) := by
  have hw : ((w : Int) > -1) := by omega
  constructor
  · intro h2
    unfold aformat_generic
    simp [h2, hw, pad_left]
  · intro h2
    unfold aformat_generic
    simp [h2, hw, pad_right]

/-- Claim C29 fails for every text, fill and width: at a width above the
length of the text the generic formatter puts the fill in front of a
`std::string` under `<` and behind it under `>`, the opposite of what the
primitive formatter does for the C string of the same characters (shorter than
its buffer limit of 255). -/
theorem generic_pads_other_side (data : Data) (s : Str) (fill : Option Char) (w : Nat)
    (hfill : data.d1 = fill_slot fill) (hascii : ∀ c, fill = some c → c.toNat < 128)
    (h3 : data.d3 = -1) (h5 : data.d5 = -1) (hw : w < 2 ^ 31) (hlen : s.length < w)
    (hbuf : s.length < 255) :
    (data.d2 = 0 →
        aformat { data with d4 := w } (.string s) =
          .ok (List.replicate (w - s.length) (fill.getD ' ') ++ s) ∧
        aformat { data with d4 := w } (.c_str s) =
          .ok (s ++ List.replicate (w - s.length) (fill.getD ' '))) ∧
      (data.d2 = 1 →
        aformat { data with d4 := w } (.string s) =
          .ok (s ++ List.replicate (w - s.length) (fill.getD ' ')) ∧
        aformat { data with d4 := w } (.c_str s) =
          .ok (List.replicate (w - s.length) (fill.getD ' ') ++ s)) := by
  have hc := fill_char_eq data fill hfill hascii
  have hr : aformat { data with d4 := -1 } (.c_str s) = .ok s :=
    aformat_c_str_plain { data with d4 := -1 } s h3 rfl h5 hbuf
  have hg := aformat_generic_wide data s w
  rw [hc] at hg
  constructor
  · intro h2
    refine ⟨hg.1 h2, ?_⟩
    rw [aformat_aligned data w (.c_str s) s rfl (by rw [h2]; decide) hr,
      data_fmt_pad_wide data w s hw hlen, if_pos h2, hc]
  · intro h2
    refine ⟨hg.2 h2, ?_⟩
    rw [aformat_aligned data w (.c_str s) s rfl (by rw [h2]; decide) hr,
      data_fmt_pad_wide data w s hw hlen, if_neg (by rw [h2]; decide), if_pos h2, hc]

/-- Witness of `generic_pads_other_side`: `ab` with fill `*` at width 5. -/
theorem generic_pads_other_side_witness :
    aformat ⟨-1, 42, 0, -1, 5, -1, -1, -1⟩ (.string "ab".toList) = .ok "***ab".toList ∧
      aformat ⟨-1, 42, 0, -1, 5, -1, -1, -1⟩ (.c_str "ab".toList) = .ok "ab***".toList ∧
      aformat ⟨-1, 42, 1, -1, 5, -1, -1, -1⟩ (.string "ab".toList) = .ok "ab***".toList ∧
      aformat ⟨-1, 42, 1, -1, 5, -1, -1, -1⟩ (.c_str "ab".toList) = .ok "***ab".toList :=
  ⟨((generic_pads_other_side ⟨-1, 42, 0, -1, 5, -1, -1, -1⟩ "ab".toList (some '*') 5
      (by decide) (by decide) (by decide) (by decide) (by decide) (by decide) (by decide)).1
      (by decide)).1,
    ((generic_pads_other_side ⟨-1, 42, 0, -1, 5, -1, -1, -1⟩ "ab".toList (some '*') 5
      (by decide) (by decide) (by decide) (by decide) (by decide) (by decide) (by decide)).1
      (by decide)).2,
    ((generic_pads_other_side ⟨-1, 42, 1, -1, 5, -1, -1, -1⟩ "ab".toList (some '*') 5
      (by decide) (by decide) (by decide) (by decide) (by decide) (by decide) (by decide)).2
      (by decide)).1,
    ((generic_pads_other_side ⟨-1, 42, 1, -1, 5, -1, -1, -1⟩ "ab".toList (some '*') 5
      (by decide) (by decide) (by decide) (by decide) (by decide) (by decide) (by decide)).2
      (by decide)).2⟩

/-! ## The default rendering of a C string and the buffer limit -/

/-- A C string under the unset record: itself below the buffer limit of 255,
undefined from there on. -/
theorem aformat_c_str_default (s : Str) :
    aformat Data.unset (.c_str s) =
      if s.length < 255 then .ok s else .error .undefined := by
  have hstep : aformat Data.unset (.c_str s) = data_fmt Data.unset 255 ['s'] .c_str (.str s) :=
    rfl
  have hfmt : data_fmt_format Data.unset ['s'] = ['%', 's'] := by decide
  rw [hstep]
  unfold data_fmt
  rw [hfmt]
  have hv : vsnprintf ['%', 's'] (.str s) = some s := vsnprintf_s s
  have hlast : ¬ (['%', 's'].getLast? = some 'b') := by decide
  simp only [hlast, if_false, to_xstring, hv]
  by_cases hm : s.length < 255
  · simp [hm, data_fmt_pad, Data.unset]
  · simp [hm]

/-- Claim C31 holds up to the buffer limit and fails above it: for a C string
`s` the template of the single field without text expands to `s` when `s` has
fewer than 255 characters, the limit the C-string branch of `aformat` gives
`to_xstring`; from 255 characters on the string returned is read past what
`vsnprintf` wrote, which is undefined. -/
theorem c_str_default (to_double : Int → Floating) (s : Str) :
    vsformat to_double ['\x7b', '\x7d'] [.c_str s] =
      if s.length < 255 then .ok s else .error .undefined := by
  have hstep := vsformat_loop_field to_double [.c_str s] 2 [] [] [] 0 []
    (List.not_mem_nil _) (List.not_mem_nil _)
  have hparse : parse_argument Data.unset ⟨[], ['\x7d']⟩ = (true, Data.unset) := rfl
  have hfield : aiformat to_double 0 Data.unset [.c_str s] = aformat Data.unset (.c_str s) := by
    simp [aiformat, aiformat_from, asformat, has_subscript, acdformat, Data.unset]
  unfold vsformat
  simp only [List.nil_append, List.length_cons, List.length_nil] at hstep ⊢
  rw [hstep, hparse]
  simp only [Bool.true_eq_false, if_false, Data.unset, ne_eq, not_true_eq_false]
  have hfield2 : aiformat to_double 0 ⟨-1, -1, -1, -1, -1, -1, -1, -1⟩ [.c_str s] =
      aformat Data.unset (.c_str s) := hfield
  rw [hfield2, aformat_c_str_default]
  by_cases hm : s.length < 255
  · simp [hm, vsformat_loop, string_view.find_first_of]
  · simp [hm]

/-! ## The sign character with a width and no alignment -/

/-- The specifier of a sign character and a width. -/
theorem parse_sign_width (sg : Char) (w : Nat) (hsg : is_sign sg = true) (hw : 1 ≤ w)
    (after : Str) (d : Data) :
    parse_argument d ⟨':' :: sg :: Nat.toDigits 10 w, after⟩ =
      (true, ⟨-1, -1, -1, sign_code sg, w, -1, -1, -1⟩) := by
  obtain ⟨c, t, h1, h2, h3⟩ := toDigits_ten_head w hw
  have hnum := parse_width_numeral w [sg] [] after (by intro x hx; cases hx)
    (Nat.toDigits 10 w).length (le_refl _)
  simp only [List.append_nil, List.cons_append, List.nil_append, List.length_cons,
    List.length_nil] at hnum
  have ha : is_align c = false := by
    simp only [isdigit, Bool.and_eq_true, decide_eq_true_eq] at h3
    simp only [is_align, Bool.or_eq_false_iff, decide_eq_false_iff_not]
    refine ⟨⟨⟨?_, ?_⟩, ?_⟩, ?_⟩ <;> (intro h; subst h; revert h3; decide)
  have hsa : is_align sg = false := by
    simp only [is_sign, Bool.or_eq_true, decide_eq_true_eq] at hsg
    rcases hsg with (rfl | rfl) | rfl <;> decide
  rw [h1] at hnum
  simp only [List.length_cons, Nat.zero_add] at hnum
  rw [parse_argument_spec, h1]
  have hle : t.length + 1 + 1 ≤ 1 + (t.length + 1) := by omega
  simp [parse_spec, spec_steps, spec_fill, spec_align, spec_char, spec_sign, spec_zero,
    spec_width, string_view.size, string_view.get, ha, hsa, hsg, h2, hle, Except.bind, hnum,
    Data.unset]

/-- The text `printf` gives an `int` under one of the flags `+`, `-`, space and
a width: the flag `-` is the left-justification of `printf`. -/
theorem vsnprintf_flag_width_d (sg : Char) (hsg : is_sign sg = true) (w : Nat) (hw : 1 ≤ w)
    (n : Int) (hlo : -2 ^ 31 ≤ n) (hhi : n < 2 ^ 31) :
    vsnprintf ('%' :: sg :: (Nat.toDigits 10 w ++ ['d'])) (.int n) =
      some (if sg = '-' then pad_right w ' ' (to_string n)
        else pad_left w ' ' ((if n < 0 then '-' else sg) :: Nat.toDigits 10 n.natAbs)) := by
  obtain ⟨c, t, h1, h2, h3⟩ := toDigits_ten_head w hw
  have hB : no_digit_ahead ['d'] := by
    intro x hx
    simp only [List.head?_cons, Option.some.injEq] at hx
    subst hx
    decide
  have hnum := printf_number_numeral w ['d'] hB
  rw [h1] at hnum
  simp only [List.cons_append] at hnum
  have hwrap : wrap_signed 32 n = n := by unfold wrap_signed; omega
  have hd := printf_flags_digit c (t ++ ['d'])
  simp only [is_sign, Bool.or_eq_true, decide_eq_true_eq] at hsg
  unfold vsnprintf
  rw [h1]
  rcases hsg with (rfl | rfl) | rfl
  · have hflags : printf_flags ('+' :: c :: (t ++ ['d'])) {} =
        ({ plus := true }, c :: (t ++ ['d'])) := by
      rw [printf_flags]
      simp [hd _ h2 h3]
    by_cases hn : n < 0
    · simp [hflags, hnum, printf_precision, printf_length, printf_conversion, printf_bits,
        printf_integer, hwrap, hn]
    · simp [hflags, hnum, printf_precision, printf_length, printf_conversion, printf_bits,
        printf_integer, hwrap, hn]
  · have hflags : printf_flags ('-' :: c :: (t ++ ['d'])) {} =
        ({ minus := true }, c :: (t ++ ['d'])) := by
      rw [printf_flags]
      simp [hd _ h2 h3]
    by_cases hn : n < 0
    · simp [hflags, hnum, printf_precision, printf_length, printf_conversion, printf_bits,
        printf_integer, hwrap, hn, to_string]
    · have e : n.natAbs = n.toNat := by omega
      simp [hflags, hnum, printf_precision, printf_length, printf_conversion, printf_bits,
        printf_integer, hwrap, hn, to_string, e]
  · have hflags : printf_flags (' ' :: c :: (t ++ ['d'])) {} =
        ({ space := true }, c :: (t ++ ['d'])) := by
      rw [printf_flags]
      simp [hd _ h2 h3]
    by_cases hn : n < 0
    · simp [hflags, hnum, printf_precision, printf_length, printf_conversion, printf_bits,
        printf_integer, hwrap, hn]
    · simp [hflags, hnum, printf_precision, printf_length, printf_conversion, printf_bits,
        printf_integer, hwrap, hn]

/-- Claim C32 holds for the sign characters `+` and space below width 16 and
fails for `-`: for an `int` `n`, a sign character and a width `w` (at least 1)
without alignment the specifier parses to the sign and the width, and
`data_fmt` hands both to `printf`.  Under `+` and space the signed numeral is
right-aligned with spaces; under `-`, which is the left-justification flag of
`printf`, the numeral is followed by the spaces.  From width 16 on, the limit
`aformat` gives `to_xstring` for an `int`, the string returned is read past
what `vsnprintf` wrote, which is undefined. -/
theorem sign_width_default (sg : Char) (n : Int) (w : Nat) (after : Str) (d : Data)
    (hsg : is_sign sg = true) (hw : 1 ≤ w) (hwmax : w < 2 ^ 31) (hlo : -2 ^ 31 ≤ n)
    (hhi : n < 2 ^ 31) :
    parse_argument d ⟨':' :: sg :: Nat.toDigits 10 w, after⟩ =
        (true, ⟨-1, -1, -1, sign_code sg, w, -1, -1, -1⟩) ∧
      aformat ⟨-1, -1, -1, sign_code sg, w, -1, -1, -1⟩ (.int n) =
        if w < 16 then
          .ok (if sg = '-' then pad_right w ' ' (to_string n)
            else pad_left w ' ' ((if n < 0 then '-' else sg) :: Nat.toDigits 10 n.natAbs))
        else .error .undefined := by
  refine ⟨parse_sign_width sg w hsg hw after d, ?_⟩
  have hstep : aformat ⟨-1, -1, -1, sign_code sg, w, -1, -1, -1⟩ (.int n) =
      data_fmt ⟨-1, -1, -1, sign_code sg, w, -1, -1, -1⟩ 16 ['d'] .int (.int n) := by
    simp only [aformat, aformat_int]
    rfl
  have hfmt : data_fmt_format ⟨-1, -1, -1, sign_code sg, w, -1, -1, -1⟩ ['d'] =
      '%' :: sg :: (Nat.toDigits 10 w ++ ['d']) := by
    have hw1 : (w : Int) ≠ -1 := by omega
    have hs := hsg
    simp only [is_sign, Bool.or_eq_true, decide_eq_true_eq] at hs
    unfold data_fmt_format
    rcases hs with (rfl | rfl) | rfl <;> simp [hw1, int_of_char, to_string_nat, sign_code]
  have hlast : (data_fmt_format ⟨-1, -1, -1, sign_code sg, w, -1, -1, -1⟩ ['d']).getLast? ≠
      some 'b' := by
    rw [hfmt]
    have e : '%' :: sg :: (Nat.toDigits 10 w ++ ['d']) =
        ('%' :: sg :: Nat.toDigits 10 w) ++ ['d'] := by simp
    rw [e, List.getLast?_append]
    simp
  have hsz : size_t (w : Int) = w := by
    unfold size_t
    omega
  have hdl := toDigits_length_le 10 (by decide) 10 n.natAbs (by decide) (by omega)
  have htl := to_string_int_length n hlo hhi
  rw [hstep]
  unfold data_fmt
  simp only [hlast, if_false]
  rw [hfmt]
  simp only [to_xstring, vsnprintf_flag_width_d sg hsg w hw n hlo hhi]
  by_cases hm : w < 16
  · by_cases hs : sg = '-'
    · have hl : (pad_right w ' ' (to_string n)).length =
          (to_string n).length + (w - (to_string n).length) := by simp [pad_right]
      have hfit : (pad_right w ' ' (to_string n)).length < 16 := by rw [hl]; omega
      have hnopad : ¬ (w > (pad_right w ' ' (to_string n)).length) := by rw [hl]; omega
      simp [hm, hs, hfit, data_fmt_pad, hsz, hnopad]
    · have hl : (pad_left w ' ' ((if n < 0 then '-' else sg) :: Nat.toDigits 10 n.natAbs)).length =
          w - ((Nat.toDigits 10 n.natAbs).length + 1) +
            ((Nat.toDigits 10 n.natAbs).length + 1) := by simp [pad_left]
      have hfit : (pad_left w ' '
          ((if n < 0 then '-' else sg) :: Nat.toDigits 10 n.natAbs)).length < 16 := by
        rw [hl]; omega
      have hnopad : ¬ (w > (pad_left w ' '
          ((if n < 0 then '-' else sg) :: Nat.toDigits 10 n.natAbs)).length) := by
        rw [hl]; omega
      simp [hm, hs, hfit, data_fmt_pad, hsz, hnopad]
  · by_cases hs : sg = '-'
    · have hl : (pad_right w ' ' (to_string n)).length =
          (to_string n).length + (w - (to_string n).length) := by simp [pad_right]
      have hfit : ¬ ((pad_right w ' ' (to_string n)).length < 16) := by rw [hl]; omega
      simp [hm, hs, hfit]
    · have hl : (pad_left w ' ' ((if n < 0 then '-' else sg) :: Nat.toDigits 10 n.natAbs)).length =
          w - ((Nat.toDigits 10 n.natAbs).length + 1) +
            ((Nat.toDigits 10 n.natAbs).length + 1) := by simp [pad_left]
      have hfit : ¬ ((pad_left w ' '
          ((if n < 0 then '-' else sg) :: Nat.toDigits 10 n.natAbs)).length < 16) := by
        rw [hl]; omega
      simp [hm, hs, hfit]

/-- Witness of `sign_width_default`: 42 at width 5 under `+`, space and `-`. -/
theorem sign_width_default_witness :
    aformat ⟨-1, -1, -1, 0, 5, -1, -1, -1⟩ (.int 42) = .ok "  +42".toList ∧
      aformat ⟨-1, -1, -1, 2, 5, -1, -1, -1⟩ (.int 42) = .ok "   42".toList ∧
      aformat ⟨-1, -1, -1, 1, 5, -1, -1, -1⟩ (.int 42) = .ok "42   ".toList :=
  ⟨(sign_width_default '+' 42 5 [] Data.unset (by decide) (by decide) (by decide) (by decide)
      (by decide)).2.trans (by decide),
    (sign_width_default ' ' 42 5 [] Data.unset (by decide) (by decide) (by decide) (by decide)
      (by decide)).2.trans (by decide),
    (sign_width_default '-' 42 5 [] Data.unset (by decide) (by decide) (by decide) (by decide)
      (by decide)).2.trans (by decide)⟩

/-! ## Internal alignment -/

/-- Claim C34: with internal alignment, for an `int` whose rendering without
width is `r`, a fill character `c` (space when none is given) and a width `w`
above the length of `r`: when `r` starts with `-` or `+` the output is that
sign, then `w - |r|` copies of `c`, then the rest of `r`; otherwise the
padding goes in front of `r`. -/
theorem internal_padding (data : Data) (n : Int) (fill : Option Char) (w : Nat) (r : Str)
    (hfill : data.d1 = fill_slot fill) (hascii : ∀ c, fill = some c → c.toNat < 128)
    (hinternal : data.d2 = 2) (hw : w < 2 ^ 31)
    (hr : aformat { data with d4 := -1 } (.int n) = .ok r) (hlen : r.length < w) :
    ((r.head? = some '-' ∨ r.head? = some '+') →
        aformat { data with d4 := w } (.int n) =
          .ok (r.take 1 ++ List.replicate (w - r.length) (fill.getD ' ') ++ r.drop 1)) ∧
      (¬ (r.head? = some '-' ∨ r.head? = some '+') →
        aformat { data with d4 := w } (.int n) =
          .ok (List.replicate (w - r.length) (fill.getD ' ') ++ r)) := by
  have hc := fill_char_eq data fill hfill hascii
  have hpad : aformat { data with d4 := w } (.int n) =
      if r.head? = some '-' || r.head? = some '+' then
        .ok (r.take 1 ++ List.replicate (w - r.length) (fill.getD ' ') ++ r.drop 1)
      else .ok (List.replicate (w - r.length) (fill.getD ' ') ++ r) := by
    rw [aformat_aligned data w (.int n) r rfl (by rw [hinternal]; decide) hr,
      data_fmt_pad_wide data w r hw hlen, if_neg (by rw [hinternal]; decide),
      if_neg (by rw [hinternal]; decide), if_pos hinternal, hc]
  constructor
  · intro h
    rw [hpad, if_pos (by simpa using h)]
  · intro h
    rw [hpad, if_neg (by simpa using h)]

/-- Witness of `internal_padding`: `-5` and `+5` with fill `*` at width 6, and
`5` without sign. -/
theorem internal_padding_witness :
    aformat ⟨-1, 42, 2, -1, 6, -1, -1, -1⟩ (.int (-5)) = .ok "-****5".toList ∧
      aformat ⟨-1, 42, 2, 0, 6, -1, -1, -1⟩ (.int 5) = .ok "+****5".toList ∧
      aformat ⟨-1, 42, 2, -1, 6, -1, -1, -1⟩ (.int 5) = .ok "*****5".toList :=
  ⟨(internal_padding ⟨-1, 42, 2, -1, 6, -1, -1, -1⟩ (-5) (some '*') 6 "-5".toList
      (by decide) (by decide) (by decide) (by decide) (by decide) (by decide)).1 (by decide),
    (internal_padding ⟨-1, 42, 2, 0, 6, -1, -1, -1⟩ 5 (some '*') 6 "+5".toList
      (by decide) (by decide) (by decide) (by decide) (by decide) (by decide)).1 (by decide),
    (internal_padding ⟨-1, 42, 2, -1, 6, -1, -1, -1⟩ 5 (some '*') 6 "5".toList
      (by decide) (by decide) (by decide) (by decide) (by decide) (by decide)).2 (by decide)⟩

/-! ## A width numeral, a point and a precision numeral -/

/-- The width loop on a non-empty run of digits, from the unset accumulator. -/
theorem parse_width_digits (c : Char) (t pre B after : Str)
    (hA : ∀ x ∈ c :: t, isdigit x = true) (hB : no_digit_ahead B) (fuel : Nat)
    (hfuel : (c :: t).length ≤ fuel) :
    parse_width ⟨pre ++ (c :: t ++ B), after⟩ fuel pre.length (-1) =
      ((decimal_value (c :: t) : Int), pre.length + (c :: t).length) := by
  cases fuel with
  | zero => simp at hfuel
  | succ fuel =>
    have hc := hA c (List.mem_cons_self _ _)
    have hget : string_view.get ⟨pre ++ (c :: t ++ B), after⟩ pre.length = c :=
      get_append_cons pre c (t ++ B) after
    have hgo : (decide (pre.length < string_view.size ⟨pre ++ (c :: t ++ B), after⟩) &&
        isdigit (string_view.get ⟨pre ++ (c :: t ++ B), after⟩ pre.length)) = true := by
      rw [hget, hc]
      simp [string_view.size]
    unfold parse_width
    rw [if_pos hgo, hget]
    have hm : ((if (-1 : Int) = -1 then 0 else (-1 : Int)) * 10 + (int_of_char c - 48)) =
        ((0 * 10 + (c.toNat - 48) : Nat) : Int) := by
      simp only [isdigit, Bool.and_eq_true, decide_eq_true_eq] at hc
      unfold int_of_char
      simp only [if_true]
      omega
    have htext : pre ++ (c :: t ++ B) = (pre ++ [c]) ++ (t ++ B) := by simp
    have hlen : pre.length + 1 = (pre ++ [c]).length := by simp
    rw [hm, htext, hlen, parse_width_run B after hB t
      (fun x hx => hA x (List.mem_cons_of_mem _ hx)) (pre ++ [c]) fuel _
      (by simpa using hfuel)]
    simp only [decimal_value, List.foldl_cons, List.length_append, List.length_cons,
      List.length_nil]
    congr 1
    omega

/-- The precision loop on a run of digits. -/
theorem parse_precision_run (B after : Str) (hB : no_digit_ahead B) :
    ∀ (A : Str), (∀ c ∈ A, isdigit c = true) → ∀ (pre : Str) (fuel m : Nat), A.length ≤ fuel →
      parse_precision ⟨pre ++ (A ++ B), after⟩ fuel pre.length (m : Int) =
        (((A.foldl (fun a c => a * 10 + (c.toNat - 48)) m : Nat) : Int),
          pre.length + A.length) := by
  intro A
  induction A with
  | nil =>
    intro _ pre fuel m _
    cases fuel with
    | zero => rfl
    | succ fuel =>
      unfold parse_precision
      have hstop : (decide (pre.length < string_view.size ⟨pre ++ ([] ++ B), after⟩) &&
          isdigit (string_view.get ⟨pre ++ ([] ++ B), after⟩ pre.length)) = false := by
        cases B with
        | nil => simp [string_view.size]
        | cons b B =>
          have hb := hB b rfl
          simp only [List.nil_append, get_append_cons, hb, Bool.and_false]
      rw [hstop]
      rfl
  | cons c t ih =>
    intro hA pre fuel m hfuel
    cases fuel with
    | zero => simp at hfuel
    | succ fuel =>
      have hc := hA c (List.mem_cons_self _ _)
      have hget : string_view.get ⟨pre ++ (c :: t ++ B), after⟩ pre.length = c :=
        get_append_cons pre c (t ++ B) after
      have hgo : (decide (pre.length < string_view.size ⟨pre ++ (c :: t ++ B), after⟩) &&
          isdigit (string_view.get ⟨pre ++ (c :: t ++ B), after⟩ pre.length)) = true := by
        rw [hget, hc]
        simp [string_view.size]
      unfold parse_precision
      rw [if_pos hgo, hget]
      have hm : ((m : Int) * 10 + (int_of_char c - 48)) =
          ((m * 10 + (c.toNat - 48) : Nat) : Int) := by
        simp only [isdigit, Bool.and_eq_true, decide_eq_true_eq] at hc
        unfold int_of_char
        omega
      have htext : pre ++ (c :: t ++ B) = (pre ++ [c]) ++ (t ++ B) := by simp
      have hlen : pre.length + 1 = (pre ++ [c]).length := by simp
      rw [hm, htext, hlen, ih (fun x hx => hA x (List.mem_cons_of_mem _ hx)) (pre ++ [c]) fuel _
        (by simpa using hfuel)]
      simp only [List.foldl_cons, List.length_append, List.length_cons, List.length_nil]
      congr 1
      omega

/-- A digit is no alignment and no sign character. -/
theorem isdigit_not_flag (c : Char) (h : isdigit c = true) :
    is_align c = false ∧ is_sign c = false := by
  simp only [isdigit, Bool.and_eq_true, decide_eq_true_eq] at h
  simp only [is_align, is_sign, Bool.or_eq_false_iff, decide_eq_false_iff_not]
  refine ⟨⟨⟨⟨?_, ?_⟩, ?_⟩, ?_⟩, ⟨?_, ?_⟩, ?_⟩ <;> (intro e; subst e; revert h; decide)

/-- A one-character step whose test fails leaves the scan as it is. -/
theorem spec_char_skip (v : string_view) (test : Char → Bool) (store : Data → Char → Data)
    (s : Scan) (h : test (v.get s.2) = false) : spec_char v test store s = .ok s := by
  unfold spec_char
  rw [h]
  rfl

/-- Claim C35: for a width numeral `W` (a non-empty run of digits that does
not start with `0`) and a precision numeral `P` (a run of digits, possibly
empty), the specifier `W.P` parses with the width slot set to the decimal
value of `W`, the precision slot to the decimal value of `P` (0 for the empty
run) and fill, alignment, sign and conversion unset.  The record holds the
mathematical values; inside `int` they are those of the source. -/
theorem width_precision_parse (W P after : Str) (d : Data) (hW : W ≠ [])
    (hWd : ∀ c ∈ W, isdigit c = true) (hW0 : W.head? ≠ some '0')
    (hPd : ∀ c ∈ P, isdigit c = true) :
    parse_argument d ⟨':' :: (W ++ '.' :: P), after⟩ =
      (true, ⟨-1, -1, -1, -1, decimal_value W, decimal_value P, -1, -1⟩) := by
  cases W with
  | nil => exact absurd rfl hW
  | cons c t =>
    have hc := hWd c (List.mem_cons_self _ _)
    obtain ⟨hca, hcs⟩ := isdigit_not_flag c hc
    have hc0 : c ≠ '0' := fun e => hW0 (by rw [e]; rfl)
    have hpoint : no_digit_ahead ('.' :: P) := by
      intro x hx
      simp only [List.head?_cons, Option.some.injEq] at hx
      subst hx
      decide
    have hg0 : string_view.get ⟨c :: t ++ '.' :: P, after⟩ 0 = c := rfl
    have hg1 : is_align (string_view.get ⟨c :: t ++ '.' :: P, after⟩ 1) = false := by
      cases t with
      | nil => exact (by decide : is_align '.' = false)
      | cons c2 t2 =>
        exact (isdigit_not_flag c2 (hWd c2 (List.mem_cons_of_mem _ (List.mem_cons_self _ _)))).1
    have hsize : string_view.size ⟨c :: t ++ '.' :: P, after⟩ = (c :: t).length + (P.length + 1) := by
      simp only [string_view.size, List.length_append, List.length_cons]
    have hfill : spec_fill ⟨c :: t ++ '.' :: P, after⟩ Data.unset = (Data.unset, 0) := by
      unfold spec_fill
      rw [hg1]
      simp
    have halign : spec_align ⟨c :: t ++ '.' :: P, after⟩ (Data.unset, 0) = .ok (Data.unset, 0) :=
      spec_char_skip _ _ _ _ (by
        show is_align (string_view.get ⟨c :: t ++ '.' :: P, after⟩ 0) = false
        rw [hg0]; exact hca)
    have hsign : spec_sign ⟨c :: t ++ '.' :: P, after⟩ (Data.unset, 0) = .ok (Data.unset, 0) :=
      spec_char_skip _ _ _ _ (by
        show is_sign (string_view.get ⟨c :: t ++ '.' :: P, after⟩ 0) = false
        rw [hg0]; exact hcs)
    have hzero : spec_zero ⟨c :: t ++ '.' :: P, after⟩ (Data.unset, 0) = .ok (Data.unset, 0) :=
      spec_char_skip _ _ _ _ (by
        show decide (string_view.get ⟨c :: t ++ '.' :: P, after⟩ 0 = '0') = false
        rw [hg0]; exact decide_eq_false hc0)
    have hw := parse_width_digits c t [] ('.' :: P) after hWd hpoint
      ((c :: t).length + (P.length + 1)) (by omega)
    simp only [List.nil_append, List.length_nil, Nat.zero_add] at hw
    have hwidth : spec_width ⟨c :: t ++ '.' :: P, after⟩ (Data.unset, 0) =
        .ok (⟨-1, -1, -1, -1, decimal_value (c :: t), -1, -1, -1⟩, (c :: t).length) := by
      unfold spec_width
      simp only [hsize, Nat.sub_zero, Data.unset, hw]
      rw [if_neg (by omega)]
    have hgp : string_view.get ⟨c :: t ++ '.' :: P, after⟩ (c :: t).length = '.' :=
      get_append_cons (c :: t) '.' P after
    have hp := parse_precision_run [] after (by intro x hx; cases hx) P hPd
      (c :: t ++ ['.']) P.length 0 (le_refl _)
    have htext : (c :: t ++ ['.']) ++ (P ++ []) = c :: t ++ '.' :: P := by simp
    have hplen : (c :: t ++ ['.']).length = (c :: t).length + 1 := by simp
    rw [htext, hplen] at hp
    have hprec : spec_precision ⟨c :: t ++ '.' :: P, after⟩
        (⟨-1, -1, -1, -1, decimal_value (c :: t), -1, -1, -1⟩, (c :: t).length) =
        .error (true, ⟨-1, -1, -1, -1, decimal_value (c :: t), decimal_value P, -1, -1⟩) := by
      unfold spec_precision
      simp only [hgp, if_true, hsize]
      have hfuel : (c :: t).length + (P.length + 1) - ((c :: t).length + 1) = P.length := by omega
      rw [hfuel]
      have hp0 : parse_precision ⟨c :: t ++ '.' :: P, after⟩ P.length ((c :: t).length + 1) 0 =
          ((decimal_value P : Int), (c :: t).length + 1 + P.length) := hp
      rw [hp0]
      rw [if_pos (by simp only; omega)]
    rw [parse_argument_spec]
    unfold parse_spec spec_steps
    rw [hfill, halign]
    simp only [Except.bind, hsign, hzero, hwidth, hprec]

/-- Witness of `width_precision_parse`: the specifiers `12.007` and `5.`. -/
theorem width_precision_parse_witness :
    parse_argument Data.unset ⟨":12.007".toList, ['\x7d']⟩ =
        (true, ⟨-1, -1, -1, -1, 12, 7, -1, -1⟩) ∧
      parse_argument Data.unset ⟨":5.".toList, ['\x7d']⟩ =
        (true, ⟨-1, -1, -1, -1, 5, 0, -1, -1⟩) :=
  ⟨width_precision_parse "12".toList "007".toList ['\x7d'] Data.unset (by decide) (by decide)
      (by decide) (by decide),
    width_precision_parse "5".toList [] ['\x7d'] Data.unset (by decide) (by decide)
      (by decide) (by decide)⟩

/-! ## A field that is not closed -/

/-- Two iterations of the loop on a template that ends inside its only field:
the text of the field is scanned again as literal text. -/
theorem vsformat_loop_open (to_double : Int → Floating) (args : List Arg) (fuel : Nat)
    (pre rest : Str) (k : Nat) (res : Str) (hpre : '{' ∉ pre) (hopen : '{' ∉ rest)
    (hclose : '}' ∉ rest) :
    vsformat_loop to_double args (fuel + 2) (pre ++ '{' :: rest) k res =
      match open_field_at to_double args k rest with
      | .error e => .error e
      | .ok s => .ok (res ++ pre ++ s ++ rest) := by
  have h1 : string_view.find_first_of ⟨pre ++ '{' :: rest, []⟩ '{' = some pre.length :=
    find_first_of_some hpre
  have h2 : string_view.find_first_of ⟨rest, []⟩ '}' = none := find_first_of_none hclose
  have h3 : string_view.find_first_of ⟨rest, []⟩ '{' = none := find_first_of_none hopen
  have hlast : ∀ (j : Nat) (r : Str), vsformat_loop to_double args (fuel + 1) rest j r =
      .ok (r ++ rest) := by
    intro j r
    simp only [vsformat_loop, h3]
  rw [vsformat_loop]
  simp only [h1, string_view.substr, drop_length_succ_append, List.drop_zero,
    take_length_append, h2, npos_succ, hlast, open_field_at]
  split_ifs <;> rfl

/-- Claim C36: for a template `pre` `{` `rest` in which `pre` has no `{` and
`rest` has neither `{` nor `}`, `vsformat` takes all of `rest` as the text of
the field, renders that field, and then copies `rest` to the output as literal
text: the result is `pre`, the rendering of the field, `rest` (or the error of
the field). -/
theorem unterminated_field_twice (to_double : Int → Floating) (args : List Arg)
    (pre rest : Str) (hpre : '{' ∉ pre) (hopen : '{' ∉ rest) (hclose : '}' ∉ rest) :
    vsformat to_double (pre ++ '{' :: rest) args =
      match open_field_at to_double args 0 rest with
      | .error e => .error e
      | .ok s => .ok (pre ++ s ++ rest) := by
  have hfuel : (pre ++ '{' :: rest).length + 1 = (pre.length + rest.length) + 2 := by
    simp only [List.length_append, List.length_cons]
    omega
  unfold vsformat
  rw [hfuel, vsformat_loop_open to_double args _ pre rest 0 [] hpre hopen hclose]
  simp only [List.nil_append]

/-- Witness of `unterminated_field_twice`: `x{0` with the argument 7 gives `x70`. -/
theorem unterminated_field_twice_witness :
    vsformat no_double "x\x7b0".toList [.int 7] = .ok "x70".toList :=
  (unterminated_field_twice no_double [.int 7] "x".toList "0".toList (by decide) (by decide)
    (by decide)).trans (by decide)

/-! ## A field without a colon that is no numeral -/

/-- The function `atoi` reads zero from a text that starts with no white space,
no sign and no digit. -/
theorem atoi_nonnumeric (c : Char) (x : Str) (hs : isspace c = false) (hp : c ≠ '+')
    (hm : c ≠ '-') (hd : isdigit c = false) : atoi (c :: x) = 0 := by
  have e : List.dropWhile isspace (c :: x) = c :: x := by
    simp [List.dropWhile, hs]
  unfold atoi
  rw [e]
  split
  · rename_i t h
    cases h
    exact absurd rfl hm
  · rename_i t h
    cases h
    exact absurd rfl hp
  · simp [digits_value, hd]

/-- The parse of a field text without a colon that starts with no white space,
no sign and no digit: success, with the index slot zero. -/
theorem parse_argument_nonnumeric (c : Char) (t after : Str) (d : Data)
    (hcolon : ':' ∉ c :: t) (hs : isspace c = false) (hp : c ≠ '+') (hm : c ≠ '-')
    (hd : isdigit c = false) :
    (parse_argument d ⟨c :: t, after⟩).1 = true ∧ (parse_argument d ⟨c :: t, after⟩).2.d0 = 0 := by
  have ha : ∀ x, atoi (c :: x) = 0 := fun x => atoi_nonnumeric c x hs hp hm hd
  unfold parse_argument
  rw [find_first_of_none hcolon]
  simp only [string_view.size, List.length_cons, ne_eq, Nat.add_one_ne_zero, not_false_eq_true,
    if_true, string_view.c_str, List.cons_append, ha, true_and]
  unfold parse_index
  cases hb : string_view.find_first_of ⟨c :: t, after⟩ '[' with
  | none => simp only [string_view.c_str, List.cons_append, ha]
  | some k =>
    simp only [string_view.substr, string_view.size, string_view.c_str, List.drop_zero]
    split_ifs <;>
      first
      | rfl
      | (simp only [← List.append_assoc, List.take_append_drop, List.cons_append, ha])

/-- Claim C37: a field text without a colon whose first character is no digit,
no sign and no white space parses with success and with the index slot equal
to 0, whatever follows the field; `vsformat` then renders argument 0 as for an
explicit index and goes on with the cursor it had. -/
theorem nonnumeric_field_selects_zero (to_double : Int → Floating) (args : List Arg)
    (fuel : Nat) (pre t rest : Str) (c : Char) (k : Nat) (res : Str) (d : Data)
    (hpre : '{' ∉ pre) (hclose : '}' ∉ c :: t) (hcolon : ':' ∉ c :: t)
    (hs : isspace c = false) (hp : c ≠ '+') (hm : c ≠ '-') (hd : isdigit c = false) :
    ((parse_argument d ⟨c :: t, '}' :: rest⟩).1 = true ∧
      (parse_argument d ⟨c :: t, '}' :: rest⟩).2.d0 = 0) ∧
    vsformat_loop to_double args (fuel + 1) (pre ++ '{' :: (c :: t ++ '}' :: rest)) k res =
      match aiformat to_double 0 (parse_argument Data.unset ⟨c :: t, '}' :: rest⟩).2 args with
      | .error e => .error e
      | .ok s => vsformat_loop to_double args fuel rest k (res ++ pre ++ s) := by
  have hparse := parse_argument_nonnumeric c t ('}' :: rest) Data.unset hcolon hs hp hm hd
  refine ⟨parse_argument_nonnumeric c t ('}' :: rest) d hcolon hs hp hm hd, ?_⟩
  rw [vsformat_loop_field to_double args fuel pre (c :: t) rest k res hpre hclose,
    if_neg (by rw [hparse.1]; decide), if_pos (by rw [hparse.2]; decide), hparse.2]
  rfl

/-- Witness of `nonnumeric_field_selects_zero`: the field text `abc`, and the
template `a{abc}b` with the arguments 7 and 8 from the cursor 1. -/
theorem nonnumeric_field_selects_zero_witness :
    ((parse_argument Data.unset ⟨"abc".toList, ['\x7d', 'b']⟩).1 = true ∧
      (parse_argument Data.unset ⟨"abc".toList, ['\x7d', 'b']⟩).2.d0 = 0) ∧
    vsformat_loop no_double [.int 7, .int 8] 3 "a\x7babc\x7db".toList 1 [] = .ok "a7b".toList :=
  ⟨(nonnumeric_field_selects_zero no_double [.int 7, .int 8] 2 "a".toList "bc".toList
      "b".toList 'a' 1 [] Data.unset (by decide) (by decide) (by decide) (by decide) (by decide)
      (by decide) (by decide)).1,
    (nonnumeric_field_selects_zero no_double [.int 7, .int 8] 2 "a".toList "bc".toList
      "b".toList 'a' 1 [] Data.unset (by decide) (by decide) (by decide) (by decide) (by decide)
      (by decide) (by decide)).2.trans (by decide)⟩

/-! ## The conversion codes of the parser and the branches of `acdformat` -/

/-- Every conversion character of the parser has a branch in `acdformat`. -/
theorem conversion_characters_handled :
    ∀ x ∈ conversion_characters.map int_of_char, acdformat_handles x = true := by
  decide

/-- Claim C39: for the record of every parse (successful or not) the
conversion slot is unset or a code for which `acdformat` has a branch; the last
branch of `acdformat`, which returns the empty string, is taken only for a
code without a branch, so it is never taken for a record that comes from
`parse_argument`. -/
theorem conversion_always_handled (to_double : Int → Floating) (d : Data) (f after : Str) :
    acdformat_handles (parse_argument d ⟨f, after⟩).2.d6 = true ∧
      (∀ (data : Data) (a : Arg), acdformat_handles data.d6 = false →
        acdformat to_double data a = .ok []) ∧
      (∀ (data : Data) (a : Arg), acdformat_handles data.d6 = true →
        acdformat to_double data a = aformat data a ∨
          ∃ U, acdformat to_double data a = acformat to_double U data a) := by
  refine ⟨?_, ?_, ?_⟩
  · have h := (parse_argument_slots (2 ^ 31) (by decide) d f after (fun c _ => by
      have := char_toNat_lt c
      unfold int_of_char
      exact_mod_cast this)).1.2.2.2.2.2
    rcases h with h | h
    · rw [h]; rfl
    · exact conversion_characters_handled _ h
  · intro data a h
    simp only [acdformat_handles, Bool.or_eq_false_iff, decide_eq_false_iff_not] at h
    obtain ⟨⟨⟨⟨h1, h2⟩, ⟨⟨⟨⟨⟨⟨h3, h4⟩, h5⟩, h6⟩, h7⟩, h8⟩, h9⟩⟩, ⟨⟨⟨⟨h10, h11⟩, h12⟩, h13⟩, h14⟩⟩, h15⟩ := h
    unfold acdformat
    simp [h1, h2, h3, h4, h5, h6, h7, h8, h9, h10, h11, h12, h13, h14, h15]
  · intro data a h
    unfold acdformat
    split_ifs
    · exact Or.inl rfl
    · exact Or.inl rfl
    · exact Or.inr ⟨_, rfl⟩
    · exact Or.inl rfl
    · exact Or.inr ⟨_, rfl⟩
    · exact Or.inl rfl
    · exact Or.inr ⟨_, rfl⟩
    · rename_i n1 n2 n3 n4
      exfalso
      simp only [acdformat_handles, Bool.or_eq_true, decide_eq_true_eq] at h
      simp only [Bool.or_eq_true, decide_eq_true_eq] at n1 n2 n3
      tauto

/-! ## Termination of the template expander -/

theorem aformat_terminates (data : Data) (argument : Arg) :
    terminates (aformat data argument) := by
  intro h
  rcases library_failure_aformat data argument _ h with e | e <;> cases e

theorem acformat_terminates (to_double : Int → Floating) (U : Target) (data : Data)
    (argument : Arg) : terminates (acformat to_double U data argument) := by
  unfold acformat
  split
  · exact aformat_terminates _ _
  · intro h; cases h

theorem acdformat_terminates (to_double : Int → Floating) (data : Data) (argument : Arg) :
    terminates (acdformat to_double data argument) := by
  unfold acdformat
  repeat' split
  all_goals first
    | exact aformat_terminates _ _
    | exact acformat_terminates _ _ _ _
    | (intro h; cases h)

theorem asformat_terminates (to_double : Int → Floating) (data : Data) (argument : Arg) :
    terminates (asformat to_double data argument) := by
  unfold asformat
  split
  · split
    · exact acdformat_terminates _ _ _
    · cases h : argument.subscript data.d7 with
      | error e =>
        rw [arg_subscript_error h]
        intro h2
        simp [Except.bind] at h2
      | ok a => exact acdformat_terminates _ _ _
  · split
    · intro h; cases h
    · exact acdformat_terminates _ _ _

theorem aiformat_from_terminates (to_double : Int → Floating) (count : Nat) (data : Data) :
    ∀ (args : List Arg) (i : Nat), terminates (aiformat_from to_double count i data args) := by
  intro args
  induction args with
  | nil =>
    intro i h
    cases i <;> simp [aiformat_from] at h
  | cons a rest ih =>
    intro i
    cases i with
    | zero => exact asformat_terminates _ _ _
    | succ j => exact ih j

theorem aiformat_terminates (to_double : Int → Floating) (i : Nat) (data : Data)
    (args : List Arg) : terminates (aiformat to_double i data args) :=
  aiformat_from_terminates to_double args.length data args i

/-- The text left to scan after one iteration has fewer opening braces. -/
theorem vsformat_rest_count (text : Str) (pos : Nat)
    (h : string_view.find_first_of ⟨text, []⟩ '{' = some pos) :
    ((string_view.substr ⟨text, []⟩ (pos + 1)).substr
      (npos_succ ((string_view.substr ⟨text, []⟩ (pos + 1)).find_first_of '}'))).text.count '{'
      < text.count '{' := by
  have hp := find_first_of_lt h
  have hidx : pos = text.indexOf '{' := by
    unfold string_view.find_first_of at h
    split at h
    · cases h; rfl
    · cases h
  have hget : text[pos] = '{' := by
    subst hidx
    exact List.getElem_indexOf hp
  have hsplit : text = text.take pos ++ '{' :: text.drop (pos + 1) := by
    conv_lhs => rw [← List.take_append_drop pos text, List.drop_eq_getElem_cons hp, hget]
  have hle : ((text.drop (pos + 1)).drop
      (npos_succ (string_view.find_first_of ⟨text.drop (pos + 1), []⟩ '}'))).count '{' ≤
      (text.drop (pos + 1)).count '{' :=
    List.Sublist.count_le (List.drop_sublist _ _) _
  have hcount : text.count '{' =
      (text.take pos).count '{' + ((text.drop (pos + 1)).count '{' + 1) := by
    conv_lhs => rw [hsplit]
    rw [List.count_append, List.count_cons_self]
  simp only [string_view.substr]
  omega

/-- With more fuel than the text has opening braces the loop comes to an end,
with the result it has under the fuel of `vsformat`. -/
theorem vsformat_loop_total (to_double : Int → Floating) (args : List Arg) :
    ∀ (n : Nat) (text : Str), text.length ≤ n → ∀ (fuel k : Nat) (res : Str),
      text.count '{' < fuel →
      terminates (vsformat_loop to_double args fuel text k res) ∧
        vsformat_loop to_double args fuel text k res =
          vsformat_loop to_double args (text.length + 1) text k res := by
  intro n
  induction n with
  | zero =>
    intro text hlen fuel k res hfuel
    have ht : text = [] := List.length_eq_zero.mp (by omega)
    subst ht
    cases fuel with
    | zero => simp at hfuel
    | succ m =>
      constructor
      · intro h
        simp [vsformat_loop, string_view.find_first_of] at h
      · simp [vsformat_loop, string_view.find_first_of]
  | succ n ih =>
    intro text hlen fuel k res hfuel
    cases fuel with
    | zero => omega
    | succ m =>
      simp only [vsformat_loop]
      cases hfind : string_view.find_first_of ⟨text, []⟩ '{' with
      | none => exact ⟨fun h => (by cases h), rfl⟩
      | some pos =>
        have hl := vsformat_rest_length text pos hfind
        have hc := vsformat_rest_count text pos hfind
        simp only
        generalize ((string_view.substr ⟨text, []⟩ (pos + 1)).substr (npos_succ
          ((string_view.substr ⟨text, []⟩ (pos + 1)).find_first_of '}'))).text = rest
          at hl hc ⊢
        have hrec : ∀ (j : Nat) (r : Str),
            terminates (vsformat_loop to_double args m rest j r) ∧
            vsformat_loop to_double args m rest j r =
              vsformat_loop to_double args text.length rest j r := by
          intro j r
          obtain ⟨t1, t2⟩ := ih rest (by omega) m j r (by omega)
          refine ⟨t1, ?_⟩
          rw [t2]
          exact vsformat_loop_fuel to_double args (rest.length + 1) text.length rest j r
            (Nat.lt_succ_self _) hl
        generalize parse_argument Data.unset (string_view.substr ⟨text, []⟩ (pos + 1)
          ((string_view.substr ⟨text, []⟩ (pos + 1)).find_first_of '}')) = parsed
        by_cases hparse : parsed.1 = false
        · rw [if_pos hparse, if_pos hparse]
          exact ⟨fun h => (by cases h), rfl⟩
        · rw [if_neg hparse, if_neg hparse]
          by_cases hidx : parsed.2.d0 ≠ -1
          · rw [if_pos hidx, if_pos hidx]
            have hterm := aiformat_terminates to_double (size_t parsed.2.d0) parsed.2 args
            generalize aiformat to_double (size_t parsed.2.d0) parsed.2 args = q at hterm ⊢
            cases q with
            | error e => exact ⟨hterm, rfl⟩
            | ok s => exact hrec _ _
          · rw [if_neg hidx, if_neg hidx]
            have hterm := aiformat_terminates to_double k parsed.2 args
            generalize aiformat to_double k parsed.2 args = q at hterm ⊢
            cases q with
            | error e => exact ⟨hterm, rfl⟩
            | ok s => exact hrec _ _

/-! ## The characters the scan of a specifier reads -/

/-- Inside the view `operator[]` does not see what lies behind the view. -/
theorem get_inside (t a1 a2 : Str) (i : Nat) (h : i < t.length) :
    string_view.get ⟨t, a1⟩ i = string_view.get ⟨t, a2⟩ i := by
  unfold string_view.get
  rw [List.getD_append _ _ _ _ h, List.getD_append _ _ _ _ h]

theorem inside_parse_width (t a1 a2 : Str) :
    ∀ (fuel i : Nat) (a : Int), parse_width ⟨t, a1⟩ fuel i a = parse_width ⟨t, a2⟩ fuel i a := by
  intro fuel
  induction fuel with
  | zero => intro i a; rfl
  | succ n ih =>
    intro i a
    simp only [parse_width, string_view.size]
    by_cases hi : i < t.length
    · rw [get_inside t a1 a2 i hi, ih]
    · simp [hi]

theorem inside_parse_precision (t a1 a2 : Str) :
    ∀ (fuel i : Nat) (a : Int),
      parse_precision ⟨t, a1⟩ fuel i a = parse_precision ⟨t, a2⟩ fuel i a := by
  intro fuel
  induction fuel with
  | zero => intro i a; rfl
  | succ n ih =>
    intro i a
    simp only [parse_precision, string_view.size]
    by_cases hi : i < t.length
    · rw [get_inside t a1 a2 i hi, ih]
    · simp [hi]

theorem inside_spec_fill (t a1 a2 : Str) (data : Data) :
    spec_fill ⟨t, a1⟩ data = spec_fill ⟨t, a2⟩ data := by
  unfold spec_fill
  simp only [string_view.size]
  by_cases hs : t.length > 2
  · rw [get_inside t a1 a2 1 (by omega), get_inside t a1 a2 0 (by omega)]
  · simp [hs]

/-- In a specifier that is not empty the fill step leaves the scan inside. -/
theorem spec_fill_lt (t a : Str) (data : Data) (ht : t ≠ []) :
    (spec_fill ⟨t, a⟩ data).2 < t.length := by
  have hpos : 0 < t.length := List.length_pos.mpr ht
  unfold spec_fill
  split
  · rename_i hc
    simp only [Bool.and_eq_true, decide_eq_true_eq, string_view.size] at hc
    simp only [zero_add]
    omega
  · exact hpos

theorem inside_spec_char (t a1 a2 : Str) (test : Char → Bool) (store : Data → Char → Data)
    (s : Scan) (hs : s.2 < t.length) :
    spec_char ⟨t, a1⟩ test store s = spec_char ⟨t, a2⟩ test store s := by
  unfold spec_char
  simp only [string_view.size]
  rw [get_inside t a1 a2 s.2 hs]

/-- A one-character step that goes on leaves the scan inside the specifier. -/
theorem spec_char_lt (t a : Str) (test : Char → Bool) (store : Data → Char → Data)
    (s s1 : Scan) (hs : s.2 < t.length) (h : spec_char ⟨t, a⟩ test store s = .ok s1) :
    s1.2 < t.length := by
  unfold spec_char at h
  simp only [string_view.size] at h
  split at h
  · split at h
    · cases h
    · cases h; simp only; omega
  · cases h; exact hs

theorem inside_spec_width (t a1 a2 : Str) (s : Scan) :
    spec_width ⟨t, a1⟩ s = spec_width ⟨t, a2⟩ s := by
  unfold spec_width
  simp only [string_view.size]
  rw [inside_parse_width t a1 a2]

theorem inside_spec_precision (t a1 a2 : Str) (s : Scan) (hs : s.2 < t.length) :
    spec_precision ⟨t, a1⟩ s = spec_precision ⟨t, a2⟩ s := by
  unfold spec_precision
  simp only [string_view.size]
  rw [get_inside t a1 a2 s.2 hs, inside_parse_precision t a1 a2]

theorem inside_spec_conversion (t a1 a2 : Str) (s : Scan) (hs : s.2 < t.length) :
    spec_conversion ⟨t, a1⟩ s = spec_conversion ⟨t, a2⟩ s := by
  unfold spec_conversion
  simp only [string_view.size]
  rw [get_inside t a1 a2 s.2 hs]

/-- The scan of a specifier that is not empty does not depend on what lies
behind the specifier: every character it reads is inside. -/
theorem inside_parse_spec (t a1 a2 : Str) (data : Data) (ht : t ≠ []) :
    parse_spec data ⟨t, a1⟩ = parse_spec data ⟨t, a2⟩ := by
  unfold parse_spec spec_steps
  have h0 := spec_fill_lt t a1 data ht
  rw [inside_spec_fill t a1 a2] at h0 ⊢
  have e1 : spec_align ⟨t, a1⟩ (spec_fill ⟨t, a2⟩ data) =
      spec_align ⟨t, a2⟩ (spec_fill ⟨t, a2⟩ data) := inside_spec_char t a1 a2 _ _ _ h0
  rw [e1]
  cases h1 : spec_align ⟨t, a2⟩ (spec_fill ⟨t, a2⟩ data) with
  | error r => rfl
  | ok s1 =>
    have b1 : s1.2 < t.length := spec_char_lt t a2 _ _ _ _ h0 h1
    have e2 : spec_sign ⟨t, a1⟩ s1 = spec_sign ⟨t, a2⟩ s1 := inside_spec_char t a1 a2 _ _ _ b1
    simp only [Except.bind, e2]
    cases h2 : spec_sign ⟨t, a2⟩ s1 with
    | error r => rfl
    | ok s2 =>
      have b2 : s2.2 < t.length := spec_char_lt t a2 _ _ _ _ b1 h2
      have e3 : spec_zero ⟨t, a1⟩ s2 = spec_zero ⟨t, a2⟩ s2 := inside_spec_char t a1 a2 _ _ _ b2
      simp only [e3]
      cases h3 : spec_zero ⟨t, a2⟩ s2 with
      | error r => rfl
      | ok s3 =>
        have e4 : spec_width ⟨t, a1⟩ s3 = spec_width ⟨t, a2⟩ s3 := inside_spec_width t a1 a2 s3
        simp only [e4]
        cases h4 : spec_width ⟨t, a2⟩ s3 with
        | error r => rfl
        | ok s4 =>
          have b4 : s4.2 < t.length := spec_width_lt ⟨t, a2⟩ _ _ h4
          have e5 : spec_precision ⟨t, a1⟩ s4 = spec_precision ⟨t, a2⟩ s4 :=
            inside_spec_precision t a1 a2 s4 b4
          simp only [e5]
          cases h5 : spec_precision ⟨t, a2⟩ s4 with
          | error r => rfl
          | ok s5 =>
            have b5 : s5.2 < t.length := spec_precision_lt ⟨t, a2⟩ _ _ h5
            simp only [inside_spec_conversion t a1 a2 s5 b5]

/-- Claim C38 holds for every specifier that is not empty and fails for the
empty one: the scan of a specifier that is not empty gives the same result
whatever lies behind it, so it reads only inside; on the empty specifier (the
fields `:` and `0:`) the alignment step reads `fmt[0]`, the character behind
the view, and the result depends on it. -/
theorem specifier_reads (t a1 a2 : Str) (data d : Data) (ht : t ≠ []) :
    parse_spec data ⟨t, a1⟩ = parse_spec data ⟨t, a2⟩ ∧
      string_view.size ⟨[], ['<']⟩ = 0 ∧
      (parse_spec data ⟨[], ['<']⟩).2.d2 = 0 ∧
      (parse_spec data ⟨[], ['+']⟩).2.d3 = 0 ∧
      parse_argument d ⟨[':'], ['<']⟩ = (true, ⟨-1, -1, 0, -1, -1, -1, -1, -1⟩) ∧
      parse_argument d ⟨['0', ':'], ['<']⟩ = (true, ⟨0, -1, 0, -1, -1, -1, -1, -1⟩) ∧
      parse_argument d ⟨[':'], ['\x7d']⟩ = (true, ⟨-1, -1, -1, -1, -1, -1, -1, -1⟩) := by
  refine ⟨inside_parse_spec t a1 a2 data ht, rfl, ?_, ?_, ?_, ?_, ?_⟩
  · simp [parse_spec, spec_steps, spec_fill, spec_align, spec_char, string_view.size,
      string_view.get, is_align, Except.bind, align_code]
  · simp [parse_spec, spec_steps, spec_fill, spec_align, spec_sign, spec_char, string_view.size,
      string_view.get, is_align, is_sign, Except.bind, sign_code]
  · have p : parse_argument Data.unset ⟨[':'], ['<']⟩ =
        (true, ⟨-1, -1, 0, -1, -1, -1, -1, -1⟩) := by decide
    exact p
  · have p : parse_argument Data.unset ⟨['0', ':'], ['<']⟩ =
        (true, ⟨0, -1, 0, -1, -1, -1, -1, -1⟩) := by decide
    exact p
  · have p : parse_argument Data.unset ⟨[':'], ['\x7d']⟩ =
        (true, ⟨-1, -1, -1, -1, -1, -1, -1, -1⟩) := by decide
    exact p

/-- Witness of `specifier_reads`: the specifier `*<5` in front of two different
buffers. -/
theorem specifier_reads_witness :
    parse_spec Data.unset ⟨"*<5".toList, ['<']⟩ = parse_spec Data.unset ⟨"*<5".toList, ['\x7d']⟩ ∧
      (parse_spec Data.unset ⟨[], ['<']⟩).2.d2 = 0 :=
  ⟨(specifier_reads "*<5".toList ['<'] ['\x7d'] Data.unset Data.unset (by decide)).1,
    (specifier_reads "*<5".toList ['<'] ['\x7d'] Data.unset Data.unset (by decide)).2.2.1⟩

/-! ## The substitution loop of the logger -/

/-- The search finds the pattern exactly when the pattern occurs. -/
theorem string_find_isSome (pat : Str) : ∀ (src : Str),
    (string_find src pat).isSome = true ↔ pat <:+: src := by
  intro src
  induction src with
  | nil =>
    unfold string_find
    by_cases hp : pat = []
    · subst hp
      simp
    · simp [hp]
  | cons c src ih =>
    unfold string_find
    rw [List.infix_cons_iff]
    by_cases hpre : pat.isPrefixOf (c :: src) = true
    · rw [if_pos hpre]
      simp only [Option.isSome_some, true_iff]
      exact Or.inl (List.isPrefixOf_iff_prefix.mp hpre)
    · rw [if_neg hpre]
      have hnp : ¬ pat <+: c :: src := fun h => hpre (List.isPrefixOf_iff_prefix.mpr h)
      simp only [Option.isSome_map', ih]
      constructor
      · exact Or.inr
      · rintro (h | h)
        · exact absurd h hnp
        · exact h

/-- A text without the pattern: the search fails. -/
theorem string_find_none (pat src : Str) (h : ¬ pat <:+: src) : string_find src pat = none := by
  cases hf : string_find src pat with
  | none => rfl
  | some i =>
    have := (string_find_isSome pat src).mp (by rw [hf]; rfl)
    exact absurd this h

/-- A replacement that holds the pattern puts the pattern back. -/
theorem string_replace_contains (src pat rep : Str) (i n : Nat) (hrep : pat <:+: rep) :
    pat <:+: string_replace src i n rep := by
  unfold string_replace
  exact List.IsInfix.trans hrep ⟨src.take i, src.drop (i + n), rfl⟩

/-- With the pattern in the text and in the replacement the loop does not meet
its `break`, whatever the fuel. -/
theorem ReplaceSubString_none (pat rep : Str) (hrep : pat <:+: rep) :
    ∀ (fuel : Nat) (src : Str), pat <:+: src → ReplaceSubString fuel src pat rep = none := by
  intro fuel
  induction fuel with
  | zero => intro src _; rfl
  | succ n ih =>
    intro src hsrc
    unfold ReplaceSubString
    cases hf : string_find src pat with
    | none =>
      have := (string_find_isSome pat src).mpr hsrc
      rw [hf] at this
      cases this
    | some i => exact ih _ (string_replace_contains src pat rep i pat.length hrep)

/-- Claim C40: in `ReplaceSubString`, when the replacement text contains the
pattern, every replacement leaves a text that contains the pattern again, so
from a source that contains the pattern the loop never meets its `break`
(there is no fuel under which it returns); and from a source that does not
contain the pattern the first search fails and the source is returned as it
is, with no replacement. -/
theorem replace_loop (src pat rep : Str) (hrep : pat <:+: rep) :
    (∀ (s : Str) (i : Nat), string_find s pat = some i →
        pat <:+: string_replace s i pat.length rep) ∧
      (pat <:+: src → ∀ fuel, ReplaceSubString fuel src pat rep = none) ∧
      (¬ pat <:+: src → ∀ fuel, ReplaceSubString (fuel + 1) src pat rep = some src) := by
  refine ⟨fun s i _ => string_replace_contains s pat rep i pat.length hrep,
    fun hsrc fuel => ReplaceSubString_none pat rep hrep fuel src hsrc, fun hsrc fuel => ?_⟩
  unfold ReplaceSubString
  rw [string_find_none pat src hsrc]

/-- Witness of `replace_loop`: the pattern `__BODY__`, a log body that contains
it, and a log format with and without the pattern. -/
theorem replace_loop_witness :
    ReplaceSubString 1000 "[INFO] (a.cpp:main:12) __BODY__".toList "__BODY__".toList
        "see __BODY__ here".toList = none ∧
      ReplaceSubString 1 "[INFO] (a.cpp:main:12)".toList "__BODY__".toList
        "see __BODY__ here".toList = some "[INFO] (a.cpp:main:12)".toList :=
  ⟨(replace_loop "[INFO] (a.cpp:main:12) __BODY__".toList "__BODY__".toList
      "see __BODY__ here".toList (by decide)).2.1 (by decide) 1000,
    (replace_loop "[INFO] (a.cpp:main:12)".toList "__BODY__".toList
      "see __BODY__ here".toList (by decide)).2.2 (by decide) 0⟩

/-! ## The slots of a parsed field and the range of `int` -/

/-- Claim C28, as the code has it: the invariant holds as long as the
arithmetic of the parser stays inside `int`.  For every field text of at most
nine 7-bit characters, and whatever the record held before the call, each of
the fill, alignment, sign, width, precision and conversion slots is `-1` or a
valid value of its field, and the width and the precision are values of
`int`.  The digit runs have no bound, though.  The field `:2147483648` parses
with success, and the value `2 ^ 31` of its width digits is not a value of
`int`: the accumulation of line 1045 overflows at the tenth digit (undefined
behaviour), and the `int` that two's-complement arithmetic leaves in the
width slot is `-2147483648`, a negative width.  The field `:.2147483648` does
the same to the precision slot at line 1055. -/
theorem parsed_slots_within_int (d : Data) (f after : Str) (hascii : ∀ c ∈ f, c.toNat < 128)
    (hlen : f.length ≤ 9) :
    (slots_in_range 128 (parse_argument d ⟨f, after⟩).2 ∧
      is_int (parse_argument d ⟨f, after⟩).2.d4 ∧
      is_int (parse_argument d ⟨f, after⟩).2.d5) ∧
    ((parse_argument d ⟨":2147483648".toList, ['\x7d']⟩).1 = true ∧
      (parse_argument d ⟨":.2147483648".toList, ['\x7d']⟩).1 = true ∧
      ¬ is_int (decimal_value "2147483648".toList) ∧
      wrap_signed 32 (decimal_value "2147483648".toList) = -2147483648) := by
  refine ⟨?_, ?_, ?_, by decide, by decide⟩
  · obtain ⟨h1, h2, h3⟩ := parse_argument_slots 128 (by decide) d f after (fun c hc => by
      have := hascii c hc
      unfold int_of_char
      exact_mod_cast this)
    have hpow : ((10 ^ f.length : Nat) : Int) ≤ 2 ^ 31 := by
      have h9 : 10 ^ f.length ≤ 10 ^ 9 := Nat.pow_le_pow_right (by decide) hlen
      have : ((10 ^ f.length : Nat) : Int) ≤ ((10 ^ 9 : Nat) : Int) := Int.ofNat_le.mpr h9
      exact le_trans this (by decide)
    have g4 : -1 ≤ (parse_argument d ⟨f, after⟩).2.d4 := by
      rcases h1.2.2.2.1 with e | e
      · rw [e]
      · exact le_trans (by decide) e
    have g5 : -1 ≤ (parse_argument d ⟨f, after⟩).2.d5 := by
      rcases h1.2.2.2.2.1 with e | e
      · rw [e]
      · exact le_trans (by decide) e
    exact ⟨h1, ⟨le_trans (by decide) g4, lt_of_lt_of_le h2 hpow⟩,
      ⟨le_trans (by decide) g5, lt_of_lt_of_le h3 hpow⟩⟩
  · rw [parse_argument_closed ":2147483648".toList [] d Data.unset]
    decide
  · rw [parse_argument_closed ":.2147483648".toList [] d Data.unset]
    decide

/-- Witness of `parsed_slots_within_int`: the field `:*<+08.3x` of nine
characters, read into a record that held other values. -/
theorem parsed_slots_within_int_witness :
    (parse_argument ⟨7, 7, 7, 7, 7, 7, 7, 7⟩ ⟨":*<+08.3x".toList, ['\x7d']⟩).1 = true ∧
      slots_in_range 128
        (parse_argument ⟨7, 7, 7, 7, 7, 7, 7, 7⟩ ⟨":*<+08.3x".toList, ['\x7d']⟩).2 ∧
      is_int (parse_argument ⟨7, 7, 7, 7, 7, 7, 7, 7⟩ ⟨":*<+08.3x".toList, ['\x7d']⟩).2.d4 ∧
      is_int (parse_argument ⟨7, 7, 7, 7, 7, 7, 7, 7⟩ ⟨":*<+08.3x".toList, ['\x7d']⟩).2.d5 :=
  ⟨by decide,
    (parsed_slots_within_int ⟨7, 7, 7, 7, 7, 7, 7, 7⟩ ":*<+08.3x".toList ['\x7d'] (by decide)
      (by decide)).1⟩

/-! ## Text arguments under the conversion layer -/

/-- Claim C14, as the code has it: for a C string or a `std::string`,
`acdformat` throws the unsupported-conversion error under every conversion
character of the integer family (target `int`), of the floating family (target
`double`) and under `c` (target `char`).  Without conversion character and
under `s` it formats the argument itself, that is, it is `aformat`; it throws
no error of its own, but it does not raise nothing: what `aformat` raises comes
through (a `std::length_error` or undefined behaviour), and the generic
formatter of a `std::string` under center alignment without width throws
`std::length_error`. -/
theorem text_conversion_outcome (to_double : Int → Floating) (data : Data) (argument : Arg)
    (htext : argument.ty = .c_str ∨ argument.ty = .string) :
    (∀ c ∈ ['x', 'X', 'o', 'b', 'd'], data.d6 = int_of_char c →
        acdformat to_double data argument =
          .error (.invalid_argument (conversion_message data argument.ty .int))) ∧
      (∀ c ∈ ['e', 'E', 'f', 'F', 'g', 'G', '%'], data.d6 = int_of_char c →
        acdformat to_double data argument =
          .error (.invalid_argument (conversion_message data argument.ty .double))) ∧
      (data.d6 = int_of_char 'c' →
        acdformat to_double data argument =
          .error (.invalid_argument (conversion_message data argument.ty .char))) ∧
      (data.d6 = -1 ∨ data.d6 = int_of_char 's' →
        acdformat to_double data argument = aformat data argument ∧
          library_failure (acdformat to_double data argument)) ∧
      acdformat to_double ⟨-1, -1, 3, -1, -1, -1, -1, -1⟩ (.string "abc".toList) =
        .error .length_error ∧
      acdformat to_double ⟨-1, -1, 3, -1, -1, -1, int_of_char 's', -1⟩ (.string "abc".toList) =
        .error .length_error := by
  have hconv : is_convertible argument = false := by
    cases argument <;> simp [Arg.ty] at htext <;> rfl
  obtain ⟨h1, h2, h3, h4⟩ := acdformat_not_convertible to_double data argument hconv
  refine ⟨h1, h2, h3, fun h6 => ⟨h4 h6, (h4 h6) ▸ library_failure_aformat _ _⟩, ?_, ?_⟩
  · have e : acdformat to_double ⟨-1, -1, 3, -1, -1, -1, -1, -1⟩ (.string "abc".toList) =
        aformat ⟨-1, -1, 3, -1, -1, -1, -1, -1⟩ (.string "abc".toList) := rfl
    rw [e]
    decide
  · have e : acdformat to_double ⟨-1, -1, 3, -1, -1, -1, int_of_char 's', -1⟩
        (.string "abc".toList) =
        aformat ⟨-1, -1, 3, -1, -1, -1, int_of_char 's', -1⟩ (.string "abc".toList) := rfl
    rw [e]
    decide

/-- Witness of `text_conversion_outcome`: a C string under `x` and under `s`. -/
theorem text_conversion_outcome_witness :
    acdformat no_double ⟨0, -1, -1, -1, -1, -1, 120, -1⟩ (.c_str "ab".toList) =
        .error (.invalid_argument
          "argument index (which is 0) of type char const* is not convertable to type of int".toList) ∧
      acdformat no_double ⟨0, -1, -1, -1, -1, -1, 115, -1⟩ (.c_str "ab".toList) =
        aformat ⟨0, -1, -1, -1, -1, -1, 115, -1⟩ (.c_str "ab".toList) :=
  ⟨(text_conversion_outcome no_double ⟨0, -1, -1, -1, -1, -1, 120, -1⟩ (.c_str "ab".toList)
      (Or.inl rfl)).1 'x' (by decide) rfl,
    ((text_conversion_outcome no_double ⟨0, -1, -1, -1, -1, -1, 115, -1⟩ (.c_str "ab".toList)
      (Or.inl rfl)).2.2.2.1 (Or.inr rfl)).1⟩

/-! ## The outcomes of the template expander -/

theorem expansion_outcome_library {r : Res} (h : library_failure r) : expansion_outcome r := by
  intro e he
  rcases h e he with h1 | h1
  · exact Or.inr (Or.inr h1)
  · exact Or.inr (Or.inl h1)

theorem aformat_outcome (data : Data) (argument : Arg) :
    expansion_outcome (aformat data argument) :=
  expansion_outcome_library (library_failure_aformat data argument)

theorem acformat_outcome (to_double : Int → Floating) (U : Target) (data : Data)
    (argument : Arg) : expansion_outcome (acformat to_double U data argument) := by
  unfold acformat
  split
  · exact aformat_outcome _ _
  · intro e h
    cases h
    exact Or.inl (Or.inr (Or.inr (Or.inr ⟨data, argument.ty, U.ty, rfl⟩)))

theorem acdformat_outcome (to_double : Int → Floating) (data : Data) (argument : Arg) :
    expansion_outcome (acdformat to_double data argument) := by
  unfold acdformat
  repeat' split
  all_goals first
    | exact aformat_outcome _ _
    | exact acformat_outcome _ _ _ _
    | (intro e h; cases h)

theorem asformat_outcome (to_double : Int → Floating) (data : Data) (argument : Arg) :
    expansion_outcome (asformat to_double data argument) := by
  unfold asformat
  split
  · split
    · exact acdformat_outcome _ _ _
    · cases h : argument.subscript data.d7 with
      | error e =>
        rw [arg_subscript_error h]
        intro e2 h2
        simp only [Except.bind] at h2
        cases h2
        exact Or.inr (Or.inr rfl)
      | ok a => exact acdformat_outcome _ _ _
  · split
    · intro e h
      cases h
      exact Or.inl (Or.inr (Or.inr (Or.inl ⟨data, argument.ty, rfl⟩)))
    · exact acdformat_outcome _ _ _

theorem aiformat_from_outcome (to_double : Int → Floating) (count : Nat) (data : Data) :
    ∀ (args : List Arg) (i : Nat),
      expansion_outcome (aiformat_from to_double count i data args) := by
  intro args
  induction args with
  | nil =>
    intro i e h
    cases i <;> simp only [aiformat_from] at h <;> cases h <;>
      exact Or.inl (Or.inr (Or.inl ⟨_, rfl⟩))
  | cons a rest ih =>
    intro i
    cases i with
    | zero => exact asformat_outcome _ _ _
    | succ j => exact ih j

theorem aiformat_outcome (to_double : Int → Floating) (i : Nat) (data : Data)
    (args : List Arg) : expansion_outcome (aiformat to_double i data args) :=
  aiformat_from_outcome to_double args.length data args i

/-- Whatever the fuel, an error of the loop is the exhaustion of the fuel, one
of the errors of the expansion or a failure of the library. -/
theorem vsformat_loop_outcome (to_double : Int → Floating) (args : List Arg) :
    ∀ (fuel : Nat) (text : Str) (k : Nat) (res : Str) (e : Err),
      vsformat_loop to_double args fuel text k res = .error e →
        e = .out_of_fuel ∨ expansion_error e ∨ e = .length_error ∨ e = .undefined := by
  intro fuel
  induction fuel with
  | zero =>
    intro text k res e h
    cases h
    exact Or.inl rfl
  | succ m ih =>
    intro text k res e h
    simp only [vsformat_loop] at h
    cases hfind : string_view.find_first_of ⟨text, []⟩ '{' with
    | none => rw [hfind] at h; cases h
    | some pos =>
      rw [hfind] at h
      simp only at h
      generalize parse_argument Data.unset (string_view.substr ⟨text, []⟩ (pos + 1)
        ((string_view.substr ⟨text, []⟩ (pos + 1)).find_first_of '}')) = parsed at h
      by_cases hparse : parsed.1 = false
      · rw [if_pos hparse] at h
        cases h
        exact Or.inr (Or.inl (Or.inl ⟨_, rfl⟩))
      · rw [if_neg hparse] at h
        by_cases hidx : parsed.2.d0 ≠ -1
        · rw [if_pos hidx] at h
          have hout := aiformat_outcome to_double (size_t parsed.2.d0) parsed.2 args
          generalize aiformat to_double (size_t parsed.2.d0) parsed.2 args = q at hout h
          cases q with
          | error e1 =>
            cases h
            exact Or.inr (hout _ rfl)
          | ok s => exact ih _ _ _ _ h
        · rw [if_neg hidx] at h
          have hout := aiformat_outcome to_double k parsed.2 args
          generalize aiformat to_double k parsed.2 args = q at hout h
          cases q with
          | error e1 =>
            cases h
            exact Or.inr (hout _ rfl)
          | ok s => exact ih _ _ _ _ h

/-- Claim C33, as the code has it: `vsformat` is total.  For every template
and argument list the loop comes to an end, and one iteration for each `{` of
the template and the last one, which finds none, are enough: under that fuel
the loop has the result of `vsformat`.  The call returns a string or raises
one of the errors of the expansion (the syntax error, the index out of range,
the unsupported subscript, the unsupported conversion), but these are not its
only outcomes: a failure of the library under the formatters comes through,
a `std::length_error` or undefined behaviour.  On `{:^2}` with the
`std::string` `abcd` the call raises `std::length_error`, which is none of
the errors of the expansion. -/
theorem vsformat_outcome (to_double : Int → Floating) (fmt : Str) (args : List Arg) :
    terminates (vsformat to_double fmt args) ∧
      vsformat_loop to_double args (fmt.count '\x7b' + 1) fmt 0 [] =
        vsformat to_double fmt args ∧
      ((∃ s, vsformat to_double fmt args = .ok s) ∨
        ∃ e, vsformat to_double fmt args = .error e ∧
          (expansion_error e ∨ e = .length_error ∨ e = .undefined)) ∧
      vsformat no_double "\x7b:^2\x7d".toList [.string "abcd".toList] = .error .length_error ∧
      ¬ expansion_error .length_error := by
  obtain ⟨h1, h2⟩ := vsformat_loop_total to_double args fmt.length fmt (le_refl _)
    (fmt.count '\x7b' + 1) 0 [] (Nat.lt_succ_self _)
  have hterm : terminates (vsformat to_double fmt args) := by
    unfold vsformat
    exact h2 ▸ h1
  refine ⟨hterm, (by unfold vsformat; exact h2), ?_, by decide, ?_⟩
  · cases hr : vsformat to_double fmt args with
    | ok s => exact Or.inl ⟨s, rfl⟩
    | error e =>
      refine Or.inr ⟨e, rfl, ?_⟩
      have hcl := vsformat_loop_outcome to_double args (fmt.length + 1) fmt 0 [] e hr
      rcases hcl with h | h
      · exact absurd (h ▸ hr) hterm
      · exact h
  · intro h
    rcases h with ⟨_, h⟩ | ⟨_, h⟩ | ⟨_, _, h⟩ | ⟨_, _, _, h⟩ <;> cases h

/-! ## The index slot of a parsed field, explicit and automatic indices -/

/-- A text that holds `c` splits at the first `c`. -/
theorem split_at_first (c : Char) : ∀ l : Str, c ∈ l →
    ∃ a b, l = a ++ c :: b ∧ c ∉ a := by
  intro l
  induction l with
  | nil => intro h; cases h
  | cons x t ih =>
    intro h
    by_cases hx : x = c
    · exact ⟨[], t, by rw [hx]; rfl, List.not_mem_nil _⟩
    · have ht : c ∈ t := by
        rcases List.mem_cons.mp h with e | e
        · exact absurd e.symm hx
        · exact e
      obtain ⟨a, b, e, ha⟩ := ih ht
      refine ⟨x :: a, b, by rw [e]; rfl, ?_⟩
      intro hm
      rcases List.mem_cons.mp hm with e1 | e1
      · exact hx e1.symm
      · exact ha e1

/-- The specifier part of the parse leaves the index slot as it is. -/
theorem parse_spec_index (d : Data) (v : string_view) : (parse_spec d v).2.d0 = d.d0 := by
  have h0 : (spec_fill v d).1.d0 = d.d0 := by
    unfold spec_fill
    split <;> rfl
  have hchar : ∀ (test : Char → Bool) (store : Data → Char → Data) (s : Scan),
      (∀ x c, (store x c).d0 = x.d0) → s.1.d0 = d.d0 →
      (∀ s1, spec_char v test store s = .ok s1 → s1.1.d0 = d.d0) ∧
        ∀ r, spec_char v test store s = .error r → r.2.d0 = d.d0 :=
    fun test store s hst hs =>
      spec_char_keeps v test store s (fun x => x.d0 = d.d0) hs (fun c _ => (hst _ c).trans hs)
  have hwidth : ∀ s : Scan, s.1.d0 = d.d0 →
      (∀ s1, spec_width v s = .ok s1 → s1.1.d0 = d.d0) ∧
        ∀ r, spec_width v s = .error r → r.2.d0 = d.d0 := by
    intro s hs
    unfold spec_width
    simp only
    split
    · exact ⟨fun s1 h => (by cases h), fun r h => (by cases h; exact hs)⟩
    · exact ⟨fun s1 h => (by cases h; exact hs), fun r h => (by cases h)⟩
  have hprec : ∀ s : Scan, s.1.d0 = d.d0 →
      (∀ s1, spec_precision v s = .ok s1 → s1.1.d0 = d.d0) ∧
        ∀ r, spec_precision v s = .error r → r.2.d0 = d.d0 := by
    intro s hs
    unfold spec_precision
    simp only
    split
    · split
      · exact ⟨fun s1 h => (by cases h), fun r h => (by cases h; exact hs)⟩
      · exact ⟨fun s1 h => (by cases h; exact hs), fun r h => (by cases h)⟩
    · split
      · exact ⟨fun s1 h => (by cases h), fun r h => (by cases h; exact hs)⟩
      · exact ⟨fun s1 h => (by cases h; exact hs), fun r h => (by cases h)⟩
  have hconv : ∀ s : Scan, s.1.d0 = d.d0 → (spec_conversion v s).2.d0 = d.d0 := by
    intro s hs
    unfold spec_conversion
    simp only
    split_ifs <;> exact hs
  have halign : ∀ s : Scan, s.1.d0 = d.d0 →
      (∀ s1, spec_align v s = .ok s1 → s1.1.d0 = d.d0) ∧
        ∀ r, spec_align v s = .error r → r.2.d0 = d.d0 :=
    fun s hs => hchar is_align (fun data c => { data with d2 := align_code c }) s
      (fun _ _ => rfl) hs
  have hsign : ∀ s : Scan, s.1.d0 = d.d0 →
      (∀ s1, spec_sign v s = .ok s1 → s1.1.d0 = d.d0) ∧
        ∀ r, spec_sign v s = .error r → r.2.d0 = d.d0 :=
    fun s hs => hchar is_sign (fun data c => { data with d3 := sign_code c }) s
      (fun _ _ => rfl) hs
  have hzero : ∀ s : Scan, s.1.d0 = d.d0 →
      (∀ s1, spec_zero v s = .ok s1 → s1.1.d0 = d.d0) ∧
        ∀ r, spec_zero v s = .error r → r.2.d0 = d.d0 :=
    fun s hs => hchar (fun c => c = '0') (fun data _ => { data with d1 := int_of_char '0' }) s
      (fun _ _ => rfl) hs
  unfold parse_spec spec_steps
  cases h1 : spec_align v (spec_fill v d) with
  | error r1 => exact (halign _ h0).2 r1 h1
  | ok s1 =>
    simp only [Except.bind]
    have g1 := (halign _ h0).1 s1 h1
    cases h2 : spec_sign v s1 with
    | error r2 => exact (hsign _ g1).2 r2 h2
    | ok s2 =>
      simp only [Except.bind]
      have g2 := (hsign _ g1).1 s2 h2
      cases h3 : spec_zero v s2 with
      | error r3 => exact (hzero _ g2).2 r3 h3
      | ok s3 =>
        simp only [Except.bind]
        have g3 := (hzero _ g2).1 s3 h3
        cases h4 : spec_width v s3 with
        | error r4 => exact (hwidth _ g3).2 r4 h4
        | ok s4 =>
          simp only [Except.bind]
          have g4 := (hwidth _ g3).1 s4 h4
          cases h5 : spec_precision v s4 with
          | error r5 => exact (hprec _ g4).2 r5 h5
          | ok s5 => exact hconv _ ((hprec _ g4).1 s5 h5)

/-- The index part of the parse on a text that starts with `[`: the index slot
is left as it is. -/
theorem parse_index_bracket (d : Data) (t after : Str) :
    (parse_index d ⟨'[' :: t, after⟩).d0 = d.d0 := by
  have h : string_view.find_first_of ⟨'[' :: t, after⟩ '[' = some 0 :=
    @find_first_of_some [] t after '[' (List.not_mem_nil _)
  unfold parse_index
  rw [h]
  rfl

/-- The index part of the parse on a text that does not start with `[` and is
not empty: the index slot is `atoi` of the buffer at the start of the text. -/
theorem parse_index_head (d : Data) (c : Char) (t after : Str) (hc : c ≠ '[') :
    (parse_index d ⟨c :: t, after⟩).d0 = atoi (c :: t ++ after) := by
  by_cases hb : '[' ∈ c :: t
  · obtain ⟨a, b, e, ha⟩ := split_at_first '[' (c :: t) hb
    have hlen : a.length ≠ 0 := by
      intro h0
      have ha0 : a = [] := List.length_eq_zero.mp h0
      rw [ha0] at e
      simp only [List.nil_append, List.cons.injEq] at e
      exact hc e.1
    rw [e]
    unfold parse_index
    rw [find_first_of_some ha]
    simp only [string_view.substr, string_view.size, string_view.c_str, List.drop_zero,
      take_length_append, drop_length_append, ne_eq, hlen, not_false_eq_true, if_true,
      List.append_assoc]
  · unfold parse_index
    rw [find_first_of_none hb]
    rfl

/-- The index slot that `parse_argument` leaves: unset for the empty text, for
a text that starts with the colon and for a text that starts with `[` and has
a colon; in every other case `atoi` of the buffer at the start of the text. -/
theorem parse_argument_index_slot (d : Data) (f after : Str) :
    (parse_argument d ⟨f, after⟩).2.d0 =
      if f = [] ∨ f.head? = some ':' ∨ (f.head? = some '[' ∧ ':' ∈ f) then -1
      else atoi (f ++ after) := by
  by_cases hc : ':' ∈ f
  · obtain ⟨idx, spec, e, hidx⟩ := split_at_first ':' f hc
    subst e
    unfold parse_argument
    simp only [find_first_of_some hidx, string_view.substr, drop_length_succ_append,
      take_length_append, drop_length_append, List.drop_zero]
    rw [parse_spec_index]
    cases idx with
    | nil => simp [string_view.size, Data.unset]
    | cons c t =>
      have hne : c ≠ ':' := fun h => hidx (h ▸ List.mem_cons_self _ _)
      have hsz : (string_view.size ⟨c :: t, ':' :: spec ++ after⟩ ≠ 0) := by
        simp [string_view.size]
      rw [if_pos hsz]
      by_cases hb : c = '['
      · subst hb
        rw [parse_index_bracket]
        simp [Data.unset]
      · rw [parse_index_head _ c t _ hb]
        have hcond : ¬ (c :: t ++ ':' :: spec = [] ∨ (c :: t ++ ':' :: spec).head? = some ':' ∨
            ((c :: t ++ ':' :: spec).head? = some '[' ∧ ':' ∈ c :: t ++ ':' :: spec)) := by
          simp [hne, hb]
        rw [if_neg hcond]
        simp
  · unfold parse_argument
    rw [find_first_of_none hc]
    cases f with
    | nil => simp [string_view.size, Data.unset]
    | cons c t =>
      have hne : c ≠ ':' := fun h => hc (h ▸ List.mem_cons_self _ _)
      have hsz : (string_view.size ⟨c :: t, after⟩ ≠ 0) := by simp [string_view.size]
      have hcond : ¬ (c :: t = [] ∨ (c :: t).head? = some ':' ∨
          ((c :: t).head? = some '[' ∧ ':' ∈ c :: t)) := by
        simp only [List.head?_cons, Option.some.injEq, hne, false_or, not_and, reduceCtorEq]
        intro _
        exact hc
      simp only []
      rw [if_pos hsz, if_neg hcond]
      show (parse_index _ ⟨c :: t, after⟩).d0 = _
      by_cases hb : c = '['
      · subst hb
        rw [parse_index_bracket]
        rfl
      · rw [parse_index_head _ c t _ hb]

/-- The digit loop of `atoi` reads the digits at the start of the field text
and stops inside the text or at the end of the field. -/
theorem digits_value_takeWhile (r : Str) (hr : no_digit_ahead r) :
    ∀ (f : Str) (acc : Nat), digits_value (f ++ r) acc =
      (f.takeWhile isdigit).foldl (fun a c => a * 10 + (c.toNat - 48)) acc := by
  intro f
  induction f with
  | nil =>
    intro acc
    exact digits_value_stop_at r hr acc
  | cons c f ih =>
    intro acc
    by_cases hc : isdigit c = true
    · simp only [List.cons_append, digits_value, hc, if_true, List.takeWhile_cons,
        List.foldl_cons]
      exact ih _
    · simp only [List.cons_append, digits_value, hc, List.takeWhile_cons, List.foldl_nil]
      rfl

/-- On a text that starts with a digit `atoi` is its digit loop. -/
theorem atoi_digit_head (c : Char) (t : Str) (hc : isdigit c = true) :
    atoi (c :: t) = digits_value (c :: t) 0 := by
  have hsp : isspace c = false := by
    simp only [isdigit, Bool.and_eq_true, decide_eq_true_eq] at hc
    simp only [isspace, Bool.or_eq_false_iff, decide_eq_false_iff_not, Bool.and_eq_false_iff]
    constructor
    · intro h; subst h; revert hc; decide
    · right; omega
  have h1 : c ≠ '-' := by intro h; subst h; revert hc; decide
  have h2 : c ≠ '+' := by intro h; subst h; revert hc; decide
  have e : List.dropWhile isspace (c :: t) = c :: t := by
    simp [List.dropWhile, hsp]
  unfold atoi
  rw [e]
  split <;> simp_all

/-- A `std::size_t` holds a value below `2 ^ 31` as it is. -/
theorem size_t_small (i : Nat) (h : i < 2 ^ 31) : size_t (i : Int) = i := by
  unfold size_t
  have h2 : (2 : Int) ^ 64 = 18446744073709551616 := by norm_num
  have h3 : (2 : Nat) ^ 31 = 2147483648 := by norm_num
  rw [h2]
  rw [h3] at h
  omega

/-- On a regular field text the parser and the text agree on the index: both
have none, or the index slot is the explicit index of the text. -/
theorem regular_field_index (f : Str) (h : regular_field f = true) :
    (explicit_index f = none ∧ (parse_argument Data.unset ⟨f, ['\x7d']⟩).2.d0 = -1) ∨
      ∃ i : Nat, explicit_index f = some i ∧
        (parse_argument Data.unset ⟨f, ['\x7d']⟩).2.d0 = i ∧ i < 2 ^ 31 := by
  rw [parse_argument_index_slot]
  cases f with
  | nil => exact Or.inl ⟨rfl, by simp⟩
  | cons c t =>
    unfold regular_field at h
    simp only at h
    by_cases h1 : c = ':'
    · subst h1
      exact Or.inl ⟨by simp [explicit_index, List.takeWhile_cons, isdigit], by simp⟩
    · rw [if_neg h1] at h
      by_cases h2 : c = '['
      · subst h2
        rw [if_pos rfl] at h
        have hm : ':' ∈ t := of_decide_eq_true h
        refine Or.inl ⟨?_, ?_⟩
        · simp [explicit_index, List.takeWhile_cons, isdigit]
        · rw [if_pos (Or.inr (Or.inr ⟨rfl, List.mem_cons_of_mem _ hm⟩))]
      · rw [if_neg h2] at h
        simp only [Bool.and_eq_true, decide_eq_true_eq] at h
        obtain ⟨hd, hlt⟩ := h
        refine Or.inr ⟨decimal_value ((c :: t).takeWhile isdigit), ?_, ?_, hlt⟩
        · simp [explicit_index, List.takeWhile_cons, hd]
        · have hcond : ¬ (c :: t = [] ∨ (c :: t).head? = some ':' ∨
              ((c :: t).head? = some '[' ∧ ':' ∈ c :: t)) := by
            simp [h1, h2]
          rw [if_neg hcond]
          have e := atoi_digit_head c (t ++ ['\x7d']) hd
          have e2 := digits_value_takeWhile ['\x7d'] (by intro x hx; cases hx; decide) (c :: t) 0
          simp only [List.cons_append] at e2 ⊢
          rw [e, e2]
          rfl

/-- On a template in parts whose fields are regular, the loop of `vsformat`
under the cursor `j mod n` is the expansion of the specification with `j`
fields without index in front. -/
theorem template_loop (to_double : Int → Floating) (args : List Arg) (hn : 0 < args.length)
    (last : Str) (hlast : '{' ∉ last) :
    ∀ (fields : List (Str × Str)),
      (∀ p ∈ fields, '{' ∉ p.1 ∧ '}' ∉ p.2 ∧ regular_field p.2 = true) →
      ∀ (fuel j : Nat) (res : Str), (template fields last).length < fuel →
        vsformat_loop to_double args fuel (template fields last) (j % args.length) res =
          (expand_fields to_double args j fields last).map (fun r => res ++ r) := by
  intro fields
  induction fields with
  | nil =>
    intro _ fuel j res hf
    cases fuel with
    | zero => omega
    | succ m => simp [template, vsformat_loop, find_first_of_none hlast, expand_fields, Except.map]
  | cons p fs ih =>
    intro hwf fuel j res hf
    obtain ⟨pre, f⟩ := p
    have hp := hwf (pre, f) (List.mem_cons_self _ _)
    have ih1 := ih (fun q hq => hwf q (List.mem_cons_of_mem _ hq))
    cases fuel with
    | zero => omega
    | succ m =>
      have hm : (template fs last).length < m := by
        simp only [template, List.length_append, List.length_cons] at hf
        omega
      simp only [template, expand_fields]
      rw [vsformat_loop_field to_double args m pre f _ _ res hp.1 hp.2.1,
        parse_argument_closed f (template fs last) Data.unset Data.unset,
        cursor_step j _ hn]
      by_cases h1 : (parse_argument Data.unset ⟨f, ['\x7d']⟩).1 = false
      · rw [if_pos h1, if_pos h1]
        rfl
      · rw [if_neg h1, if_neg h1]
        rcases regular_field_index f hp.2.2 with ⟨hnone, hd⟩ | ⟨i, hsome, hd, hi⟩
        · rw [hnone, if_neg (not_not.mpr hd)]
          simp only
          rw [auto_field_eq to_double args hn]
          cases auto_field to_double args j _ with
          | error e => rfl
          | ok s =>
            simp only [ih1 m (j + 1) _ hm]
            cases expand_fields to_double args (j + 1) fs last <;> simp [Except.map]
        · have hne : (parse_argument Data.unset ⟨f, ['\x7d']⟩).2.d0 ≠ -1 := by
            rw [hd]
            omega
          rw [hsome, if_pos hne]
          simp only
          rw [hd, size_t_small i hi]
          cases aiformat to_double i _ args with
          | error e => rfl
          | ok s =>
            simp only [ih1 m j _ hm]
            cases expand_fields to_double args j fs last <;> simp [Except.map]

/-- Claim C3, as the code has it.  With `n >= 1` arguments, on every template
whose fields are regular (empty, a specifier alone, a subscript followed by a
specifier, or a text that starts with an index below `2 ^ 31`) `vsformat` is
the expansion of the specification: the field without explicit index that has
`j` such fields in front of it is rendered from argument `j mod n`, so the
cursor wraps to argument 0 after `n` of them, and a field with an explicit
index is rendered from that index and leaves the count alone.  A field that is
a subscript alone is not among them: it has no explicit index, but the parser
takes `atoi` of its text for one (line 994), so that it is rendered from
argument 0 and leaves the cursor alone.  On `{}{[1]}` with the arguments `ab`
and `cd` the second field is rendered from `ab`, not from `cd`: the result is
`abb`, where the specification gives `abd`; and on `{[1]}{}` the second field
is rendered from argument 0 again, `bab` for `bcd`. -/
theorem auto_index_subscript_alone (to_double : Int → Floating) (args : List Arg)
    (hn : 1 ≤ args.length) :
    (∀ (fields : List (Str × Str)) (last : Str),
        (∀ p ∈ fields, '{' ∉ p.1 ∧ '}' ∉ p.2 ∧ regular_field p.2 = true) → '{' ∉ last →
        vsformat to_double (template fields last) args =
          expand_fields to_double args 0 fields last) ∧
      (vsformat no_double "\x7b\x7d\x7b[1]\x7d".toList [.c_str "ab".toList, .c_str "cd".toList] =
          .ok "abb".toList ∧
        expand_fields no_double [.c_str "ab".toList, .c_str "cd".toList] 0
          [([], []), ([], "[1]".toList)] [] = .ok "abd".toList) ∧
      (vsformat no_double "\x7b[1]\x7d\x7b\x7d".toList [.c_str "ab".toList, .c_str "cd".toList] =
          .ok "bab".toList ∧
        expand_fields no_double [.c_str "ab".toList, .c_str "cd".toList] 0
          [([], "[1]".toList), ([], [])] [] = .ok "bcd".toList) := by
  refine ⟨?_, by decide, by decide⟩
  intro fields last hfields hlast
  have h := template_loop to_double args hn last hlast fields hfields
    ((template fields last).length + 1) 0 [] (Nat.lt_succ_self _)
  rw [Nat.zero_mod] at h
  unfold vsformat
  rw [h]
  cases expand_fields to_double args 0 fields last <;> simp [Except.map]

/-- Witness of `auto_index_subscript_alone`: with the two arguments 1 and 2,
the third and fourth field without index of `a{}b{0}c{}d{}e{}` render
arguments 0 and 1 again, and the third of three fields `{}` renders argument 0. -/
theorem auto_index_subscript_alone_witness :
    vsformat no_double "a\x7b\x7db\x7b0\x7dc\x7b\x7dd\x7b\x7de\x7b\x7d".toList [.int 1, .int 2] =
        expand_fields no_double [.int 1, .int 2] 0
          [("a".toList, []), ("b".toList, "0".toList), ("c".toList, []), ("d".toList, []),
            ("e".toList, [])] [] ∧
      expand_fields no_double [.int 1, .int 2] 0
          [("a".toList, []), ("b".toList, "0".toList), ("c".toList, []), ("d".toList, []),
            ("e".toList, [])] [] = .ok "a1b1c2d1e2".toList ∧
      vsformat no_double "\x7b\x7d\x7b\x7d\x7b\x7d".toList [.int 1, .int 2] = .ok "121".toList :=
  ⟨(auto_index_subscript_alone no_double [.int 1, .int 2] (by decide)).1
      [("a".toList, []), ("b".toList, "0".toList), ("c".toList, []), ("d".toList, []),
        ("e".toList, [])] [] (by decide) (by decide),
    by decide, by decide⟩

end estl.format
